import Mathlib

/-!
# BufferManager: the buffer pool of BadgerDB, in its CLOCK and LRU variants

A shallow embedding of `src/clock/src/buffer.cpp` and `src/lru/src/buffer.cpp`.

* A `File*` is a `FilePtr` (`Option Nat`); `none` is the null pointer.
* The two parallel arrays `bufDescTable` and `bufPool` are lists; `numBufs` is the
  length of `bufDescTable` (both arrays are allocated once, with `bufs` elements).
* A C++ exception leaves the pool as it was when it was thrown, so every operation
  returns a `Res`: the outcome, the pool state at return or throw, and the calls made
  on the `File` collaborator, in order.
* What a `File` answers (`readPage`, `allocatePage`) is a parameter of the operation
  that asks for it.
* `FrameId` is `std::uint32_t`: `clockHand++` and `2*numBufs` wrap at `2^32`.
-/

namespace BufferManager

abbrev FrameId := Nat
abbrev PageId := Nat

/-- A pointer to a `File`; `none` is the null pointer. -/
abbrev FilePtr := Option Nat

/-- Modelled from the spec: the `Page` of the page store (its layout is not in the core):
a page carries its own page number, read by `page_number()`, and a payload. -/
structure Page where
  page_number : PageId
  data : Nat
deriving DecidableEq, Repr

instance : Inhabited Page := ⟨⟨0, 0⟩⟩

/-- Modelled from the spec: the frame descriptor `BufDesc` of `buffer.h`, which is not
among the sources. `frameNo` is the position in `bufDescTable`: the constructor of the
pool assigns it and nothing writes it again. `counter` is used by the LRU variant only. -/
structure BufDesc where
  file : FilePtr
  pageNo : PageId
  pinCnt : Nat
  dirty : Bool
  valid : Bool
  refbit : Bool
  counter : Int
deriving DecidableEq, Repr

/-- Modelled from the spec: the free state, which `Clear()` and the constructor of
`BufDesc` leave a descriptor in. -/
def BufDesc.free : BufDesc :=
  { file := none, pageNo := 0, pinCnt := 0, dirty := false, valid := false,
    refbit := false, counter := 0 }

instance : Inhabited BufDesc := ⟨BufDesc.free⟩

/-- Modelled from the spec: `BufDesc::Clear()` resets all fields to the free state. -/
def BufDesc.Clear (_d : BufDesc) : BufDesc := BufDesc.free

/-- Modelled from the spec: `BufDesc::Set(file, pageNo)`. -/
def BufDesc.Set (_d : BufDesc) (file : FilePtr) (pageNo : PageId) : BufDesc :=
  { file := file, pageNo := pageNo, pinCnt := 1, dirty := false, valid := true,
    refbit := true, counter := 0 }

/-- The key of the lookup map. -/
abbrev Key := FilePtr × PageId

/-- Modelled from the spec: the lookup map `BufHashTbl` (`bufHashTbl.cpp` is not among
the sources): entries `(file, page-id) → frame-index`. -/
abbrev BufHashTbl := List (Key × FrameId)

/-- Modelled from the spec: `lookup(file, page-id)`; `none` is `HashNotFound`. -/
def BufHashTbl.lookup (k : Key) : BufHashTbl → Option FrameId
  | [] => none
  | e :: t => if e.1 = k then some e.2 else BufHashTbl.lookup k t

/-- Modelled from the spec: `remove(file, page-id)`. -/
def BufHashTbl.remove (k : Key) (m : BufHashTbl) : BufHashTbl :=
  m.filter (fun e => decide (e.1 ≠ k))

/-- Modelled from the spec: `insert(file, page-id, frame-index)`; keys stay unique. -/
def BufHashTbl.insert (k : Key) (v : FrameId) (m : BufHashTbl) : BufHashTbl :=
  (k, v) :: BufHashTbl.remove k m

/-- The exceptions of the buffer manager; `InvalidPage` is the failure of
`File::readPage`. -/
inductive Exc where
  | BufferExceeded
  | PageNotPinned
  | PagePinned
  | BadBuffer
  | HashNotFound
  | InvalidPage
deriving DecidableEq, Repr

/-- A call made on the `File` collaborator. -/
inductive FileCall where
  | readPage (file : FilePtr) (pageNo : PageId)
  | writePage (file : FilePtr) (page : Page)
  | allocatePage (file : FilePtr)
  | deletePage (file : FilePtr) (pageNo : PageId)
deriving DecidableEq, Repr

/-- How a call ends: it returns a value or throws. -/
inductive Outcome (α : Type) where
  | ok (a : α)
  | threw (e : Exc)
deriving DecidableEq, Repr

/-- The state of a `BufMgr`. -/
structure BufMgr where
  bufDescTable : List BufDesc
  bufPool : List Page
  hashTable : BufHashTbl
  clockHand : FrameId
deriving DecidableEq, Repr

/-- The result of an operation: outcome, pool state, calls on the files. -/
structure Res (α : Type) where
  out : Outcome α
  state : BufMgr
  calls : List FileCall
deriving DecidableEq, Repr

def BufMgr.numBufs (s : BufMgr) : Nat := s.bufDescTable.length

/-- Reads `bufDescTable[i]`. -/
def BufMgr.desc (s : BufMgr) (i : FrameId) : BufDesc := s.bufDescTable.getD i default

/-- Writes `bufDescTable[i]`. -/
def BufMgr.setDesc (s : BufMgr) (i : FrameId) (d : BufDesc) : BufMgr :=
  { s with bufDescTable := s.bufDescTable.set i d }

/-- Reads `bufPool[i]`. -/
def BufMgr.page (s : BufMgr) (i : FrameId) : Page := s.bufPool.getD i default

/-- Writes `bufPool[i]`. -/
def BufMgr.setPage (s : BufMgr) (i : FrameId) (p : Page) : BufMgr :=
  { s with bufPool := s.bufPool.set i p }

/-- The key a descriptor holds. -/
def BufDesc.key (d : BufDesc) : Key := (d.file, d.pageNo)

/-- `BufMgr::BufMgr(bufs)`: every descriptor free, the map empty, `clockHand = bufs - 1`
in 32-bit arithmetic. -/
def BufMgr.init (bufs : Nat) : BufMgr :=
  { bufDescTable := List.replicate bufs BufDesc.free
    bufPool := List.replicate bufs default
    hashTable := []
    clockHand := (bufs + 4294967295) % 4294967296 }

/-- `BufMgr::advanceClock`. -/
def advanceClock (s : BufMgr) : BufMgr :=
  { s with clockHand := ((s.clockHand + 1) % 4294967296) % s.numBufs }

/-- The value of `2*numBufs` in 32-bit arithmetic. -/
def sweepBound (s : BufMgr) : Nat := (2 * s.numBufs) % 4294967296

/-- `BufMgr::~BufMgr`: the calls it makes on the files (the same in both variants). -/
def destructorFrom : Nat → FrameId → BufMgr → List FileCall
  | 0, _, _ => []
  | n + 1, i, s =>
    if (s.desc i).dirty = true then
      FileCall.writePage (s.desc i).file (s.page i) :: destructorFrom n (i + 1) s
    else destructorFrom n (i + 1) s

def destructor (s : BufMgr) : List FileCall := destructorFrom s.numBufs 0 s

/-- The loop of `BufMgr::flushFile`, with `n` frames left, at frame `i` (the same in
both variants). -/
def flushFileFrom (file : FilePtr) : Nat → FrameId → BufMgr → List FileCall → Res Unit
  | 0, _, s, cs => ⟨.ok (), s, cs⟩
  | n + 1, i, s, cs =>
    if (s.desc i).file = file then
      if (s.desc i).pinCnt > 0 then ⟨.threw .PagePinned, s, cs⟩
      else if (s.desc i).valid = false then ⟨.threw .BadBuffer, s, cs⟩
      else if (s.desc i).dirty = true then
        flushFileFrom file n (i + 1)
          ({ s with hashTable := s.hashTable.remove (file, (s.desc i).pageNo) }.setDesc i
            (s.desc i).Clear)
          (cs ++ [FileCall.writePage (s.desc i).file (s.page i)])
      else flushFileFrom file n (i + 1) s cs
    else flushFileFrom file n (i + 1) s cs

/-- `BufMgr::flushFile`. -/
def flushFile (s : BufMgr) (file : FilePtr) : Res Unit :=
  flushFileFrom file s.numBufs 0 s []

/-- `BufMgr::unPinPage` (the same in both variants). -/
def unPinPage (s : BufMgr) (file : Nat) (pageNo : PageId) (dirty : Bool) : Res Unit :=
  match s.hashTable.lookup (some file, pageNo) with
  | none => ⟨.threw .HashNotFound, s, []⟩
  | some frame =>
    if (s.desc frame).pinCnt = 0 then ⟨.threw .PageNotPinned, s, []⟩
    else
      let s1 := s.setDesc frame { s.desc frame with pinCnt := (s.desc frame).pinCnt - 1 }
      if dirty = true then
        ⟨.ok (), s1.setDesc frame { s1.desc frame with dirty := true }, []⟩
      else ⟨.ok (), s1, []⟩

/-- `BufMgr::disposePage` (the same in both variants). -/
def disposePage (s : BufMgr) (file : Nat) (pageNo : PageId) : Res Unit :=
  match s.hashTable.lookup (some file, pageNo) with
  | some frameid =>
    ⟨.ok (),
      { s with hashTable := s.hashTable.remove (some file, pageNo) }.setDesc frameid
        (s.desc frameid).Clear,
      [FileCall.deletePage (some file) pageNo]⟩
  | none => ⟨.ok (), s, [FileCall.deletePage (some file) pageNo]⟩

namespace Clock

/-- The sweep of `BufMgr::allocBuf`, with `k` iterations left (`k` is
`2*numBufs + 1 - buffsChecked`). `none` is the exit through the loop condition, after
which `buffsChecked > 2*numBufs`; `some frame` is an exit through `break`. -/
def allocBufLoop : Nat → BufMgr → List FileCall → Option FrameId × BufMgr × List FileCall
  | 0, s, cs => (none, s, cs)
  | k + 1, s, cs =>
    let s1 := advanceClock s
    let d := s1.desc s1.clockHand
    if d.valid = true then
      if d.refbit = false then
        if d.pinCnt = 0 then
          if d.dirty = true then
            (some s1.clockHand,
              { s1.setDesc s1.clockHand { d with dirty := false } with
                hashTable := s1.hashTable.remove (d.file, d.pageNo) },
              cs ++ [FileCall.writePage d.file (s1.page s1.clockHand)])
          else
            (some s1.clockHand,
              { s1 with hashTable := s1.hashTable.remove (d.file, d.pageNo) }, cs)
        else allocBufLoop k s1 cs
      else allocBufLoop k (s1.setDesc s1.clockHand { d with refbit := false }) cs
    else (some s1.clockHand, s1, cs)

/-- `BufMgr::allocBuf` of the CLOCK variant. -/
def allocBuf (s : BufMgr) : Res FrameId :=
  match allocBufLoop (sweepBound s + 1) s [] with
  | (none, s1, cs) => ⟨.threw .BufferExceeded, s1, cs⟩
  | (some frame, s1, cs) =>
    ⟨.ok frame, s1.setDesc s1.clockHand (s1.desc s1.clockHand).Clear, cs⟩

/-- `BufMgr::readPage` of the CLOCK variant; `answer` is what `file->readPage(pageNo)`
gives when it is called (`none`: it throws). The reference returned is the frame. -/
def readPage (s : BufMgr) (file : Nat) (pageNo : PageId) (answer : Option Page) :
    Res FrameId :=
  match s.hashTable.lookup (some file, pageNo) with
  | some frameID =>
    ⟨.ok frameID,
      s.setDesc frameID { s.desc frameID with pinCnt := (s.desc frameID).pinCnt + 1 }, []⟩
  | none =>
    let r := allocBuf s
    match r.out with
    | .threw e => ⟨.threw e, r.state, r.calls⟩
    | .ok frameID =>
      match answer with
      | none =>
        ⟨.threw .InvalidPage, r.state, r.calls ++ [FileCall.readPage (some file) pageNo]⟩
      | some pg =>
        let s1 := r.state.setPage frameID pg
        let s2 := { s1 with hashTable := s1.hashTable.insert (some file, pageNo) frameID }
        ⟨.ok frameID, s2.setDesc frameID ((s2.desc frameID).Set (some file) pageNo),
          r.calls ++ [FileCall.readPage (some file) pageNo]⟩

/-- `BufMgr::allocPage` of the CLOCK variant; `fresh` is the page `file->allocatePage()`
returns, which is assigned to `bufPool[frameid]` and whose number is read back from
there. A caught `BufferExceeded` is thrown again. -/
def allocPage (s : BufMgr) (file : Nat) (fresh : Page) : Res (PageId × FrameId) :=
  let r := allocBuf s
  match r.out with
  | .threw e => ⟨.threw e, r.state, r.calls⟩
  | .ok frameid =>
    let s1 := r.state.setPage frameid fresh
    let pageNo := fresh.page_number
    let s2 := { s1 with hashTable := s1.hashTable.insert (some file, pageNo) frameid }
    ⟨.ok (pageNo, frameid), s2.setDesc frameid ((s2.desc frameid).Set (some file) pageNo),
      r.calls ++ [FileCall.allocatePage (some file)]⟩

end Clock

namespace Lru

/-- The loop `counter++` on every valid descriptor, which opens `BufMgr::allocBuf` and
closes `BufMgr::readPage`. -/
def bumpCounters (s : BufMgr) : BufMgr :=
  { s with bufDescTable :=
      s.bufDescTable.map (fun d => if d.valid = true then { d with counter := d.counter + 1 }
        else d) }

/-- The number of valid descriptors, `filledFrames` after the first loop. -/
def filledFrames (s : BufMgr) : Nat := (s.bufDescTable.filter (fun d => d.valid)).length

/-- The loop `while (!flag)` of `BufMgr::allocBuf`: the first `z` with
`bufDescTable[z].valid == false`, counting from `z`. The source enters it only when some
descriptor is not valid (`filledFrames < numBufs`). -/
def firstFree : List BufDesc → FrameId → FrameId
  | [], z => z
  | d :: ds, z => if d.valid = false then z else firstFree ds (z + 1)

/-- The sweep of `BufMgr::allocBuf` over a full pool, with `k` iterations left (`k` is
`2*numBufs - bufCount`); `max` and `maxFrame` are the variables of the source. It
returns `maxFrame` when the loop ends and throws from inside the loop. -/
def sweep : Nat → Int → FrameId → BufMgr → List FileCall → Res FrameId
  | 0, _, maxFrame, s, cs => ⟨.ok maxFrame, s, cs⟩
  | k + 1, max, maxFrame, s, cs =>
    if max ≠ -1 then ⟨.ok maxFrame, s, cs⟩
    else
      let s1 := advanceClock s
      let d := s1.desc s1.clockHand
      if d.valid = true then
        if d.refbit = false then
          if d.pinCnt = 0 then
            let s2 := if d.dirty = true then s1.setDesc s1.clockHand { d with dirty := false }
              else s1
            let cs2 := if d.dirty = true then
                cs ++ [FileCall.writePage d.file (s1.page s1.clockHand)]
              else cs
            if d.counter > max then sweep k d.counter s1.clockHand s2 cs2
            else if k = 0 then ⟨.threw .BufferExceeded, s2, cs2⟩
            else sweep k max maxFrame s2 cs2
          else if k = 0 then ⟨.threw .BufferExceeded, s1, cs⟩
          else sweep k max maxFrame s1 cs
        else if k = 0 then
          ⟨.threw .BufferExceeded, s1.setDesc s1.clockHand { d with refbit := false }, cs⟩
        else sweep k max maxFrame (s1.setDesc s1.clockHand { d with refbit := false }) cs
      else if k = 0 then ⟨.threw .BufferExceeded, s1, cs⟩
      else sweep k max maxFrame s1 cs

/-- `BufMgr::allocBuf` of the LRU variant. -/
def allocBuf (s : BufMgr) : Res FrameId :=
  let s0 := bumpCounters s
  if filledFrames s0 < s0.numBufs then
    ⟨.ok (firstFree s0.bufDescTable 0), s0, []⟩
  else
    let r := sweep (sweepBound s0) (-1) 0 s0 []
    match r.out with
    | .threw e => ⟨.threw e, r.state, r.calls⟩
    | .ok maxFrame =>
      ⟨.ok maxFrame,
        { r.state with
          hashTable := r.state.hashTable.remove
            ((r.state.desc maxFrame).file, (r.state.desc maxFrame).pageNo) }.setDesc maxFrame
          (r.state.desc maxFrame).Clear,
        r.calls⟩

/-- `BufMgr::readPage` of the LRU variant; `answer` is what `file->readPage(pageNo)`
gives when it is called (`none`: it throws). The reference returned is the frame. -/
def readPage (s : BufMgr) (file : Nat) (pageNo : PageId) (answer : Option Page) :
    Res FrameId :=
  match s.hashTable.lookup (some file, pageNo) with
  | some frameID =>
    let s1 := s.setDesc frameID { s.desc frameID with refbit := true }
    ⟨.ok frameID,
      bumpCounters
        (s1.setDesc frameID { s1.desc frameID with pinCnt := (s1.desc frameID).pinCnt + 1 }),
      []⟩
  | none =>
    let r := allocBuf s
    match r.out with
    | .threw e => ⟨.threw e, r.state, r.calls⟩
    | .ok frameID =>
      match answer with
      | none =>
        ⟨.threw .InvalidPage, r.state, r.calls ++ [FileCall.readPage (some file) pageNo]⟩
      | some pg =>
        let s1 := r.state.setPage frameID pg
        let s2 := { s1 with hashTable := s1.hashTable.insert (some file, pageNo) frameID }
        ⟨.ok frameID,
          bumpCounters (s2.setDesc frameID ((s2.desc frameID).Set (some file) pageNo)),
          r.calls ++ [FileCall.readPage (some file) pageNo]⟩

/-- `BufMgr::allocPage` of the LRU variant; `fresh` is the page `file->allocatePage()`
returns. A caught `BufferExceeded` is thrown again. -/
def allocPage (s : BufMgr) (file : Nat) (fresh : Page) : Res (PageId × FrameId) :=
  let r := allocBuf s
  match r.out with
  | .threw e => ⟨.threw e, r.state, r.calls⟩
  | .ok frameid =>
    let s1 := r.state.setPage frameid fresh
    let pageNo := fresh.page_number
    let s2 := { s1 with hashTable := s1.hashTable.insert (some file, pageNo) frameid }
    ⟨.ok (pageNo, frameid), s2.setDesc frameid ((s2.desc frameid).Set (some file) pageNo),
      r.calls ++ [FileCall.allocatePage (some file)]⟩

end Lru


/-! ## Well-formed pools -/

/-- The pool is well formed: the invariants of the data model (a descriptor is valid
exactly when the map sends its key to it, every map entry points to the valid
descriptor that holds its key, a pinned descriptor is valid, a dirty descriptor is
valid), and a descriptor that is not valid is in the free state of the descriptor
state machine, the state `Clear()` and the constructor leave it in. -/
def WellFormed (s : BufMgr) : Prop :=
  (∀ i, i < s.numBufs →
    ((s.desc i).valid = true ↔
      s.hashTable.lookup ((s.desc i).file, (s.desc i).pageNo) = some i)) ∧
  (∀ e ∈ s.hashTable,
    (s.desc e.2).valid = true ∧ (s.desc e.2).file = e.1.1 ∧ (s.desc e.2).pageNo = e.1.2) ∧
  (∀ i, i < s.numBufs → 0 < (s.desc i).pinCnt → (s.desc i).valid = true) ∧
  (∀ i, i < s.numBufs → (s.desc i).dirty = true → (s.desc i).valid = true) ∧
  (∀ i, i < s.numBufs → (s.desc i).valid = false → s.desc i = BufDesc.free)

instance (s : BufMgr) : Decidable (WellFormed s) := by
  unfold WellFormed
  infer_instance

/-- Two descriptors agree on everything but `refbit` and `counter`. -/
def Agree (d e : BufDesc) : Prop :=
  e.file = d.file ∧ e.pageNo = d.pageNo ∧ e.pinCnt = d.pinCnt ∧ e.dirty = d.dirty ∧
    e.valid = d.valid

/-- The descriptor `e` holds the page of `d` with the same pin count; it differs in
`refbit` and `counter` at most, and it may have been written back (`dirty` cleared). -/
def Kept (d e : BufDesc) : Prop :=
  e.file = d.file ∧ e.pageNo = d.pageNo ∧ e.pinCnt = d.pinCnt ∧
    (e.dirty = true → d.dirty = true) ∧ e.valid = d.valid

/-- The state `t` has the pages of `s` in the same frames, with the same map. -/
def Swept (s t : BufMgr) : Prop :=
  t.numBufs = s.numBufs ∧ t.bufPool = s.bufPool ∧ t.hashTable = s.hashTable ∧
    ∀ j, Kept (s.desc j) (t.desc j)

/-- The state `t` comes from `s` by taking frame `v` for reuse: the other frames keep
their pages, and the key of `v` has left the map if `v` was valid, in which case `v` was
not pinned. -/
def Taken (s : BufMgr) (v : FrameId) (t : BufMgr) : Prop :=
  t.numBufs = s.numBufs ∧ t.bufPool = s.bufPool ∧
    (∀ j, j ≠ v → Kept (s.desc j) (t.desc j)) ∧
    (((s.desc v).valid = false ∧ t.hashTable = s.hashTable) ∨
      ((s.desc v).valid = true ∧ (s.desc v).pinCnt = 0 ∧
        t.hashTable = s.hashTable.remove ((s.desc v).file, (s.desc v).pageNo)))

/-- Every descriptor pinned in `s` is, in `t`, still valid with the same file and page,
in the same frame, and the map still sends its key to that frame. -/
def PinnedKept (s t : BufMgr) : Prop :=
  ∀ i, i < s.numBufs → 0 < (s.desc i).pinCnt →
    (t.desc i).valid = true ∧ (t.desc i).file = (s.desc i).file ∧
      (t.desc i).pageNo = (s.desc i).pageNo ∧
      t.hashTable.lookup ((s.desc i).file, (s.desc i).pageNo) = some i

/-- The state `t` differs from `s` in `refbit`, `counter` and `clockHand` at most. -/
def Unmoved (s t : BufMgr) : Prop :=
  t.numBufs = s.numBufs ∧ t.bufPool = s.bufPool ∧ t.hashTable = s.hashTable ∧
    ∀ j, Agree (s.desc j) (t.desc j)

/-- The state `t` comes from `s` by choosing frame `v`: the other descriptors differ in
`refbit` and `counter` at most, and the key of `v` has left the map if `v` was valid, in
which case `v` was not pinned. -/
def Chosen (s : BufMgr) (v : FrameId) (t : BufMgr) : Prop :=
  t.numBufs = s.numBufs ∧ t.bufPool = s.bufPool ∧
    (∀ j, j ≠ v → Agree (s.desc j) (t.desc j)) ∧
    (((s.desc v).valid = false ∧ t.hashTable = s.hashTable) ∨
      ((s.desc v).valid = true ∧ (s.desc v).pinCnt = 0 ∧
        t.hashTable = s.hashTable.remove ((s.desc v).file, (s.desc v).pageNo)))

/-- The calls a replacement makes when it chooses frame `v` of `s`: one `writePage` if
`v` is valid and dirty, none otherwise. -/
def evictionCalls (s : BufMgr) (v : FrameId) : List FileCall :=
  if (s.desc v).valid = true ∧ (s.desc v).dirty = true then
    [FileCall.writePage (s.desc v).file (s.page v)]
  else []

/-- A call of a public operation, with what the file answers where the operation asks. -/
inductive Op where
  | readPage (file : Nat) (pageNo : PageId) (answer : Option Page)
  | allocPage (file : Nat) (fresh : Page)
  | unPinPage (file : Nat) (pageNo : PageId) (dirty : Bool)
  | flushFile (file : FilePtr)
  | disposePage (file : Nat) (pageNo : PageId)
deriving DecidableEq, Repr

/-- The pool after one public operation of the CLOCK variant, whether it returned or
threw. -/
def Clock.step (s : BufMgr) : Op → BufMgr
  | .readPage file pageNo answer => (Clock.readPage s file pageNo answer).state
  | .allocPage file fresh => (Clock.allocPage s file fresh).state
  | .unPinPage file pageNo dirty => (unPinPage s file pageNo dirty).state
  | .flushFile file => (flushFile s file).state
  | .disposePage file pageNo => (disposePage s file pageNo).state

/-- The pool after a sequence of public operations of the CLOCK variant. -/
def Clock.run (s : BufMgr) : List Op → BufMgr
  | [] => s
  | op :: ops => Clock.run (Clock.step s op) ops

/-- The page `file->allocatePage()` returns is new to the pool: when `allocPage` gets
to call it, the map holds no key with its number for that file. -/
def Clock.freshAt (s : BufMgr) : Op → Prop
  | .allocPage file fresh =>
    match (Clock.allocBuf s).out with
    | .ok _ =>
      (Clock.allocBuf s).state.hashTable.lookup (some file, fresh.page_number) = none
    | .threw _ => True
  | _ => True

/-- Every `allocPage` of the sequence is answered with a page new to the pool. -/
def Clock.Admissible : BufMgr → List Op → Prop
  | _, [] => True
  | s, op :: ops => Clock.freshAt s op ∧ Clock.Admissible (Clock.step s op) ops

/-- What a sweep of the LRU variant leaves, started in `s` with the calls `cs` made: the
pages stay where they are, only `writePage` calls are added, it throws nothing but
`BufferExceeded`, and the frame it returns was valid and not pinned. -/
def Lru.SweepPost (s : BufMgr) (cs : List FileCall) (r : Res FrameId) : Prop :=
  Swept s r.state ∧ (∀ c ∈ r.calls, c ∈ cs ∨ ∃ f p, c = FileCall.writePage f p) ∧
    (∀ e, r.out = .threw e → e = .BufferExceeded) ∧
    (∀ v, r.out = .ok v →
      (0 < s.numBufs → v < s.numBufs) ∧ (s.desc v).valid = true ∧ (s.desc v).pinCnt = 0)

/-- The page `file->allocatePage()` returns is new to the pool (LRU variant): when
`allocPage` gets to call it, the map holds no key with its number for that file. -/
def Lru.freshAt (s : BufMgr) : Op → Prop
  | .allocPage file fresh =>
    match (Lru.allocBuf s).out with
    | .ok _ =>
      (Lru.allocBuf s).state.hashTable.lookup (some file, fresh.page_number) = none
    | .threw _ => True
  | _ => True

/-- An example pool of two frames: page 1 of file 1 pinned in frame 0, page 2 of file 1
dirty and not pinned in frame 1. -/
def examplePool : BufMgr :=
  { bufDescTable :=
      [{ file := some 1, pageNo := 1, pinCnt := 1, dirty := false, valid := true,
         refbit := true, counter := 0 },
       { file := some 1, pageNo := 2, pinCnt := 0, dirty := true, valid := true,
         refbit := false, counter := 0 }]
    bufPool := [⟨1, 10⟩, ⟨2, 20⟩]
    hashTable := [((some 1, 2), 1), ((some 1, 1), 0)]
    clockHand := 1 }

/-- The pool after the three assignments that end a miss of `readPage` and `allocPage`:
`bufPool[v] = pg`, `hashTable->insert(file, pageNo, v)`, `bufDescTable[v].Set(file, pageNo)`. -/
def BufMgr.installed (t : BufMgr) (v : FrameId) (pg : Page) (file : FilePtr) (pageNo : PageId) :
    BufMgr :=
  ({ t.setPage v pg with
      hashTable := (t.setPage v pg).hashTable.insert (file, pageNo) v } : BufMgr).setDesc v
    ((({ t.setPage v pg with
      hashTable := (t.setPage v pg).hashTable.insert (file, pageNo) v } : BufMgr).desc
        v).Set file pageNo)

/-- The number of `readPage` calls among the calls on the files. -/
def readPageCalls (cs : List FileCall) : Nat :=
  (cs.filter (fun c => match c with
    | .readPage _ _ => true
    | _ => false)).length

/-- The pool of scenario 4: three frames, pages 1, 2 and 3 of file 1 read and not
unpinned. -/
def pinnedPool : BufMgr :=
  Clock.run (BufMgr.init 3)
    [.readPage 1 1 (some ⟨1, 10⟩), .readPage 1 2 (some ⟨2, 20⟩), .readPage 1 3 (some ⟨3, 30⟩)]

/-- The descriptor `e` is `d` with `refbit` as it was or cleared. -/
def RefbitCleared (d e : BufDesc) : Prop :=
  e.file = d.file ∧ e.pageNo = d.pageNo ∧ e.pinCnt = d.pinCnt ∧ e.dirty = d.dirty ∧
    e.valid = d.valid ∧ e.counter = d.counter ∧ (e.refbit = true → d.refbit = true)

/-- Frame `i` holds a valid, dirty page of `file`. -/
def isFlushTarget (s : BufMgr) (file : FilePtr) (i : FrameId) : Bool :=
  decide ((s.desc i).file = file ∧ (s.desc i).valid = true ∧ (s.desc i).dirty = true)

/-- The write-backs `flushFile(file)` owes: one `writePage` per frame that holds a valid,
dirty page of `file`, with the contents of that frame, by increasing frame index. -/
def flushWrites (s : BufMgr) (file : FilePtr) : List FileCall :=
  ((List.range s.numBufs).filter (isFlushTarget s file)).map
    (fun i => FileCall.writePage file (s.page i))

/-- A reachable pool of two frames: page 1 of file 1 clean in frame 0, page 2 of file 1
dirty in frame 1, neither pinned. -/
def flushPool : BufMgr :=
  Clock.run (BufMgr.init 2)
    [.readPage 1 1 (some ⟨1, 10⟩), .unPinPage 1 1 false, .readPage 1 2 (some ⟨2, 20⟩),
      .unPinPage 1 2 true]

/-- The frames whose descriptor is both valid and dirty, by increasing index. -/
def dirtyFrames (s : BufMgr) : List FrameId :=
  (List.range s.numBufs).filter (fun i => (s.desc i).valid && (s.desc i).dirty)

/-- The pool of scenario 5: three frames with pages 1 (dirty, not pinned), 2 (pinned)
and 3 (clean, not pinned) of file 1. -/
def partlyPinnedPool : BufMgr :=
  Clock.run (BufMgr.init 3)
    [.readPage 1 1 (some ⟨1, 10⟩), .readPage 1 2 (some ⟨2, 20⟩), .readPage 1 3 (some ⟨3, 30⟩),
      .unPinPage 1 1 true, .unPinPage 1 3 false]

/-- The clock hand after `d` calls of `advanceClock`, from hand `h`, in a pool of `n`
frames. -/
def handAfter (n : Nat) : Nat → FrameId → FrameId
  | 0, h => h
  | d + 1, h => handAfter n d (((h + 1) % 4294967296) % n)

/-- The pool after one public operation of the LRU variant, whether it returned or
threw. -/
def Lru.step (s : BufMgr) : Op → BufMgr
  | .readPage file pageNo answer => (Lru.readPage s file pageNo answer).state
  | .allocPage file fresh => (Lru.allocPage s file fresh).state
  | .unPinPage file pageNo dirty => (unPinPage s file pageNo dirty).state
  | .flushFile file => (flushFile s file).state
  | .disposePage file pageNo => (disposePage s file pageNo).state

/-- The pool after a sequence of public operations of the LRU variant. -/
def Lru.run (s : BufMgr) : List Op → BufMgr
  | [] => s
  | op :: ops => Lru.run (Lru.step s op) ops

/-- Every `allocPage` of the sequence is answered with a page new to the pool (LRU
variant). -/
def Lru.Admissible : BufMgr → List Op → Prop
  | _, [] => True
  | s, op :: ops => Lru.freshAt s op ∧ Lru.Admissible (Lru.step s op) ops

/-- The contract of the replacement: the result `r` of `allocBuf` in the pool `s` hands
out frame `v` of the pool, its descriptor is free, no map entry points to it, and the
map lost the key `v` held, if it held one, and no other. -/
def HandsOut (s : BufMgr) (r : Res FrameId) (v : FrameId) : Prop :=
  v < s.numBufs ∧ r.state.desc v = BufDesc.free ∧ (∀ e ∈ r.state.hashTable, e.2 ≠ v) ∧
    (((s.desc v).valid = false ∧ r.state.hashTable = s.hashTable) ∨
      ((s.desc v).valid = true ∧
        r.state.hashTable = s.hashTable.remove ((s.desc v).file, (s.desc v).pageNo)))

/-- A sequence of calls that fills a pool of two frames with pages 1 (dirty) and 2
(clean) of file 1 and unpins both. -/
def fillOps : List Op :=
  [.readPage 1 1 (some ⟨1, 10⟩), .unPinPage 1 1 true, .readPage 1 2 (some ⟨2, 20⟩),
    .unPinPage 1 2 false]

/-- A reachable pool of the LRU variant, three frames: pages 1, 2 and 3 of file 1 are
read, a fourth read fails on the pinned pool, the three pages are unpinned, page 1 is
read again, page 4 takes the place of page 2, and page 1 is unpinned. Frame 0 (page 1)
and frame 2 (page 3) are valid, not pinned, with `refbit` false; frame 1 (page 4) is
pinned; the clock hand is 1. -/
def stalePool : BufMgr :=
  Lru.run (BufMgr.init 3)
    [.readPage 1 1 (some ⟨1, 10⟩), .readPage 1 2 (some ⟨2, 20⟩), .readPage 1 3 (some ⟨3, 30⟩),
      .readPage 1 4 none, .unPinPage 1 1 false, .unPinPage 1 2 false, .unPinPage 1 3 false,
      .readPage 1 1 none, .readPage 1 4 (some ⟨4, 40⟩), .unPinPage 1 1 false]

/-- The number of passes through the body of the loop of `BufMgr::allocBuf` (CLOCK
variant), with `k` iterations left: each pass calls `advanceClock` once and inspects
`bufDescTable[clockHand]` once. It follows `Clock.allocBufLoop` branch by branch. -/
def Clock.sweepSteps : Nat → BufMgr → Nat
  | 0, _ => 0
  | k + 1, s =>
    let s1 := advanceClock s
    let d := s1.desc s1.clockHand
    if d.valid = true then
      if d.refbit = false then
        if d.pinCnt = 0 then 1
        else 1 + Clock.sweepSteps k s1
      else 1 + Clock.sweepSteps k (s1.setDesc s1.clockHand { d with refbit := false })
    else 1

/-- A reachable pool of the LRU variant, two frames: page 1 of file 1 read and unpinned
in frame 0, frame 1 never used. -/
def halfPool : BufMgr :=
  Lru.run (BufMgr.init 2) [.readPage 1 1 (some ⟨1, 10⟩), .unPinPage 1 1 false]

/-- The calls `readPage(file, p)` for the pages `ps`, in order, the file answering
`content p`. -/
def readAll (file : Nat) (content : PageId → Page) (ps : List PageId) : List Op :=
  ps.map (fun p => Op.readPage file p (some (content p)))

/-- The calls `unPinPage(file, p, dirty p)` for the pages `ps`, in order. -/
def unPinAll (file : Nat) (dirty : PageId → Bool) (ps : List PageId) : List Op :=
  ps.map (fun p => Op.unPinPage file p (dirty p))

/-- The pool of `n` frames of the CLOCK variant after the constructor and the reads of
the pages `ps` of `file`. -/
def Clock.filledPool (n file : Nat) (content : PageId → Page) (ps : List PageId) : BufMgr :=
  Clock.run (BufMgr.init n) (readAll file content ps)

/-- The pool `Clock.filledPool` after every page of `ps` has been unpinned. -/
def Clock.idlePool (n file : Nat) (content : PageId → Page) (dirty : PageId → Bool)
    (ps : List PageId) : BufMgr :=
  Clock.run (Clock.filledPool n file content ps) (unPinAll file dirty ps)

/-- While the pool is filled: the first `m` pages of `ps` are in the frames `0..m-1`,
pinned once, with their map entries; the other frames are not valid; the clock hand is
on the last frame filled (`n - 1` at the start). -/
def Clock.FilledTo (n file : Nat) (content : PageId → Page) (ps : List PageId) (m : Nat)
    (s : BufMgr) : Prop :=
  s.numBufs = n ∧ s.bufPool.length = n ∧ s.clockHand = (m + n - 1) % n ∧ WellFormed s ∧
    (∀ k p, ps[k]? = some p → k < m →
      s.desc k =
        { file := some file, pageNo := p, pinCnt := 1, dirty := false, valid := true,
          refbit := true, counter := 0 } ∧
      s.page k = content p ∧ s.hashTable.lookup (some file, p) = some k) ∧
    (∀ k, m ≤ k → (s.desc k).valid = false)

/-- While the pages are unpinned: the pool is the filled pool `t`, except that the first
`m` pages of `ps` have pin count 0 and the `dirty` flag their `unPinPage` passed. -/
def Clock.UnpinnedTo (file : Nat) (dirty : PageId → Bool) (ps : List PageId) (t : BufMgr)
    (m : Nat) (s : BufMgr) : Prop :=
  s.numBufs = t.numBufs ∧ s.bufPool = t.bufPool ∧ s.clockHand = t.clockHand ∧
    s.hashTable = t.hashTable ∧
    (∀ k p, ps[k]? = some p → k < m →
      s.desc k =
        { file := some file, pageNo := p, pinCnt := 0, dirty := dirty p, valid := true,
          refbit := true, counter := 0 }) ∧
    (∀ k, m ≤ k → s.desc k = t.desc k)

/-- No descriptor holds a stale file pointer: a descriptor that is not valid has
`file == NULL`. -/
def NoStale (s : BufMgr) : Prop := ∀ i, (s.desc i).valid = false → (s.desc i).file = none

/-- Two descriptors agree on everything but `counter`. -/
def AgreeButCounter (d e : BufDesc) : Prop :=
  e.file = d.file ∧ e.pageNo = d.pageNo ∧ e.pinCnt = d.pinCnt ∧ e.dirty = d.dirty ∧
    e.valid = d.valid ∧ e.refbit = d.refbit

instance (d e : BufDesc) : Decidable (AgreeButCounter d e) := by
  unfold AgreeButCounter
  infer_instance

/-- The pools `s` and `u` are the same apart from the counters of the descriptors: same
size, same frames, same map, same clock hand, and descriptors that agree on every field
but `counter`. -/
def SameButCounter (s u : BufMgr) : Prop :=
  u.numBufs = s.numBufs ∧ u.bufPool = s.bufPool ∧ u.hashTable = s.hashTable ∧
    u.clockHand = s.clockHand ∧ ∀ j, j < s.numBufs → AgreeButCounter (s.desc j) (u.desc j)

instance (s u : BufMgr) : Decidable (SameButCounter s u) := by
  unfold SameButCounter
  infer_instance

/-- A reachable pool of the LRU variant, three frames: pages 1, 2 and 3 of file 1 read,
pages 1 and 3 unpinned as dirty, a read of page 4 that takes the frame of page 1, page 4
unpinned. Frame 1 is pinned, frame 2 is dirty, and the three counters differ. -/
def agedPool : BufMgr :=
  Lru.run (BufMgr.init 3)
    [.readPage 1 1 (some ⟨1, 10⟩), .readPage 1 2 (some ⟨2, 20⟩), .readPage 1 3 (some ⟨3, 30⟩),
      .unPinPage 1 1 true, .unPinPage 1 3 true, .readPage 1 4 (some ⟨4, 40⟩),
      .unPinPage 1 4 false]

/-- The pool `agedPool` as the CLOCK variant reaches it, with the same calls: the same
pool, all counters 0. -/
def agedPoolClock : BufMgr :=
  Clock.run (BufMgr.init 3)
    [.readPage 1 1 (some ⟨1, 10⟩), .readPage 1 2 (some ⟨2, 20⟩), .readPage 1 3 (some ⟨3, 30⟩),
      .unPinPage 1 1 true, .unPinPage 1 3 true, .readPage 1 4 (some ⟨4, 40⟩),
      .unPinPage 1 4 false]

/-! ## Lists and the lookup map -/

theorem numBufs_setDesc (s : BufMgr) (i : FrameId) (d : BufDesc) :
    (s.setDesc i d).numBufs = s.numBufs := by
  simp [BufMgr.setDesc, BufMgr.numBufs]

theorem desc_setDesc_self (s : BufMgr) (i : FrameId) (d : BufDesc) (h : i < s.numBufs) :
    (s.setDesc i d).desc i = d := by
  simp only [BufMgr.numBufs] at h
  simp [BufMgr.setDesc, BufMgr.desc, List.getElem?_set, h]

theorem desc_setDesc_ne (s : BufMgr) (i j : FrameId) (d : BufDesc) (h : j ≠ i) :
    (s.setDesc i d).desc j = s.desc j := by
  simp [BufMgr.setDesc, BufMgr.desc, List.getElem?_set, Ne.symm h]

theorem desc_of_le (s : BufMgr) (i : FrameId) (h : s.numBufs ≤ i) :
    s.desc i = BufDesc.free := by
  simp only [BufMgr.numBufs] at h
  simp [BufMgr.desc, List.getElem?_eq_none h]
  rfl

theorem lt_of_valid (s : BufMgr) (i : FrameId) (h : (s.desc i).valid = true) :
    i < s.numBufs := by
  by_contra hc
  rw [desc_of_le s i (Nat.le_of_not_lt hc)] at h
  simp [BufDesc.free] at h

theorem remove_cons (k : Key) (e : Key × FrameId) (t : BufHashTbl) :
    BufHashTbl.remove k (e :: t) =
      if e.1 = k then BufHashTbl.remove k t else e :: BufHashTbl.remove k t := by
  by_cases h : e.1 = k <;> simp [BufHashTbl.remove, List.filter_cons, h]

theorem lookup_cons (j : Key) (e : Key × FrameId) (t : BufHashTbl) :
    BufHashTbl.lookup j (e :: t) = if e.1 = j then some e.2 else BufHashTbl.lookup j t :=
  rfl

theorem lookup_remove_self (k : Key) (m : BufHashTbl) :
    BufHashTbl.lookup k (BufHashTbl.remove k m) = none := by
  induction m with
  | nil => rfl
  | cons e t ih =>
    rw [remove_cons]
    split_ifs with h
    · exact ih
    · rw [lookup_cons, if_neg h]
      exact ih

theorem lookup_remove_ne (k j : Key) (m : BufHashTbl) (hne : j ≠ k) :
    BufHashTbl.lookup j (BufHashTbl.remove k m) = BufHashTbl.lookup j m := by
  induction m with
  | nil => rfl
  | cons e t ih =>
    rw [remove_cons, lookup_cons]
    split_ifs with h hj hj
    · exact absurd (hj.symm.trans h) hne
    · exact ih
    · rw [lookup_cons, if_pos hj]
    · rw [lookup_cons, if_neg hj]
      exact ih

theorem mem_remove (k : Key) (m : BufHashTbl) (e : Key × FrameId) :
    e ∈ BufHashTbl.remove k m ↔ e ∈ m ∧ e.1 ≠ k := by
  simp [BufHashTbl.remove, List.mem_filter]

theorem mem_of_lookup (k : Key) (v : FrameId) (m : BufHashTbl)
    (h : BufHashTbl.lookup k m = some v) : (k, v) ∈ m := by
  induction m with
  | nil => simp [BufHashTbl.lookup] at h
  | cons e t ih =>
    by_cases he : e.1 = k
    · simp [BufHashTbl.lookup, he] at h
      have : e = (k, v) := Prod.ext he h
      simp [this]
    · simp [BufHashTbl.lookup, he] at h
      exact List.mem_cons_of_mem _ (ih h)

theorem lookup_insert_self (k : Key) (v : FrameId) (m : BufHashTbl) :
    BufHashTbl.lookup k (BufHashTbl.insert k v m) = some v := by
  simp [BufHashTbl.insert, BufHashTbl.lookup]

theorem lookup_insert_ne (k j : Key) (v : FrameId) (m : BufHashTbl) (hne : j ≠ k) :
    BufHashTbl.lookup j (BufHashTbl.insert k v m) = BufHashTbl.lookup j m := by
  simp [BufHashTbl.insert, BufHashTbl.lookup, Ne.symm hne, lookup_remove_ne k j m hne]

/-! ## The sweep of the CLOCK variant -/

theorem agree_refl (d : BufDesc) : Agree d d := ⟨Eq.refl _, Eq.refl _, Eq.refl _, Eq.refl _, Eq.refl _⟩

theorem Agree.comp {a b c : BufDesc} (h : Agree a b) (g : Agree b c) : Agree a c :=
  ⟨g.1.trans h.1, g.2.1.trans h.2.1, g.2.2.1.trans h.2.2.1, g.2.2.2.1.trans h.2.2.2.1,
    g.2.2.2.2.trans h.2.2.2.2⟩

theorem unmoved_refl (s : BufMgr) : Unmoved s s :=
  ⟨Eq.refl _, Eq.refl _, Eq.refl _, fun _ => agree_refl _⟩

theorem Unmoved.comp_unmoved {s t u : BufMgr} (h : Unmoved s t) (g : Unmoved t u) : Unmoved s u :=
  ⟨g.1.trans h.1, g.2.1.trans h.2.1, g.2.2.1.trans h.2.2.1,
    fun j => (h.2.2.2 j).comp (g.2.2.2 j)⟩

theorem Unmoved.chosen {s t u : BufMgr} {v : FrameId} (h : Unmoved s t) (g : Chosen t v u) :
    Chosen s v u := by
  obtain ⟨h1, h2, h3, h4⟩ := h
  obtain ⟨g1, g2, g3, g4⟩ := g
  obtain ⟨a1, a2, a3, a4, a5⟩ := h4 v
  refine ⟨g1.trans h1, g2.trans h2, fun j hj => (h4 j).comp (g3 j hj), ?_⟩
  rw [a1, a2, a3, a5, h3] at g4
  exact g4

theorem Unmoved.evictionCalls {s t : BufMgr} (h : Unmoved s t) (v : FrameId) :
    evictionCalls t v = evictionCalls s v := by
  obtain ⟨_, h2, _, h4⟩ := h
  obtain ⟨a1, _, _, a4, a5⟩ := h4 v
  simp [BufferManager.evictionCalls, a1, a4, a5, BufMgr.page, h2]

theorem unmoved_advanceClock (s : BufMgr) : Unmoved s (advanceClock s) :=
  ⟨rfl, rfl, rfl, fun _ => agree_refl _⟩

/-- Writing a descriptor that agrees with the old one leaves the pool unmoved. -/
theorem unmoved_setDesc (s : BufMgr) (i : FrameId) (d : BufDesc) (h : Agree (s.desc i) d) :
    Unmoved s (s.setDesc i d) := by
  refine ⟨numBufs_setDesc s i d, rfl, rfl, fun j => ?_⟩
  by_cases hj : j = i
  · subst hj
    by_cases hlt : j < s.numBufs
    · rw [desc_setDesc_self s j d hlt]
      exact h
    · have h1 : (s.setDesc j d).desc j = BufDesc.free :=
        desc_of_le _ j (by rw [numBufs_setDesc]; exact Nat.le_of_not_lt hlt)
      rw [h1, desc_of_le s j (Nat.le_of_not_lt hlt)]
      exact agree_refl _
  · rw [desc_setDesc_ne s i j d hj]
    exact agree_refl _

theorem clockHand_advanceClock_lt (s : BufMgr) (h : 0 < s.numBufs) :
    (advanceClock s).clockHand < s.numBufs :=
  Nat.mod_lt _ h

theorem clock_allocBufLoop_none (k : Nat) :
    ∀ (s t : BufMgr) (cs ds : List FileCall),
      Clock.allocBufLoop k s cs = (none, t, ds) → Unmoved s t ∧ ds = cs := by
  induction k with
  | zero =>
    intro s t cs ds h
    simp only [Clock.allocBufLoop, Prod.mk.injEq, true_and] at h
    obtain ⟨rfl, rfl⟩ := h
    exact ⟨unmoved_refl _, rfl⟩
  | succ k ih =>
    intro s t cs ds h
    simp only [Clock.allocBufLoop] at h
    split_ifs at h with h1 h2 h3 h4
    · simp at h
    · simp at h
    · obtain ⟨hu, hd⟩ := ih _ _ _ _ h
      exact ⟨(unmoved_advanceClock s).comp_unmoved hu, hd⟩
    · obtain ⟨hu, hd⟩ := ih _ _ _ _ h
      refine ⟨((unmoved_advanceClock s).comp_unmoved (unmoved_setDesc _ _ _ ?_)).comp_unmoved hu, hd⟩
      exact ⟨rfl, rfl, rfl, rfl, rfl⟩
    · simp at h

theorem desc_advanceClock (s : BufMgr) (j : FrameId) : (advanceClock s).desc j = s.desc j :=
  rfl

theorem clock_allocBufLoop_some (k : Nat) :
    ∀ (s t : BufMgr) (cs ds : List FileCall) (v : FrameId),
      Clock.allocBufLoop k s cs = (some v, t, ds) →
        v = t.clockHand ∧ (0 < s.numBufs → v < s.numBufs) ∧ Chosen s v t ∧
          ds = cs ++ evictionCalls s v := by
  induction k with
  | zero =>
    intro s t cs ds v h
    simp [Clock.allocBufLoop] at h
  | succ k ih =>
    intro s t cs ds v h
    simp only [Clock.allocBufLoop] at h
    split_ifs at h with h1 h2 h3 h4
    · simp only [Prod.mk.injEq, Option.some.injEq] at h
      obtain ⟨rfl, rfl, rfl⟩ := h
      rw [desc_advanceClock] at h1 h3 h4
      refine ⟨rfl, clockHand_advanceClock_lt s, ⟨?_, rfl, ?_, Or.inr ⟨h1, h3, rfl⟩⟩, ?_⟩
      · exact numBufs_setDesc _ _ _
      · intro j hj
        have : ({ (advanceClock s).setDesc (advanceClock s).clockHand
            { (advanceClock s).desc (advanceClock s).clockHand with dirty := false } with
            hashTable := (advanceClock s).hashTable.remove
              (((advanceClock s).desc (advanceClock s).clockHand).file,
                ((advanceClock s).desc (advanceClock s).clockHand).pageNo) } : BufMgr).desc j
            = s.desc j := desc_setDesc_ne (advanceClock s) _ j _ hj
        rw [this]
        exact agree_refl _
      · simp [evictionCalls, h1, h4, desc_advanceClock]
        rfl
    · simp only [Prod.mk.injEq, Option.some.injEq] at h
      obtain ⟨rfl, rfl, rfl⟩ := h
      rw [desc_advanceClock] at h1 h3 h4
      refine ⟨rfl, clockHand_advanceClock_lt s, ⟨rfl, rfl, ?_, Or.inr ⟨h1, h3, rfl⟩⟩, ?_⟩
      · intro j _
        exact agree_refl _
      · simp [evictionCalls, h1, h4]
    · obtain ⟨a, b, c, d⟩ := ih _ _ _ _ _ h
      have hu := unmoved_advanceClock s
      exact ⟨a, b, hu.chosen c, by rw [d, hu.evictionCalls]⟩
    · have hu : Unmoved s ((advanceClock s).setDesc (advanceClock s).clockHand
          { (advanceClock s).desc (advanceClock s).clockHand with refbit := false }) :=
        (unmoved_advanceClock s).comp_unmoved
          (unmoved_setDesc _ _ _ ⟨rfl, rfl, rfl, rfl, rfl⟩)
      obtain ⟨a, b, c, d⟩ := ih _ _ _ _ _ h
      exact ⟨a, fun h0 => hu.1 ▸ b (hu.1 ▸ h0), hu.chosen c, by rw [d, hu.evictionCalls]⟩
    · simp only [Prod.mk.injEq, Option.some.injEq] at h
      obtain ⟨rfl, rfl, rfl⟩ := h
      rw [desc_advanceClock] at h1
      refine ⟨rfl, clockHand_advanceClock_lt s, ⟨rfl, rfl, ?_, Or.inl ⟨?_, rfl⟩⟩, ?_⟩
      · intro j _
        exact agree_refl _
      · simpa using h1
      · simp [evictionCalls, h1]

/-! ## Well-formedness is kept -/

theorem agree_kept {d e : BufDesc} (h : Agree d e) : Kept d e :=
  ⟨h.1, h.2.1, h.2.2.1, fun g => h.2.2.2.1 ▸ g, h.2.2.2.2⟩

theorem kept_refl (d : BufDesc) : Kept d d := agree_kept (agree_refl d)

theorem Kept.comp_kept {a b c : BufDesc} (h : Kept a b) (g : Kept b c) : Kept a c :=
  ⟨g.1.trans h.1, g.2.1.trans h.2.1, g.2.2.1.trans h.2.2.1, fun x => h.2.2.2.1 (g.2.2.2.1 x),
    g.2.2.2.2.trans h.2.2.2.2⟩

theorem Unmoved.to_swept {s t : BufMgr} (h : Unmoved s t) : Swept s t :=
  ⟨h.1, h.2.1, h.2.2.1, fun j => agree_kept (h.2.2.2 j)⟩

theorem Chosen.taken {s t : BufMgr} {v : FrameId} (h : Chosen s v t) : Taken s v t :=
  ⟨h.1, h.2.1, fun j hj => agree_kept (h.2.2.1 j hj), h.2.2.2⟩

theorem swept_refl (s : BufMgr) : Swept s s := (unmoved_refl s).to_swept

theorem Swept.comp_swept {s t u : BufMgr} (h : Swept s t) (g : Swept t u) : Swept s u :=
  ⟨g.1.trans h.1, g.2.1.trans h.2.1, g.2.2.1.trans h.2.2.1,
    fun j => (h.2.2.2 j).comp_kept (g.2.2.2 j)⟩

theorem wf_swept {s t : BufMgr} (hw : WellFormed s) (hu : Swept s t)
    (hx : ∀ j, (s.desc j).valid = false → t.desc j = s.desc j) : WellFormed t := by
  obtain ⟨A, B, C, D, E⟩ := hw
  obtain ⟨hn, _, hm, ha⟩ := hu
  refine ⟨?_, ?_, ?_, ?_, ?_⟩
  · intro i hi
    obtain ⟨a1, a2, _, _, a5⟩ := ha i
    rw [a1, a2, a5, hm]
    exact A i (hn ▸ hi)
  · intro e he
    obtain ⟨a1, a2, _, _, a5⟩ := ha e.2
    rw [a1, a2, a5]
    exact B e (hm ▸ he)
  · intro i hi
    obtain ⟨_, _, a3, _, a5⟩ := ha i
    rw [a3, a5]
    exact C i (hn ▸ hi)
  · intro i hi h
    obtain ⟨_, _, _, a4, a5⟩ := ha i
    rw [a5]
    exact D i (hn ▸ hi) (a4 h)
  · intro i hi h
    obtain ⟨_, _, _, _, a5⟩ := ha i
    rw [a5] at h
    rw [hx i h]
    exact E i (hn ▸ hi) h

/-- Freeing frame `v` and taking its key out of the map keeps the pool well formed. -/
theorem wf_evict {s t : BufMgr} {v : FrameId} (hw : WellFormed s)
    (hn : t.numBufs = s.numBufs) (ha : ∀ j, j ≠ v → Kept (s.desc j) (t.desc j))
    (hf : t.desc v = BufDesc.free)
    (hm : ((s.desc v).valid = false ∧ t.hashTable = s.hashTable) ∨
      ((s.desc v).valid = true ∧
        t.hashTable = s.hashTable.remove ((s.desc v).file, (s.desc v).pageNo)))
    (hx : ∀ j, j ≠ v → (s.desc j).valid = false → t.desc j = s.desc j) :
    WellFormed t := by
  obtain ⟨A, B, C, D, E⟩ := hw
  have hsub : ∀ e ∈ t.hashTable, e ∈ s.hashTable ∧ e.2 ≠ v := by
    intro e he
    rcases hm with ⟨h1, h2⟩ | ⟨h1, h2⟩
    · rw [h2] at he
      refine ⟨he, fun hev => ?_⟩
      have := (B e he).1
      rw [hev, h1] at this
      exact Bool.noConfusion this
    · rw [h2, mem_remove] at he
      refine ⟨he.1, fun hev => ?_⟩
      obtain ⟨_, b2, b3⟩ := B e he.1
      rw [hev] at b2 b3
      exact he.2 (Prod.ext b2.symm b3.symm)
  have hlk : ∀ k i, i ≠ v → (t.hashTable.lookup k = some i ↔ s.hashTable.lookup k = some i) := by
    intro k i hi
    rcases hm with ⟨_, h2⟩ | ⟨h1, h2⟩
    · rw [h2]
    · rw [h2]
      by_cases hk : k = ((s.desc v).file, (s.desc v).pageNo)
      · rw [hk, lookup_remove_self]
        have hv := (A v (lt_of_valid s v h1)).1 h1
        rw [hv]
        constructor
        · intro h
          exact Option.noConfusion h
        · intro h
          exact absurd (Option.some.inj h).symm hi
      · rw [lookup_remove_ne _ _ _ hk]
  refine ⟨?_, ?_, ?_, ?_, ?_⟩
  · intro i hi
    by_cases hiv : i = v
    · subst hiv
      rw [hf]
      constructor
      · intro h
        exact Bool.noConfusion h
      · intro h
        exact absurd rfl (hsub _ (mem_of_lookup _ _ _ h)).2
    · obtain ⟨a1, a2, _, _, a5⟩ := ha i hiv
      rw [a1, a2, a5, hlk _ _ hiv]
      exact A i (hn ▸ hi)
  · intro e he
    obtain ⟨h1, h2⟩ := hsub e he
    obtain ⟨a1, a2, _, _, a5⟩ := ha e.2 h2
    rw [a1, a2, a5]
    exact B e h1
  · intro i hi
    by_cases hiv : i = v
    · subst hiv
      rw [hf]
      intro h
      exact absurd h (by decide)
    · obtain ⟨_, _, a3, _, a5⟩ := ha i hiv
      rw [a3, a5]
      exact C i (hn ▸ hi)
  · intro i hi
    by_cases hiv : i = v
    · subst hiv
      rw [hf]
      intro h
      exact Bool.noConfusion h
    · obtain ⟨_, _, _, a4, a5⟩ := ha i hiv
      intro h
      rw [a5]
      exact D i (hn ▸ hi) (a4 h)
  · intro i hi
    by_cases hiv : i = v
    · subst hiv
      rw [hf]
      intro _
      rfl
    · obtain ⟨_, _, _, _, a5⟩ := ha i hiv
      intro h
      rw [a5] at h
      rw [hx i hiv h]
      exact E i (hn ▸ hi) h

/-- Installing a page with a key the map does not hold, in a frame that is not valid,
keeps the pool well formed. -/
theorem wf_install {s t : BufMgr} {v : FrameId} {k : Key} (hw : WellFormed s)
    (hn : t.numBufs = s.numBufs) (ha : ∀ j, j ≠ v → Kept (s.desc j) (t.desc j))
    (hv : (s.desc v).valid = false) (hk : s.hashTable.lookup k = none)
    (hd : (t.desc v).valid = true ∧ (t.desc v).file = k.1 ∧ (t.desc v).pageNo = k.2)
    (hm : t.hashTable = s.hashTable.insert k v)
    (hx : ∀ j, j ≠ v → (s.desc j).valid = false → t.desc j = s.desc j) : WellFormed t := by
  obtain ⟨A, B, C, D, E⟩ := hw
  obtain ⟨d1, d2, d3⟩ := hd
  refine ⟨?_, ?_, ?_, ?_, ?_⟩
  · intro i hi
    by_cases hiv : i = v
    · subst hiv
      rw [d1, d2, d3, hm, lookup_insert_self]
      simp
    · obtain ⟨a1, a2, _, _, a5⟩ := ha i hiv
      rw [a1, a2, a5, hm]
      by_cases hki : ((s.desc i).file, (s.desc i).pageNo) = k
      · rw [hki, lookup_insert_self]
        constructor
        · intro h
          have := (A i (hn ▸ hi)).1 h
          rw [hki, hk] at this
          exact Option.noConfusion this
        · intro h
          exact absurd (Option.some.inj h).symm hiv
      · rw [lookup_insert_ne _ _ _ _ hki]
        exact A i (hn ▸ hi)
  · intro e he
    rw [hm, BufHashTbl.insert, List.mem_cons] at he
    rcases he with rfl | he
    · exact ⟨d1, d2, d3⟩
    · rw [mem_remove] at he
      have hev : e.2 ≠ v := by
        intro hev
        have := (B e he.1).1
        rw [hev, hv] at this
        exact Bool.noConfusion this
      obtain ⟨a1, a2, _, _, a5⟩ := ha e.2 hev
      rw [a1, a2, a5]
      exact B e he.1
  · intro i hi
    by_cases hiv : i = v
    · subst hiv
      intro _
      exact d1
    · obtain ⟨_, _, a3, _, a5⟩ := ha i hiv
      rw [a3, a5]
      exact C i (hn ▸ hi)
  · intro i hi
    by_cases hiv : i = v
    · subst hiv
      intro _
      exact d1
    · obtain ⟨_, _, _, a4, a5⟩ := ha i hiv
      intro h
      rw [a5]
      exact D i (hn ▸ hi) (a4 h)
  · intro i hi
    by_cases hiv : i = v
    · subst hiv
      intro h
      rw [d1] at h
      exact Bool.noConfusion h
    · obtain ⟨_, _, _, _, a5⟩ := ha i hiv
      intro h
      rw [a5] at h
      rw [hx i hiv h]
      exact E i (hn ▸ hi) h

/-- Changing `pinCnt` and `dirty` of a valid descriptor (and `refbit`, `counter` of any)
keeps the pool well formed. -/
theorem wf_update {s t : BufMgr} {v : FrameId} (hw : WellFormed s)
    (hn : t.numBufs = s.numBufs) (hm : t.hashTable = s.hashTable)
    (ha : ∀ j, j ≠ v → Kept (s.desc j) (t.desc j))
    (hd : (t.desc v).valid = (s.desc v).valid ∧ (t.desc v).file = (s.desc v).file ∧
      (t.desc v).pageNo = (s.desc v).pageNo)
    (hp : 0 < (t.desc v).pinCnt → (s.desc v).valid = true)
    (hq : (t.desc v).dirty = true → (s.desc v).valid = true)
    (hvv : (s.desc v).valid = true)
    (hx : ∀ j, j ≠ v → (s.desc j).valid = false → t.desc j = s.desc j) : WellFormed t := by
  obtain ⟨A, B, C, D, E⟩ := hw
  obtain ⟨d1, d2, d3⟩ := hd
  have hkey : ∀ i, (t.desc i).valid = (s.desc i).valid ∧ (t.desc i).file = (s.desc i).file ∧
      (t.desc i).pageNo = (s.desc i).pageNo := by
    intro i
    by_cases hiv : i = v
    · subst hiv
      exact ⟨d1, d2, d3⟩
    · obtain ⟨a1, a2, _, _, a5⟩ := ha i hiv
      exact ⟨a5, a1, a2⟩
  refine ⟨?_, ?_, ?_, ?_, ?_⟩
  · intro i hi
    obtain ⟨k1, k2, k3⟩ := hkey i
    rw [k1, k2, k3, hm]
    exact A i (hn ▸ hi)
  · intro e he
    obtain ⟨k1, k2, k3⟩ := hkey e.2
    rw [k1, k2, k3]
    exact B e (hm ▸ he)
  · intro i hi
    by_cases hiv : i = v
    · subst hiv
      rw [d1]
      exact hp
    · obtain ⟨_, _, a3, _, a5⟩ := ha i hiv
      rw [a3, a5]
      exact C i (hn ▸ hi)
  · intro i hi
    by_cases hiv : i = v
    · subst hiv
      rw [d1]
      exact hq
    · obtain ⟨_, _, _, a4, a5⟩ := ha i hiv
      intro h
      rw [a5]
      exact D i (hn ▸ hi) (a4 h)
  · intro i hi h
    obtain ⟨k1, _, _⟩ := hkey i
    rw [k1] at h
    have hiv : i ≠ v := by
      intro hiv
      rw [hiv, hvv] at h
      exact Bool.noConfusion h
    rw [hx i hiv h]
    exact E i (hn ▸ hi) h

theorem wf_unmoved {s t : BufMgr} (hw : WellFormed s) (hu : Unmoved s t)
    (hx : ∀ j, (s.desc j).valid = false → t.desc j = s.desc j) : WellFormed t :=
  wf_swept hw hu.to_swept hx

theorem desc_setDesc_free (s : BufMgr) (v : FrameId) :
    (s.setDesc v BufDesc.free).desc v = BufDesc.free := by
  by_cases h : v < s.numBufs
  · exact desc_setDesc_self s v _ h
  · exact desc_of_le _ v (by rw [numBufs_setDesc]; exact Nat.le_of_not_lt h)

theorem Chosen.setDesc {s t : BufMgr} {v : FrameId} (h : Chosen s v t) (d : BufDesc) :
    Chosen s v (t.setDesc v d) := by
  obtain ⟨h1, h2, h3, h4⟩ := h
  refine ⟨(numBufs_setDesc t v d).trans h1, h2, fun j hj => ?_, h4⟩
  rw [desc_setDesc_ne t v j d hj]
  exact h3 j hj

theorem clock_allocBuf_threw (s : BufMgr) (e : Exc) (h : (Clock.allocBuf s).out = .threw e) :
    e = .BufferExceeded ∧ Unmoved s (Clock.allocBuf s).state ∧ (Clock.allocBuf s).calls = [] := by
  rcases hl : Clock.allocBufLoop (sweepBound s + 1) s [] with ⟨_ | w, t, ds⟩
  · obtain ⟨hu, hd⟩ := clock_allocBufLoop_none _ _ _ _ _ hl
    simp only [Clock.allocBuf, hl, Outcome.threw.injEq] at h ⊢
    exact ⟨h.symm, hu, hd⟩
  · simp [Clock.allocBuf, hl] at h

theorem clock_allocBuf_ok (s : BufMgr) (v : FrameId) (h : (Clock.allocBuf s).out = .ok v) :
    v = (Clock.allocBuf s).state.clockHand ∧ (0 < s.numBufs → v < s.numBufs) ∧
      Chosen s v (Clock.allocBuf s).state ∧ (Clock.allocBuf s).state.desc v = BufDesc.free ∧
      (Clock.allocBuf s).calls = evictionCalls s v := by
  rcases hl : Clock.allocBufLoop (sweepBound s + 1) s [] with ⟨_ | w, t, ds⟩
  · simp [Clock.allocBuf, hl] at h
  · obtain ⟨a, b, c, d⟩ := clock_allocBufLoop_some _ _ _ _ _ _ hl
    simp only [Clock.allocBuf, hl, Outcome.ok.injEq] at h ⊢
    subst h
    subst a
    refine ⟨rfl, b, c.setDesc _, desc_setDesc_free _ _, ?_⟩
    simpa using d

/-- A sweep of the CLOCK variant does not write a descriptor that is not valid. -/
theorem clock_allocBufLoop_invalid (k : Nat) :
    ∀ (s : BufMgr) (cs : List FileCall) (j : FrameId), (s.desc j).valid = false →
      (Clock.allocBufLoop k s cs).2.1.desc j = s.desc j := by
  induction k with
  | zero =>
    intro s cs j _
    rfl
  | succ k ih =>
    intro s cs j hj
    have hne : ((advanceClock s).desc (advanceClock s).clockHand).valid = true →
        j ≠ (advanceClock s).clockHand := by
      intro h1 hjc
      rw [← hjc, desc_advanceClock, hj] at h1
      exact Bool.noConfusion h1
    simp only [Clock.allocBufLoop]
    split_ifs with h1 h2 h3 h4
    · exact desc_setDesc_ne (advanceClock s) _ j _ (hne h1)
    · rfl
    · exact ih _ _ j hj
    · have hd := desc_setDesc_ne (advanceClock s) (advanceClock s).clockHand j
        { (advanceClock s).desc (advanceClock s).clockHand with refbit := false } (hne h1)
      rw [ih _ _ j (by rw [hd]; exact hj)]
      exact hd
    · rfl

/-- The replacement of the CLOCK variant leaves a descriptor that is not valid as it is,
the frame it returns apart. -/
theorem clock_allocBuf_invalid (s : BufMgr) (j : FrameId) (hj : (s.desc j).valid = false)
    (hv : ∀ v, (Clock.allocBuf s).out = .ok v → j ≠ v) :
    (Clock.allocBuf s).state.desc j = s.desc j := by
  have hl := clock_allocBufLoop_invalid (sweepBound s + 1) s [] j hj
  rcases hr : Clock.allocBufLoop (sweepBound s + 1) s [] with ⟨_ | w, t, ds⟩
  · rw [hr] at hl
    simpa [Clock.allocBuf, hr] using hl
  · rw [hr] at hl
    obtain ⟨a, _, _, _⟩ := clock_allocBufLoop_some _ _ _ _ _ _ hr
    have hjw : j ≠ w := hv w (by simp [Clock.allocBuf, hr])
    simp only [Clock.allocBuf, hr]
    rw [← a, desc_setDesc_ne _ _ j _ hjw]
    exact hl

/-- A chosen frame, once freed, leaves a well-formed pool well formed. -/
theorem wf_taken {s t : BufMgr} {v : FrameId} (hw : WellFormed s) (hc : Taken s v t)
    (hf : t.desc v = BufDesc.free)
    (hx : ∀ j, j ≠ v → (s.desc j).valid = false → t.desc j = s.desc j) : WellFormed t := by
  obtain ⟨h1, _, h3, h4⟩ := hc
  refine wf_evict hw h1 h3 hf ?_ hx
  rcases h4 with h | h
  · exact Or.inl h
  · exact Or.inr ⟨h.1, h.2.2⟩

theorem clock_allocBuf_wf (s : BufMgr) (hw : WellFormed s) :
    WellFormed (Clock.allocBuf s).state := by
  rcases ho : (Clock.allocBuf s).out with v | e
  · obtain ⟨_, _, c, d, _⟩ := clock_allocBuf_ok s v ho
    refine wf_taken hw c.taken d (fun j hjv hj => clock_allocBuf_invalid s j hj ?_)
    intro w hw2
    rw [ho] at hw2
    exact (Outcome.ok.inj hw2) ▸ hjv
  · refine wf_unmoved hw (clock_allocBuf_threw s e ho).2.1
      (fun j hj => clock_allocBuf_invalid s j hj ?_)
    intro w hw2
    rw [ho] at hw2
    exact Outcome.noConfusion hw2

theorem lookup_remove_none (k j : Key) (m : BufHashTbl) (h : BufHashTbl.lookup k m = none) :
    BufHashTbl.lookup k (BufHashTbl.remove j m) = none := by
  by_cases hk : k = j
  · rw [hk]
    exact lookup_remove_self j m
  · rw [lookup_remove_ne _ _ _ hk]
    exact h

theorem Chosen.lookup_absent {s t : BufMgr} {v : FrameId} (h : Chosen s v t) (k : Key)
    (hk : s.hashTable.lookup k = none) : t.hashTable.lookup k = none := by
  rcases h.2.2.2 with ⟨_, h2⟩ | ⟨_, _, h2⟩
  · rw [h2]
    exact hk
  · rw [h2]
    exact lookup_remove_none _ _ _ hk

/-- The pool after a page with key `(file, pageNo)` is put in frame `v`. -/
theorem wf_installed (t : BufMgr) (v : FrameId) (pg : Page) (file : FilePtr) (pageNo : PageId)
    (hw : WellFormed t) (hv : v < t.numBufs) (hinv : (t.desc v).valid = false)
    (hk : t.hashTable.lookup (file, pageNo) = none) :
    WellFormed
      (({ t.setPage v pg with
          hashTable := (t.setPage v pg).hashTable.insert (file, pageNo) v } : BufMgr).setDesc v
        ((({ t.setPage v pg with
          hashTable := (t.setPage v pg).hashTable.insert (file, pageNo) v } : BufMgr).desc
            v).Set file pageNo)) := by
  refine wf_install (k := (file, pageNo)) hw (numBufs_setDesc _ _ _) ?_ hinv hk ?_ rfl
    (fun j hj _ => desc_setDesc_ne _ v j _ hj)
  · intro j hj
    rw [desc_setDesc_ne _ v j _ hj]
    exact kept_refl _
  · have hv1 : v < t.bufDescTable.length := hv
    simp [BufMgr.desc, BufMgr.setDesc, BufMgr.setPage, List.getElem?_set, hv1, BufDesc.Set]

theorem valid_of_lookup {s : BufMgr} (hw : WellFormed s) {k : Key} {v : FrameId}
    (h : s.hashTable.lookup k = some v) :
    (s.desc v).valid = true ∧ (s.desc v).file = k.1 ∧ (s.desc v).pageNo = k.2 :=
  hw.2.1 _ (mem_of_lookup _ _ _ h)

theorem clock_readPage_wf (s : BufMgr) (file : Nat) (pageNo : PageId) (answer : Option Page)
    (hw : WellFormed s) (hN : 0 < s.numBufs) :
    WellFormed (Clock.readPage s file pageNo answer).state := by
  rcases hl : s.hashTable.lookup (some file, pageNo) with _ | frameID
  · rcases ho : (Clock.allocBuf s).out with v | e
    · obtain ⟨_, b, c, d, _⟩ := clock_allocBuf_ok s v ho
      have hwr := clock_allocBuf_wf s hw
      rcases answer with _ | pg
      · simpa [Clock.readPage, hl, ho] using hwr
      · simp only [Clock.readPage, hl, ho]
        exact wf_installed _ v pg (some file) pageNo hwr (c.1 ▸ b hN)
          (by rw [d]; rfl) (c.lookup_absent _ hl)
    · simpa [Clock.readPage, hl, ho] using clock_allocBuf_wf s hw
  · obtain ⟨v1, _, _⟩ := valid_of_lookup hw hl
    have hlt := lt_of_valid s frameID v1
    simp only [Clock.readPage, hl]
    refine wf_update hw (numBufs_setDesc _ _ _) rfl ?_ ?_ (fun _ => v1) ?_ v1
      (fun j hj _ => desc_setDesc_ne _ _ j _ hj)
    · intro j hj
      rw [desc_setDesc_ne _ _ j _ hj]
      exact kept_refl _
    · rw [desc_setDesc_self _ _ _ hlt]
      exact ⟨rfl, rfl, rfl⟩
    · rw [desc_setDesc_self _ _ _ hlt]
      intro h
      exact (hw.2.2.2.1 frameID hlt h)

theorem clock_allocPage_wf (s : BufMgr) (file : Nat) (fresh : Page)
    (hw : WellFormed s) (hN : 0 < s.numBufs) (hf : Clock.freshAt s (.allocPage file fresh)) :
    WellFormed (Clock.allocPage s file fresh).state := by
  rcases ho : (Clock.allocBuf s).out with v | e
  · obtain ⟨_, b, c, d, _⟩ := clock_allocBuf_ok s v ho
    have hwr := clock_allocBuf_wf s hw
    simp only [Clock.freshAt, ho] at hf
    simp only [Clock.allocPage, ho]
    exact wf_installed _ v fresh (some file) fresh.page_number hwr (c.1 ▸ b hN)
      (by rw [d]; rfl) hf
  · simpa [Clock.allocPage, ho] using clock_allocBuf_wf s hw

theorem unPinPage_wf (s : BufMgr) (file : Nat) (pageNo : PageId) (dirty : Bool)
    (hw : WellFormed s) : WellFormed (unPinPage s file pageNo dirty).state := by
  rcases hl : s.hashTable.lookup (some file, pageNo) with _ | frame
  · simpa [unPinPage, hl] using hw
  · obtain ⟨v1, _, _⟩ := valid_of_lookup hw hl
    have hlt := lt_of_valid s frame v1
    by_cases hp : (s.desc frame).pinCnt = 0
    · simpa [unPinPage, hl, hp] using hw
    · have hw1 : WellFormed
          (s.setDesc frame { s.desc frame with pinCnt := (s.desc frame).pinCnt - 1 }) := by
        refine wf_update hw (numBufs_setDesc _ _ _) rfl ?_ ?_ (fun _ => v1) ?_ v1
          (fun j hj _ => desc_setDesc_ne _ _ j _ hj)
        · intro j hj
          rw [desc_setDesc_ne _ _ j _ hj]
          exact kept_refl _
        · rw [desc_setDesc_self _ _ _ hlt]
          exact ⟨rfl, rfl, rfl⟩
        · rw [desc_setDesc_self _ _ _ hlt]
          intro h
          exact (hw.2.2.2.1 frame hlt h)
      cases dirty
      · simpa [unPinPage, hl, hp] using hw1
      · simp only [unPinPage, hl, hp, if_true, if_false]
        have hlt1 : frame < (s.setDesc frame
            { s.desc frame with pinCnt := (s.desc frame).pinCnt - 1 }).numBufs := by
          rw [numBufs_setDesc]
          exact hlt
        have hv1 : ((s.setDesc frame
            { s.desc frame with pinCnt := (s.desc frame).pinCnt - 1 }).desc frame).valid = true := by
          rw [desc_setDesc_self _ _ _ hlt]
          exact v1
        refine wf_update hw1 (numBufs_setDesc _ _ _) rfl ?_ ?_ (fun _ => hv1) (fun _ => hv1)
          hv1 (fun j hj _ => desc_setDesc_ne _ _ j _ hj)
        · intro j hj
          simp only [desc_setDesc_ne _ _ j _ hj]
          exact kept_refl _
        · rw [desc_setDesc_self _ _ _ hlt1]
          exact ⟨rfl, rfl, rfl⟩

theorem disposePage_wf (s : BufMgr) (file : Nat) (pageNo : PageId) (hw : WellFormed s) :
    WellFormed (disposePage s file pageNo).state := by
  rcases hl : s.hashTable.lookup (some file, pageNo) with _ | frameid
  · simpa [disposePage, hl] using hw
  · obtain ⟨v1, v2, v3⟩ := valid_of_lookup hw hl
    simp only [disposePage, hl]
    refine wf_evict (v := frameid) hw (numBufs_setDesc _ _ _) ?_ (desc_setDesc_free _ _)
      (Or.inr ⟨v1, ?_⟩) (fun j hj _ => desc_setDesc_ne _ _ j _ hj)
    · intro j hj
      rw [desc_setDesc_ne _ _ j _ hj]
      exact kept_refl _
    · rw [v2, v3]
      rfl

theorem flushFileFrom_wf (file : FilePtr) (n : Nat) :
    ∀ (i : FrameId) (s : BufMgr) (cs : List FileCall), WellFormed s →
      WellFormed (flushFileFrom file n i s cs).state := by
  induction n with
  | zero =>
    intro i s cs hw
    exact hw
  | succ n ih =>
    intro i s cs hw
    simp only [flushFileFrom]
    split_ifs with h1 h2 h3 h4
    · exact hw
    · exact hw
    · refine ih _ _ _ (wf_evict (v := i) hw (numBufs_setDesc _ _ _) ?_
        (desc_setDesc_free _ _) (Or.inr ⟨by simpa using h3, ?_⟩)
        (fun j hj _ => desc_setDesc_ne _ _ j _ hj))
      · intro j hj
        rw [desc_setDesc_ne _ _ j _ hj]
        exact kept_refl _
      · rw [h1]
        rfl
    · exact ih _ _ _ hw
    · exact ih _ _ _ hw

theorem flushFile_wf (s : BufMgr) (file : FilePtr) (hw : WellFormed s) :
    WellFormed (flushFile s file).state :=
  flushFileFrom_wf file _ _ _ _ hw

/-! ## The pool keeps its size -/

theorem clock_allocBuf_numBufs (s : BufMgr) : (Clock.allocBuf s).state.numBufs = s.numBufs := by
  rcases ho : (Clock.allocBuf s).out with v | e
  · exact (clock_allocBuf_ok s v ho).2.2.1.1
  · exact (clock_allocBuf_threw s e ho).2.1.1

theorem clock_readPage_numBufs (s : BufMgr) (file : Nat) (pageNo : PageId)
    (answer : Option Page) : (Clock.readPage s file pageNo answer).state.numBufs = s.numBufs := by
  rcases hl : s.hashTable.lookup (some file, pageNo) with _ | frameID
  · rcases ho : (Clock.allocBuf s).out with v | e
    · rcases answer with _ | pg
      · simpa [Clock.readPage, hl, ho] using clock_allocBuf_numBufs s
      · simp only [Clock.readPage, hl, ho]
        exact (numBufs_setDesc _ _ _).trans (clock_allocBuf_numBufs s)
    · simpa [Clock.readPage, hl, ho] using clock_allocBuf_numBufs s
  · simp only [Clock.readPage, hl]
    exact numBufs_setDesc _ _ _

theorem clock_allocPage_numBufs (s : BufMgr) (file : Nat) (fresh : Page) :
    (Clock.allocPage s file fresh).state.numBufs = s.numBufs := by
  rcases ho : (Clock.allocBuf s).out with v | e
  · simp only [Clock.allocPage, ho]
    exact (numBufs_setDesc _ _ _).trans (clock_allocBuf_numBufs s)
  · simpa [Clock.allocPage, ho] using clock_allocBuf_numBufs s

theorem unPinPage_numBufs (s : BufMgr) (file : Nat) (pageNo : PageId) (dirty : Bool) :
    (unPinPage s file pageNo dirty).state.numBufs = s.numBufs := by
  rcases hl : s.hashTable.lookup (some file, pageNo) with _ | frame
  · simp [unPinPage, hl]
  · by_cases hp : (s.desc frame).pinCnt = 0
    · simp [unPinPage, hl, hp]
    · cases dirty <;> simp [unPinPage, hl, hp, numBufs_setDesc]

theorem disposePage_numBufs (s : BufMgr) (file : Nat) (pageNo : PageId) :
    (disposePage s file pageNo).state.numBufs = s.numBufs := by
  rcases hl : s.hashTable.lookup (some file, pageNo) with _ | frameid
  · simp [disposePage, hl]
  · simp only [disposePage, hl]
    exact numBufs_setDesc _ _ _

theorem flushFileFrom_numBufs (file : FilePtr) (n : Nat) :
    ∀ (i : FrameId) (s : BufMgr) (cs : List FileCall),
      (flushFileFrom file n i s cs).state.numBufs = s.numBufs := by
  induction n with
  | zero =>
    intro i s cs
    rfl
  | succ n ih =>
    intro i s cs
    simp only [flushFileFrom]
    split_ifs
    · rfl
    · rfl
    · exact (ih _ _ _).trans (numBufs_setDesc _ _ _)
    · exact ih _ _ _
    · exact ih _ _ _

theorem clock_step_numBufs (s : BufMgr) (op : Op) : (Clock.step s op).numBufs = s.numBufs := by
  cases op with
  | readPage file pageNo answer => exact clock_readPage_numBufs s file pageNo answer
  | allocPage file fresh => exact clock_allocPage_numBufs s file fresh
  | unPinPage file pageNo dirty => exact unPinPage_numBufs s file pageNo dirty
  | flushFile file => exact flushFileFrom_numBufs file _ _ _ _
  | disposePage file pageNo => exact disposePage_numBufs s file pageNo

theorem clock_step_wf (s : BufMgr) (op : Op) (hw : WellFormed s) (hN : 0 < s.numBufs)
    (hf : Clock.freshAt s op) : WellFormed (Clock.step s op) := by
  cases op with
  | readPage file pageNo answer => exact clock_readPage_wf s file pageNo answer hw hN
  | allocPage file fresh => exact clock_allocPage_wf s file fresh hw hN hf
  | unPinPage file pageNo dirty => exact unPinPage_wf s file pageNo dirty hw
  | flushFile file => exact flushFile_wf s file hw
  | disposePage file pageNo => exact disposePage_wf s file pageNo hw

theorem clock_run_wf (ops : List Op) :
    ∀ s : BufMgr, WellFormed s → 0 < s.numBufs → Clock.Admissible s ops →
      WellFormed (Clock.run s ops) := by
  induction ops with
  | nil =>
    intro s hw _ _
    exact hw
  | cons op ops ih =>
    intro s hw hN ha
    exact ih _ (clock_step_wf s op hw hN ha.1) (by rw [clock_step_numBufs]; exact hN) ha.2

theorem desc_init (n : Nat) (i : FrameId) : (BufMgr.init n).desc i = BufDesc.free := by
  by_cases h : i < n
  · simp [BufMgr.desc, BufMgr.init, List.getElem?_replicate, h]
  · simp [BufMgr.desc, BufMgr.init, List.getElem?_replicate, h]
    rfl

theorem init_wf (n : Nat) : WellFormed (BufMgr.init n) := by
  refine ⟨?_, ?_, ?_, ?_, ?_⟩
  · intro i _
    rw [desc_init]
    simp [BufDesc.free, BufMgr.init, BufHashTbl.lookup]
  · intro e he
    simp [BufMgr.init] at he
  · intro i _
    rw [desc_init]
    simp [BufDesc.free]
  · intro i _
    rw [desc_init]
    simp [BufDesc.free]
  · intro i _ _
    rw [desc_init]

theorem numBufs_init (n : Nat) : (BufMgr.init n).numBufs = n := by
  simp [BufMgr.numBufs, BufMgr.init]

/-! ## The replacement of the LRU variant -/

theorem swept_setDesc (s : BufMgr) (i : FrameId) (d : BufDesc) (h : Kept (s.desc i) d) :
    Swept s (s.setDesc i d) := by
  refine ⟨numBufs_setDesc s i d, rfl, rfl, fun j => ?_⟩
  by_cases hj : j = i
  · subst hj
    by_cases hlt : j < s.numBufs
    · rw [desc_setDesc_self s j d hlt]
      exact h
    · have h1 : (s.setDesc j d).desc j = BufDesc.free :=
        desc_of_le _ j (by rw [numBufs_setDesc]; exact Nat.le_of_not_lt hlt)
      rw [h1, desc_of_le s j (Nat.le_of_not_lt hlt)]
      exact kept_refl _
  · rw [desc_setDesc_ne s i j d hj]
    exact kept_refl _

theorem lru_sweep_done (k : Nat) (max : Int) (mf : FrameId) (s : BufMgr) (cs : List FileCall)
    (h : max ≠ -1) : Lru.sweep k max mf s cs = ⟨.ok mf, s, cs⟩ := by
  cases k with
  | zero => rfl
  | succ k => simp [Lru.sweep, h]

theorem lru_sweepPost_threw {s t : BufMgr} {cs ds : List FileCall} (h : Swept s t)
    (hc : ∀ c ∈ ds, c ∈ cs ∨ ∃ f p, c = FileCall.writePage f p) :
    Lru.SweepPost s cs ⟨.threw .BufferExceeded, t, ds⟩ := by
  refine ⟨h, hc, ?_, ?_⟩
  · intro e he
    exact (Outcome.threw.inj he).symm
  · intro v hv
    exact Outcome.noConfusion hv

theorem lru_sweepPost_mono {s t : BufMgr} {cs ds : List FileCall} {r : Res FrameId}
    (h : Swept s t) (hc : ∀ c ∈ ds, c ∈ cs ∨ ∃ f p, c = FileCall.writePage f p)
    (hp : Lru.SweepPost t ds r) : Lru.SweepPost s cs r := by
  obtain ⟨p1, p2, p3, p4⟩ := hp
  refine ⟨h.comp_swept p1, ?_, p3, ?_⟩
  · intro c hcm
    rcases p2 c hcm with h1 | h1
    · exact hc c h1
    · exact Or.inr h1
  · intro v hv
    obtain ⟨q1, q2, q3⟩ := p4 v hv
    obtain ⟨_, _, a3, _, a5⟩ := h.2.2.2 v
    exact ⟨fun h0 => h.1 ▸ q1 (h.1.symm ▸ h0), a5 ▸ q2, a3 ▸ q3⟩

theorem lru_sweep_post (k : Nat) :
    k ≠ 0 → ∀ (mf : FrameId) (s : BufMgr) (cs : List FileCall),
      Lru.SweepPost s cs (Lru.sweep k (-1) mf s cs) := by
  induction k with
  | zero =>
    intro h
    exact absurd rfl h
  | succ k ih =>
    intro _ mf s cs
    have hadv : Swept s (advanceClock s) := (unmoved_advanceClock s).to_swept
    have hcs : ∀ c ∈ cs, c ∈ cs ∨ ∃ f p, c = FileCall.writePage f p := fun c hc => Or.inl hc
    simp only [Lru.sweep, ne_eq, not_true_eq_false, if_false]
    by_cases h1 : ((advanceClock s).desc (advanceClock s).clockHand).valid = true
    · by_cases h2 : ((advanceClock s).desc (advanceClock s).clockHand).refbit = false
      · by_cases h3 : ((advanceClock s).desc (advanceClock s).clockHand).pinCnt = 0
        · rw [if_pos h1, if_pos h2, if_pos h3]
          have hs2 : Swept s
              (if ((advanceClock s).desc (advanceClock s).clockHand).dirty = true then
                (advanceClock s).setDesc (advanceClock s).clockHand
                  { (advanceClock s).desc (advanceClock s).clockHand with dirty := false }
              else advanceClock s) := by
            split_ifs
            · exact hadv.comp_swept (swept_setDesc _ _ _
                ⟨rfl, rfl, rfl, fun h => Bool.noConfusion h, rfl⟩)
            · exact hadv
          have hc2 : ∀ c ∈
              (if ((advanceClock s).desc (advanceClock s).clockHand).dirty = true then
                cs ++ [FileCall.writePage
                  ((advanceClock s).desc (advanceClock s).clockHand).file
                  ((advanceClock s).page (advanceClock s).clockHand)]
              else cs), c ∈ cs ∨ ∃ f p, c = FileCall.writePage f p := by
            intro c hc
            split_ifs at hc
            · rcases List.mem_append.1 hc with h | h
              · exact Or.inl h
              · exact Or.inr ⟨_, _, List.mem_singleton.1 h⟩
            · exact Or.inl hc
          by_cases h4 : ((advanceClock s).desc (advanceClock s).clockHand).counter > -1
          · rw [if_pos h4, lru_sweep_done _ _ _ _ _ (ne_of_gt h4)]
            refine ⟨hs2, hc2, ?_, ?_⟩
            · intro e he
              exact Outcome.noConfusion he
            · intro v hv
              have hv1 : (advanceClock s).clockHand = v := Outcome.ok.inj hv
              subst hv1
              exact ⟨clockHand_advanceClock_lt s, h1, h3⟩
          · rw [if_neg h4]
            by_cases hk : k = 0
            · rw [if_pos hk]
              exact lru_sweepPost_threw hs2 hc2
            · rw [if_neg hk]
              exact lru_sweepPost_mono hs2 hc2 (ih hk _ _ _)
        · rw [if_pos h1, if_pos h2, if_neg h3]
          by_cases hk : k = 0
          · rw [if_pos hk]
            exact lru_sweepPost_threw hadv hcs
          · rw [if_neg hk]
            exact lru_sweepPost_mono hadv hcs (ih hk _ _ _)
      · rw [if_pos h1, if_neg h2]
        have hs2 : Swept s ((advanceClock s).setDesc (advanceClock s).clockHand
            { (advanceClock s).desc (advanceClock s).clockHand with refbit := false }) :=
          hadv.comp_swept (swept_setDesc _ _ _ ⟨rfl, rfl, rfl, fun h => h, rfl⟩)
        by_cases hk : k = 0
        · rw [if_pos hk]
          exact lru_sweepPost_threw hs2 hcs
        · rw [if_neg hk]
          exact lru_sweepPost_mono hs2 hcs (ih hk _ _ _)
    · rw [if_neg h1]
      by_cases hk : k = 0
      · rw [if_pos hk]
        exact lru_sweepPost_threw hadv hcs
      · rw [if_neg hk]
        exact lru_sweepPost_mono hadv hcs (ih hk _ _ _)

theorem lru_desc_bumpCounters (s : BufMgr) (j : FrameId) :
    (Lru.bumpCounters s).desc j =
      if (s.desc j).valid = true then { s.desc j with counter := (s.desc j).counter + 1 }
      else s.desc j := by
  simp only [Lru.bumpCounters, BufMgr.desc, List.getD_eq_getElem?_getD, List.getElem?_map]
  rcases s.bufDescTable[j]? with _ | d
  · rfl
  · simp only [Option.map_some', Option.getD_some]

theorem lru_numBufs_bumpCounters (s : BufMgr) : (Lru.bumpCounters s).numBufs = s.numBufs := by
  simp [Lru.bumpCounters, BufMgr.numBufs]

theorem lru_unmoved_bumpCounters (s : BufMgr) : Unmoved s (Lru.bumpCounters s) := by
  refine ⟨lru_numBufs_bumpCounters s, rfl, rfl, fun j => ?_⟩
  rw [lru_desc_bumpCounters]
  split_ifs
  · exact ⟨rfl, rfl, rfl, rfl, rfl⟩
  · exact agree_refl _

theorem lru_firstFree_spec (l : List BufDesc) :
    ∀ z, (l.filter (fun d => d.valid)).length < l.length →
      z ≤ Lru.firstFree l z ∧ Lru.firstFree l z - z < l.length ∧
        (l.getD (Lru.firstFree l z - z) default).valid = false := by
  induction l with
  | nil =>
    intro z h
    simp at h
  | cons d ds ih =>
    intro z h
    by_cases hd : d.valid = false
    · simp [Lru.firstFree, hd]
    · have hd1 : d.valid = true := by simpa using hd
      have hlen : (ds.filter (fun d => d.valid)).length < ds.length := by
        simpa [List.filter_cons, hd1] using h
      obtain ⟨i1, i2, i3⟩ := ih (z + 1) hlen
      have he : Lru.firstFree (d :: ds) z = Lru.firstFree ds (z + 1) := by
        simp [Lru.firstFree, hd1]
      have ar : ∀ f y : Nat, y + 1 ≤ f → f - y = (f - (y + 1)) + 1 := by
        intro f y hy
        omega
      rw [he, ar _ _ i1]
      refine ⟨Nat.le_of_succ_le i1, by simpa using i2, ?_⟩
      simpa using i3

theorem lru_bumpCounters_invalid (s : BufMgr) (j : FrameId) (hj : (s.desc j).valid = false) :
    (Lru.bumpCounters s).desc j = s.desc j := by
  rw [lru_desc_bumpCounters, if_neg (by simp [hj])]

/-- A sweep of the LRU variant does not write a descriptor that is not valid. -/
theorem lru_sweep_invalid (k : Nat) :
    ∀ (max : Int) (mf : FrameId) (s : BufMgr) (cs : List FileCall) (j : FrameId),
      (s.desc j).valid = false → (Lru.sweep k max mf s cs).state.desc j = s.desc j := by
  induction k with
  | zero =>
    intro max mf s cs j _
    rfl
  | succ k ih =>
    intro max mf s cs j hj
    have hne : ((advanceClock s).desc (advanceClock s).clockHand).valid = true →
        j ≠ (advanceClock s).clockHand := by
      intro h1 hjc
      rw [← hjc, desc_advanceClock, hj] at h1
      exact Bool.noConfusion h1
    have key : ∀ (x : BufMgr) (m : Int) (f : FrameId) (c : List FileCall),
        x.desc j = s.desc j → (Lru.sweep k m f x c).state.desc j = s.desc j := by
      intro x m f c hx
      rw [ih _ _ _ _ j (by rw [hx]; exact hj)]
      exact hx
    have hs2 : (if ((advanceClock s).desc (advanceClock s).clockHand).dirty = true then
          (advanceClock s).setDesc (advanceClock s).clockHand
            { (advanceClock s).desc (advanceClock s).clockHand with dirty := false }
        else advanceClock s).desc j = s.desc j ∨
        ((advanceClock s).desc (advanceClock s).clockHand).valid = false := by
      by_cases h1 : ((advanceClock s).desc (advanceClock s).clockHand).valid = true
      · left
        split_ifs
        · exact desc_setDesc_ne (advanceClock s) _ j _ (hne h1)
        · rfl
      · right
        simpa using h1
    have hs3 : ((advanceClock s).setDesc (advanceClock s).clockHand
          { (advanceClock s).desc (advanceClock s).clockHand with refbit := false }).desc j
          = s.desc j ∨
        ((advanceClock s).desc (advanceClock s).clockHand).valid = false := by
      by_cases h1 : ((advanceClock s).desc (advanceClock s).clockHand).valid = true
      · exact Or.inl (desc_setDesc_ne (advanceClock s) _ j _ (hne h1))
      · right
        simpa using h1
    simp only [Lru.sweep]
    by_cases hm : max ≠ -1
    · rw [if_pos hm]
    · rw [if_neg hm]
      by_cases h1 : ((advanceClock s).desc (advanceClock s).clockHand).valid = true
      · rw [if_pos h1]
        have hs2a := hs2.resolve_right (by rw [h1]; exact Bool.noConfusion)
        have hs3a := hs3.resolve_right (by rw [h1]; exact Bool.noConfusion)
        by_cases h2 : ((advanceClock s).desc (advanceClock s).clockHand).refbit = false
        · rw [if_pos h2]
          by_cases h3 : ((advanceClock s).desc (advanceClock s).clockHand).pinCnt = 0
          · rw [if_pos h3]
            by_cases h4 : ((advanceClock s).desc (advanceClock s).clockHand).counter > max
            · rw [if_pos h4]
              exact key _ _ _ _ hs2a
            · rw [if_neg h4]
              by_cases hk : k = 0
              · rw [if_pos hk]
                exact hs2a
              · rw [if_neg hk]
                exact key _ _ _ _ hs2a
          · rw [if_neg h3]
            by_cases hk : k = 0
            · rw [if_pos hk]
              rfl
            · rw [if_neg hk]
              exact key _ _ _ _ rfl
        · rw [if_neg h2]
          by_cases hk : k = 0
          · rw [if_pos hk]
            exact hs3a
          · rw [if_neg hk]
            exact key _ _ _ _ hs3a
      · rw [if_neg h1]
        by_cases hk : k = 0
        · rw [if_pos hk]
          rfl
        · rw [if_neg hk]
          exact key _ _ _ _ rfl

theorem sweepBound_eq (s : BufMgr) (h32 : s.numBufs < 2147483648) :
    sweepBound s = 2 * s.numBufs := by
  unfold sweepBound
  omega

theorem sweepBound_ne_zero (s : BufMgr) (h0 : 0 < s.numBufs) (h32 : s.numBufs < 2147483648) :
    sweepBound s ≠ 0 := by
  rw [sweepBound_eq s h32]
  omega

theorem lru_allocBuf_threw (s : BufMgr) (e : Exc) (h : (Lru.allocBuf s).out = .threw e) :
    e = .BufferExceeded ∧ Swept s (Lru.allocBuf s).state ∧
      ∀ c ∈ (Lru.allocBuf s).calls, ∃ f p, c = FileCall.writePage f p := by
  have hb := (lru_unmoved_bumpCounters s).to_swept
  by_cases hfull : Lru.filledFrames (Lru.bumpCounters s) < (Lru.bumpCounters s).numBufs
  · simp [Lru.allocBuf, hfull] at h
  · by_cases hk : sweepBound (Lru.bumpCounters s) = 0
    · simp [Lru.allocBuf, hfull, hk, Lru.sweep] at h
    · obtain ⟨p1, p2, p3, _⟩ := lru_sweep_post _ hk 0 (Lru.bumpCounters s) []
      rcases ho : (Lru.sweep (sweepBound (Lru.bumpCounters s)) (-1) 0
          (Lru.bumpCounters s) []).out with v | e1
      · simp [Lru.allocBuf, hfull, ho] at h
      · simp only [Lru.allocBuf, hfull, ho, if_false, Outcome.threw.injEq] at h ⊢
        subst h
        refine ⟨p3 _ ho, hb.comp_swept p1, fun c hc => ?_⟩
        rcases p2 c hc with h1 | h1
        · simp at h1
        · exact h1

theorem lru_allocBuf_ok (s : BufMgr) (v : FrameId) (h0 : 0 < s.numBufs)
    (h32 : s.numBufs < 2147483648) (h : (Lru.allocBuf s).out = .ok v) :
    v < s.numBufs ∧ Taken s v (Lru.allocBuf s).state ∧
      ((Lru.allocBuf s).state.desc v = BufDesc.free ∨
        (Swept s (Lru.allocBuf s).state ∧
          ∀ j, (s.desc j).valid = false → (Lru.allocBuf s).state.desc j = s.desc j)) ∧
      ((Lru.allocBuf s).state.desc v).valid = false ∧
      ∀ c ∈ (Lru.allocBuf s).calls, ∃ f p, c = FileCall.writePage f p := by
  have hu := lru_unmoved_bumpCounters s
  have hb := hu.to_swept
  by_cases hfull : Lru.filledFrames (Lru.bumpCounters s) < (Lru.bumpCounters s).numBufs
  · obtain ⟨_, f2, f3⟩ := lru_firstFree_spec _ 0 hfull
    simp only [Lru.allocBuf, hfull, if_true, Outcome.ok.injEq] at h ⊢
    subst h
    have hlt : Lru.firstFree (Lru.bumpCounters s).bufDescTable 0 < s.numBufs := by
      rw [← lru_numBufs_bumpCounters s]
      simpa using f2
    have hinv : ((Lru.bumpCounters s).desc
        (Lru.firstFree (Lru.bumpCounters s).bufDescTable 0)).valid = false := by
      simpa [BufMgr.desc] using f3
    have hinv0 : (s.desc (Lru.firstFree (Lru.bumpCounters s).bufDescTable 0)).valid = false :=
      (hu.2.2.2 _).2.2.2.2 ▸ hinv
    refine ⟨hlt, ⟨hb.1, hb.2.1, fun j _ => hb.2.2.2 j, Or.inl ⟨hinv0, rfl⟩⟩,
      Or.inr ⟨hb, fun j hj => lru_bumpCounters_invalid s j hj⟩, hinv, ?_⟩
    intro c hc
    simp at hc
  · have hk : sweepBound (Lru.bumpCounters s) ≠ 0 :=
      sweepBound_ne_zero _ (by rw [lru_numBufs_bumpCounters]; exact h0)
        (by rw [lru_numBufs_bumpCounters]; exact h32)
    obtain ⟨p1, p2, _, p4⟩ := lru_sweep_post _ hk 0 (Lru.bumpCounters s) []
    rcases ho : (Lru.sweep (sweepBound (Lru.bumpCounters s)) (-1) 0
        (Lru.bumpCounters s) []).out with w | e1
    · obtain ⟨q1, q2, q3⟩ := p4 w ho
      have hsw := hb.comp_swept p1
      simp only [Lru.allocBuf, hfull, ho, if_false, Outcome.ok.injEq] at h ⊢
      subst h
      obtain ⟨a1, a2, a3, _, a5⟩ := hsw.2.2.2 w
      obtain ⟨_, _, b3, _, b5⟩ := hb.2.2.2 w
      refine ⟨?_, ⟨(numBufs_setDesc _ _ _).trans hsw.1, hsw.2.1, ?_, Or.inr ⟨?_, ?_, ?_⟩⟩,
        Or.inl (desc_setDesc_free _ _), ?_, ?_⟩
      · have := q1 (by rw [lru_numBufs_bumpCounters]; exact h0)
        rw [lru_numBufs_bumpCounters] at this
        exact this
      · intro j hj
        rw [desc_setDesc_ne _ _ j _ hj]
        exact hsw.2.2.2 j
      · rw [← b5]
        exact q2
      · rw [← b3]
        exact q3
      · show BufHashTbl.remove _ _ = _
        rw [a1, a2, hsw.2.2.1]
      · show ((BufMgr.setDesc _ w BufDesc.free).desc w).valid = false
        rw [desc_setDesc_free]
        rfl
      · intro c hc
        rcases p2 c hc with h1 | h1
        · simp at h1
        · exact h1
    · simp [Lru.allocBuf, hfull, ho] at h

/-- The replacement of the LRU variant leaves a descriptor that is not valid as it is,
the frame it returns apart. -/
theorem lru_allocBuf_invalid (s : BufMgr) (j : FrameId) (hj : (s.desc j).valid = false)
    (hv : ∀ v, (Lru.allocBuf s).out = .ok v → j ≠ v) :
    (Lru.allocBuf s).state.desc j = s.desc j := by
  have hb := lru_bumpCounters_invalid s j hj
  by_cases hfull : Lru.filledFrames (Lru.bumpCounters s) < (Lru.bumpCounters s).numBufs
  · simp only [Lru.allocBuf, hfull, if_true]
    exact hb
  · have hsw := lru_sweep_invalid (sweepBound (Lru.bumpCounters s)) (-1) 0
      (Lru.bumpCounters s) [] j (by rw [hb]; exact hj)
    rcases ho : (Lru.sweep (sweepBound (Lru.bumpCounters s)) (-1) 0
        (Lru.bumpCounters s) []).out with w | e1
    · have hjw : j ≠ w := hv w (by simp [Lru.allocBuf, hfull, ho])
      simp only [Lru.allocBuf, hfull, ho, if_false]
      rw [desc_setDesc_ne _ _ j _ hjw]
      exact hsw.trans hb
    · simp only [Lru.allocBuf, hfull, ho, if_false]
      exact hsw.trans hb

theorem lru_allocBuf_wf (s : BufMgr) (h0 : 0 < s.numBufs) (h32 : s.numBufs < 2147483648)
    (hw : WellFormed s) : WellFormed (Lru.allocBuf s).state := by
  rcases ho : (Lru.allocBuf s).out with v | e
  · obtain ⟨_, b, c, _, _⟩ := lru_allocBuf_ok s v h0 h32 ho
    rcases c with c | c
    · refine wf_taken hw b c (fun j hjv hj => lru_allocBuf_invalid s j hj ?_)
      intro w hw2
      rw [ho] at hw2
      exact (Outcome.ok.inj hw2) ▸ hjv
    · exact wf_swept hw c.1 c.2
  · refine wf_swept hw (lru_allocBuf_threw s e ho).2.1
      (fun j hj => lru_allocBuf_invalid s j hj ?_)
    intro w hw2
    rw [ho] at hw2
    exact Outcome.noConfusion hw2

/-! ## Pinned pages stay -/

theorem pinnedKept_of_keys {s t : BufMgr} (hw : WellFormed s) (hm : t.hashTable = s.hashTable)
    (hd : ∀ j, (t.desc j).valid = (s.desc j).valid ∧ (t.desc j).file = (s.desc j).file ∧
      (t.desc j).pageNo = (s.desc j).pageNo) : PinnedKept s t := by
  intro i hi hp
  have hv := hw.2.2.1 i hi hp
  obtain ⟨d1, d2, d3⟩ := hd i
  exact ⟨d1.trans hv, d2, d3, hm ▸ (hw.1 i hi).1 hv⟩

theorem pinnedKept_swept {s t : BufMgr} (hw : WellFormed s) (h : Swept s t) : PinnedKept s t :=
  pinnedKept_of_keys hw h.2.2.1
    (fun j => ⟨(h.2.2.2 j).2.2.2.2, (h.2.2.2 j).1, (h.2.2.2 j).2.1⟩)

theorem pinnedKept_taken {s t : BufMgr} {v : FrameId} (hw : WellFormed s) (h : Taken s v t) :
    PinnedKept s t := by
  intro i hi hp
  have hv := hw.2.2.1 i hi hp
  have hl := (hw.1 i hi).1 hv
  obtain ⟨_, _, h3, h4⟩ := h
  have hiv : i ≠ v := by
    intro hiv
    subst hiv
    rcases h4 with ⟨h5, _⟩ | ⟨_, h5, _⟩
    · rw [h5] at hv
      exact Bool.noConfusion hv
    · rw [h5] at hp
      exact Nat.lt_irrefl 0 hp
  obtain ⟨a1, a2, _, _, a5⟩ := h3 i hiv
  refine ⟨a5.trans hv, a1, a2, ?_⟩
  rcases h4 with ⟨_, h6⟩ | ⟨h5, _, h6⟩
  · rw [h6]
    exact hl
  · rw [h6, lookup_remove_ne]
    · exact hl
    · intro hk
      have hl2 := (hw.1 v (lt_of_valid s v h5)).1 h5
      rw [← hk, hl] at hl2
      exact hiv (Option.some.inj hl2)

theorem PinnedKept.after_swept {s t u : BufMgr} (h : PinnedKept s t) (g : Swept t u) :
    PinnedKept s u := by
  intro i hi hp
  obtain ⟨v1, v2, v3, v4⟩ := h i hi hp
  obtain ⟨a1, a2, _, _, a5⟩ := g.2.2.2 i
  exact ⟨a5.trans v1, a1.trans v2, a2.trans v3, g.2.2.1 ▸ v4⟩

theorem PinnedKept.installed {s t : BufMgr} (h : PinnedKept s t) (v : FrameId) (pg : Page)
    (file : FilePtr) (pageNo : PageId) (hinv : (t.desc v).valid = false)
    (hk : t.hashTable.lookup (file, pageNo) = none) :
    PinnedKept s
      (({ t.setPage v pg with
          hashTable := (t.setPage v pg).hashTable.insert (file, pageNo) v } : BufMgr).setDesc v
        ((({ t.setPage v pg with
          hashTable := (t.setPage v pg).hashTable.insert (file, pageNo) v } : BufMgr).desc
            v).Set file pageNo)) := by
  intro i hi hp
  obtain ⟨v1, v2, v3, v4⟩ := h i hi hp
  have hiv : i ≠ v := by
    intro hiv
    rw [hiv, hinv] at v1
    exact Bool.noConfusion v1
  rw [desc_setDesc_ne _ v i _ hiv]
  refine ⟨v1, v2, v3, ?_⟩
  show BufHashTbl.lookup _ (BufHashTbl.insert (file, pageNo) v t.hashTable) = some i
  rw [lookup_insert_ne]
  · exact v4
  · intro hkk
    rw [hkk, hk] at v4
    exact Option.noConfusion v4

theorem keys_setDesc (s : BufMgr) (i : FrameId) (d : BufDesc)
    (h : d.valid = (s.desc i).valid ∧ d.file = (s.desc i).file ∧ d.pageNo = (s.desc i).pageNo) :
    ∀ j, ((s.setDesc i d).desc j).valid = (s.desc j).valid ∧
      ((s.setDesc i d).desc j).file = (s.desc j).file ∧
      ((s.setDesc i d).desc j).pageNo = (s.desc j).pageNo := by
  intro j
  by_cases hj : j = i
  · subst hj
    by_cases hlt : j < s.numBufs
    · rw [desc_setDesc_self s j d hlt]
      exact h
    · have h1 : (s.setDesc j d).desc j = BufDesc.free :=
        desc_of_le _ j (by rw [numBufs_setDesc]; exact Nat.le_of_not_lt hlt)
      rw [h1, desc_of_le s j (Nat.le_of_not_lt hlt)]
      exact ⟨rfl, rfl, rfl⟩
  · rw [desc_setDesc_ne s i j d hj]
    exact ⟨rfl, rfl, rfl⟩

theorem Taken.lookup_none {s t : BufMgr} {v : FrameId} (h : Taken s v t) (k : Key)
    (hk : s.hashTable.lookup k = none) : t.hashTable.lookup k = none := by
  rcases h.2.2.2 with ⟨_, h2⟩ | ⟨_, _, h2⟩
  · rw [h2]
    exact hk
  · rw [h2]
    exact lookup_remove_none _ _ _ hk

theorem clock_readPage_pinnedKept (s : BufMgr) (hw : WellFormed s) (file : Nat)
    (pageNo : PageId) (answer : Option Page) :
    PinnedKept s (Clock.readPage s file pageNo answer).state := by
  rcases hl : s.hashTable.lookup (some file, pageNo) with _ | frameID
  · rcases ho : (Clock.allocBuf s).out with v | e
    · obtain ⟨_, _, c, d, _⟩ := clock_allocBuf_ok s v ho
      have hp := pinnedKept_taken hw c.taken
      rcases answer with _ | pg
      · simpa [Clock.readPage, hl, ho] using hp
      · simp only [Clock.readPage, hl, ho]
        exact hp.installed v pg (some file) pageNo (by rw [d]; rfl) (c.lookup_absent _ hl)
    · simpa [Clock.readPage, hl, ho] using
        pinnedKept_swept hw (clock_allocBuf_threw s e ho).2.1.to_swept
  · simp only [Clock.readPage, hl]
    exact pinnedKept_of_keys hw rfl (keys_setDesc s frameID _ ⟨rfl, rfl, rfl⟩)

theorem clock_allocPage_pinnedKept (s : BufMgr) (hw : WellFormed s) (file : Nat) (fresh : Page)
    (hf : Clock.freshAt s (.allocPage file fresh)) :
    PinnedKept s (Clock.allocPage s file fresh).state := by
  rcases ho : (Clock.allocBuf s).out with v | e
  · obtain ⟨_, _, c, d, _⟩ := clock_allocBuf_ok s v ho
    simp only [Clock.freshAt, ho] at hf
    simp only [Clock.allocPage, ho]
    exact (pinnedKept_taken hw c.taken).installed v fresh (some file) fresh.page_number
      (by rw [d]; rfl) hf
  · simpa [Clock.allocPage, ho] using
      pinnedKept_swept hw (clock_allocBuf_threw s e ho).2.1.to_swept

theorem lru_readPage_pinnedKept (s : BufMgr) (hw : WellFormed s) (h0 : 0 < s.numBufs)
    (h32 : s.numBufs < 2147483648) (file : Nat) (pageNo : PageId) (answer : Option Page) :
    PinnedKept s (Lru.readPage s file pageNo answer).state := by
  rcases hl : s.hashTable.lookup (some file, pageNo) with _ | frameID
  · rcases ho : (Lru.allocBuf s).out with v | e
    · obtain ⟨_, c, _, d, _⟩ := lru_allocBuf_ok s v h0 h32 ho
      have hp := pinnedKept_taken hw c
      rcases answer with _ | pg
      · simpa [Lru.readPage, hl, ho] using hp
      · simp only [Lru.readPage, hl, ho]
        exact PinnedKept.after_swept (hp.installed v pg (some file) pageNo d (c.lookup_none _ hl))
          (lru_unmoved_bumpCounters _).to_swept
    · simpa [Lru.readPage, hl, ho] using pinnedKept_swept hw (lru_allocBuf_threw s e ho).2.1
  · simp only [Lru.readPage, hl]
    refine PinnedKept.after_swept ?_ (lru_unmoved_bumpCounters _).to_swept
    refine pinnedKept_of_keys hw rfl ?_
    intro j
    obtain ⟨a1, a2, a3⟩ := keys_setDesc s frameID { s.desc frameID with refbit := true }
      ⟨rfl, rfl, rfl⟩ j
    obtain ⟨b1, b2, b3⟩ := keys_setDesc
      (s.setDesc frameID { s.desc frameID with refbit := true }) frameID
      { (s.setDesc frameID { s.desc frameID with refbit := true }).desc frameID with
        pinCnt := ((s.setDesc frameID { s.desc frameID with refbit := true }).desc
          frameID).pinCnt + 1 } ⟨rfl, rfl, rfl⟩ j
    exact ⟨b1.trans a1, b2.trans a2, b3.trans a3⟩

theorem lru_allocPage_pinnedKept (s : BufMgr) (hw : WellFormed s) (h0 : 0 < s.numBufs)
    (h32 : s.numBufs < 2147483648) (file : Nat) (fresh : Page)
    (hf : Lru.freshAt s (.allocPage file fresh)) :
    PinnedKept s (Lru.allocPage s file fresh).state := by
  rcases ho : (Lru.allocBuf s).out with v | e
  · obtain ⟨_, c, _, d, _⟩ := lru_allocBuf_ok s v h0 h32 ho
    simp only [Lru.freshAt, ho] at hf
    simp only [Lru.allocPage, ho]
    exact (pinnedKept_taken hw c).installed v fresh (some file) fresh.page_number d hf
  · simpa [Lru.allocPage, ho] using pinnedKept_swept hw (lru_allocBuf_threw s e ho).2.1

/-! ## The paths of `readPage` and `allocPage` -/

theorem desc_installed_self (t : BufMgr) (v : FrameId) (pg : Page) (file : FilePtr)
    (pageNo : PageId) (hv : v < t.numBufs) :
    (t.installed v pg file pageNo).desc v =
      { file := file, pageNo := pageNo, pinCnt := 1, dirty := false, valid := true,
        refbit := true, counter := 0 } := by
  have hv1 : v < t.bufDescTable.length := hv
  simp [BufMgr.installed, BufMgr.desc, BufMgr.setDesc, BufMgr.setPage, List.getElem?_set, hv1,
    BufDesc.Set]

theorem desc_installed_ne (t : BufMgr) (v j : FrameId) (pg : Page) (file : FilePtr)
    (pageNo : PageId) (hj : j ≠ v) : (t.installed v pg file pageNo).desc j = t.desc j :=
  desc_setDesc_ne _ v j _ hj

theorem hashTable_installed (t : BufMgr) (v : FrameId) (pg : Page) (file : FilePtr)
    (pageNo : PageId) :
    (t.installed v pg file pageNo).hashTable = t.hashTable.insert (file, pageNo) v :=
  rfl

theorem numBufs_installed (t : BufMgr) (v : FrameId) (pg : Page) (file : FilePtr)
    (pageNo : PageId) : (t.installed v pg file pageNo).numBufs = t.numBufs :=
  numBufs_setDesc _ _ _

theorem clockHand_installed (t : BufMgr) (v : FrameId) (pg : Page) (file : FilePtr)
    (pageNo : PageId) : (t.installed v pg file pageNo).clockHand = t.clockHand :=
  rfl

theorem clock_readPage_hit (s : BufMgr) (file : Nat) (pageNo : PageId) (answer : Option Page)
    (v : FrameId) (hl : s.hashTable.lookup (some file, pageNo) = some v) :
    Clock.readPage s file pageNo answer =
      ⟨.ok v, s.setDesc v { s.desc v with pinCnt := (s.desc v).pinCnt + 1 }, []⟩ := by
  simp only [Clock.readPage, hl]

theorem clock_readPage_miss (s : BufMgr) (file : Nat) (pageNo : PageId) (pg : Page)
    (v : FrameId) (hl : s.hashTable.lookup (some file, pageNo) = none)
    (ho : (Clock.allocBuf s).out = .ok v) :
    Clock.readPage s file pageNo (some pg) =
      ⟨.ok v, (Clock.allocBuf s).state.installed v pg (some file) pageNo,
        (Clock.allocBuf s).calls ++ [FileCall.readPage (some file) pageNo]⟩ := by
  simp only [Clock.readPage, hl, ho]
  rfl

theorem clock_readPage_full (s : BufMgr) (file : Nat) (pageNo : PageId) (answer : Option Page)
    (e : Exc) (hl : s.hashTable.lookup (some file, pageNo) = none)
    (ho : (Clock.allocBuf s).out = .threw e) :
    Clock.readPage s file pageNo answer =
      ⟨.threw e, (Clock.allocBuf s).state, (Clock.allocBuf s).calls⟩ := by
  simp only [Clock.readPage, hl, ho]

theorem clock_allocPage_ok (s : BufMgr) (file : Nat) (fresh : Page) (v : FrameId)
    (ho : (Clock.allocBuf s).out = .ok v) :
    Clock.allocPage s file fresh =
      ⟨.ok (fresh.page_number, v),
        (Clock.allocBuf s).state.installed v fresh (some file) fresh.page_number,
        (Clock.allocBuf s).calls ++ [FileCall.allocatePage (some file)]⟩ := by
  simp only [Clock.allocPage, ho]
  rfl

theorem lru_readPage_hit (s : BufMgr) (file : Nat) (pageNo : PageId) (answer : Option Page)
    (v : FrameId) (hl : s.hashTable.lookup (some file, pageNo) = some v) :
    Lru.readPage s file pageNo answer =
      ⟨.ok v, Lru.bumpCounters
        ((s.setDesc v { s.desc v with refbit := true }).setDesc v
          { (s.setDesc v { s.desc v with refbit := true }).desc v with
            pinCnt := ((s.setDesc v { s.desc v with refbit := true }).desc v).pinCnt + 1 }),
        []⟩ := by
  simp only [Lru.readPage, hl]

theorem lru_readPage_miss (s : BufMgr) (file : Nat) (pageNo : PageId) (pg : Page)
    (v : FrameId) (hl : s.hashTable.lookup (some file, pageNo) = none)
    (ho : (Lru.allocBuf s).out = .ok v) :
    Lru.readPage s file pageNo (some pg) =
      ⟨.ok v, Lru.bumpCounters ((Lru.allocBuf s).state.installed v pg (some file) pageNo),
        (Lru.allocBuf s).calls ++ [FileCall.readPage (some file) pageNo]⟩ := by
  simp only [Lru.readPage, hl, ho]
  rfl

theorem lru_allocPage_ok (s : BufMgr) (file : Nat) (fresh : Page) (v : FrameId)
    (ho : (Lru.allocBuf s).out = .ok v) :
    Lru.allocPage s file fresh =
      ⟨.ok (fresh.page_number, v),
        (Lru.allocBuf s).state.installed v fresh (some file) fresh.page_number,
        (Lru.allocBuf s).calls ++ [FileCall.allocatePage (some file)]⟩ := by
  simp only [Lru.allocPage, ho]
  rfl

theorem readPageCalls_append (cs ds : List FileCall) :
    readPageCalls (cs ++ ds) = readPageCalls cs + readPageCalls ds := by
  simp [readPageCalls]

theorem readPageCalls_writes (cs : List FileCall)
    (h : ∀ c ∈ cs, ∃ f p, c = FileCall.writePage f p) : readPageCalls cs = 0 := by
  induction cs with
  | nil => rfl
  | cons c cs ih =>
    obtain ⟨f, p, rfl⟩ := h c (List.mem_cons_self _ _)
    have := ih (fun c hc => h c (List.mem_cons_of_mem _ hc))
    simpa [readPageCalls] using this

theorem readPageCalls_evictionCalls (s : BufMgr) (v : FrameId) :
    readPageCalls (evictionCalls s v) = 0 := by
  unfold evictionCalls
  split_ifs <;> rfl

theorem lru_allocBuf_basic (s : BufMgr) :
    (Lru.allocBuf s).state.numBufs = s.numBufs ∧
      ∀ c ∈ (Lru.allocBuf s).calls, ∃ f p, c = FileCall.writePage f p := by
  by_cases hfull : Lru.filledFrames (Lru.bumpCounters s) < (Lru.bumpCounters s).numBufs
  · simp only [Lru.allocBuf, hfull, if_true]
    exact ⟨lru_numBufs_bumpCounters s, fun c hc => by simp at hc⟩
  · by_cases hk : sweepBound (Lru.bumpCounters s) = 0
    · simp only [Lru.allocBuf, hfull, hk, Lru.sweep, if_false]
      exact ⟨(numBufs_setDesc _ _ _).trans (lru_numBufs_bumpCounters s),
        fun c hc => by simp at hc⟩
    · obtain ⟨p1, p2, _, _⟩ := lru_sweep_post _ hk 0 (Lru.bumpCounters s) []
      have hc : ∀ c ∈ (Lru.sweep (sweepBound (Lru.bumpCounters s)) (-1) 0
          (Lru.bumpCounters s) []).calls, ∃ f p, c = FileCall.writePage f p := by
        intro c hc
        rcases p2 c hc with h1 | h1
        · simp at h1
        · exact h1
      rcases ho : (Lru.sweep (sweepBound (Lru.bumpCounters s)) (-1) 0
          (Lru.bumpCounters s) []).out with w | e1
      · simp only [Lru.allocBuf, hfull, ho, if_false]
        exact ⟨(numBufs_setDesc _ _ _).trans (p1.1.trans (lru_numBufs_bumpCounters s)), hc⟩
      · simp only [Lru.allocBuf, hfull, ho, if_false]
        exact ⟨p1.1.trans (lru_numBufs_bumpCounters s), hc⟩

/-! ## A sweep that finds nothing -/

theorem refbitCleared_refl (d : BufDesc) : RefbitCleared d d :=
  ⟨Eq.refl _, Eq.refl _, Eq.refl _, Eq.refl _, Eq.refl _, Eq.refl _, fun h => h⟩

theorem RefbitCleared.comp_cleared {a b c : BufDesc} (h : RefbitCleared a b)
    (g : RefbitCleared b c) : RefbitCleared a c :=
  ⟨g.1.trans h.1, g.2.1.trans h.2.1, g.2.2.1.trans h.2.2.1, g.2.2.2.1.trans h.2.2.2.1,
    g.2.2.2.2.1.trans h.2.2.2.2.1, g.2.2.2.2.2.1.trans h.2.2.2.2.2.1,
    fun x => h.2.2.2.2.2.2 (g.2.2.2.2.2.2 x)⟩

theorem refbitCleared_setDesc (s : BufMgr) (i : FrameId) (d : BufDesc)
    (h : RefbitCleared (s.desc i) d) : ∀ j, RefbitCleared (s.desc j) ((s.setDesc i d).desc j) := by
  intro j
  by_cases hj : j = i
  · subst hj
    by_cases hlt : j < s.numBufs
    · rw [desc_setDesc_self s j d hlt]
      exact h
    · have h1 : (s.setDesc j d).desc j = BufDesc.free :=
        desc_of_le _ j (by rw [numBufs_setDesc]; exact Nat.le_of_not_lt hlt)
      rw [h1, desc_of_le s j (Nat.le_of_not_lt hlt)]
      exact refbitCleared_refl _
  · rw [desc_setDesc_ne s i j d hj]
    exact refbitCleared_refl _

/-- A sweep that ends through the loop condition changes `refbit` only, and only from
true to false. -/
theorem clock_allocBufLoop_none_refbit (k : Nat) :
    ∀ (s t : BufMgr) (cs ds : List FileCall),
      Clock.allocBufLoop k s cs = (none, t, ds) →
        ∀ j, RefbitCleared (s.desc j) (t.desc j) := by
  induction k with
  | zero =>
    intro s t cs ds h j
    simp only [Clock.allocBufLoop, Prod.mk.injEq, true_and] at h
    obtain ⟨rfl, rfl⟩ := h
    exact refbitCleared_refl _
  | succ k ih =>
    intro s t cs ds h j
    simp only [Clock.allocBufLoop] at h
    split_ifs at h with h1 h2 h3 h4
    · simp at h
    · simp at h
    · exact ih _ _ _ _ h j
    · have hstep := refbitCleared_setDesc (advanceClock s) (advanceClock s).clockHand
        { (advanceClock s).desc (advanceClock s).clockHand with refbit := false }
        ⟨rfl, rfl, rfl, rfl, rfl, rfl, fun x => Bool.noConfusion x⟩ j
      exact hstep.comp_cleared (ih _ _ _ _ h j)
    · simp at h

/-- With every frame valid and pinned, the sweep finds nothing. -/
theorem clock_allocBufLoop_allPinned (k : Nat) :
    ∀ (s : BufMgr) (cs : List FileCall), 0 < s.numBufs →
      (∀ i, i < s.numBufs → (s.desc i).valid = true ∧ 0 < (s.desc i).pinCnt) →
        (Clock.allocBufLoop k s cs).1 = none := by
  induction k with
  | zero =>
    intro s cs _ _
    rfl
  | succ k ih =>
    intro s cs h0 hall
    obtain ⟨hv, hp⟩ := hall _ (clockHand_advanceClock_lt s h0)
    have hp1 : ¬ ((advanceClock s).desc (advanceClock s).clockHand).pinCnt = 0 :=
      Nat.pos_iff_ne_zero.1 hp
    have hv1 : ((advanceClock s).desc (advanceClock s).clockHand).valid = true := hv
    simp only [Clock.allocBufLoop]
    rw [if_pos hv1]
    by_cases h2 : ((advanceClock s).desc (advanceClock s).clockHand).refbit = false
    · rw [if_pos h2, if_neg hp1]
      exact ih _ _ h0 hall
    · rw [if_neg h2]
      have hu : Unmoved s ((advanceClock s).setDesc (advanceClock s).clockHand
          { (advanceClock s).desc (advanceClock s).clockHand with refbit := false }) :=
        (unmoved_advanceClock s).comp_unmoved
          (unmoved_setDesc _ _ _ ⟨rfl, rfl, rfl, rfl, rfl⟩)
      refine ih _ _ (hu.1.symm ▸ h0) ?_
      intro i hi
      obtain ⟨_, _, a3, _, a5⟩ := hu.2.2.2 i
      rw [a3, a5]
      exact hall i (hu.1 ▸ hi)

/-! ## Writing a descriptor twice, or with itself -/

theorem setDesc_setDesc (s : BufMgr) (i : FrameId) (d e : BufDesc) :
    (s.setDesc i d).setDesc i e = s.setDesc i e := by
  simp [BufMgr.setDesc, List.set_set]

theorem list_set_getD_self (l : List BufDesc) (i : Nat) (h : i < l.length) :
    l.set i (l.getD i default) = l := by
  apply List.ext_getElem?
  intro n
  by_cases hn : i = n
  · subst hn
    simp [List.getElem?_set, h]
  · simp [List.getElem?_set, hn]

theorem setDesc_desc_self (s : BufMgr) (i : FrameId) (h : i < s.numBufs) :
    s.setDesc i (s.desc i) = s := by
  simp only [BufMgr.setDesc, BufMgr.desc]
  rw [list_set_getD_self _ _ h]

theorem unPinPage_absent (s : BufMgr) (file : Nat) (pageNo : PageId) (dirty : Bool)
    (hl : s.hashTable.lookup (some file, pageNo) = none) :
    unPinPage s file pageNo dirty = ⟨.threw .HashNotFound, s, []⟩ := by
  simp only [unPinPage, hl]

theorem unPinPage_unpinned (s : BufMgr) (file : Nat) (pageNo : PageId) (dirty : Bool)
    (v : FrameId) (hl : s.hashTable.lookup (some file, pageNo) = some v)
    (hp : (s.desc v).pinCnt = 0) :
    unPinPage s file pageNo dirty = ⟨.threw .PageNotPinned, s, []⟩ := by
  simp only [unPinPage, hl, hp, if_true]

theorem unPinPage_pinned (s : BufMgr) (file : Nat) (pageNo : PageId) (dirty : Bool)
    (v : FrameId) (hl : s.hashTable.lookup (some file, pageNo) = some v)
    (hp : (s.desc v).pinCnt ≠ 0) :
    unPinPage s file pageNo dirty =
      ⟨.ok (), s.setDesc v { s.desc v with
          pinCnt := (s.desc v).pinCnt - 1, dirty := (s.desc v).dirty || dirty }, []⟩ := by
  have hlt : v < s.numBufs := by
    by_contra hc
    rw [desc_of_le s v (Nat.le_of_not_lt hc)] at hp
    exact hp rfl
  cases dirty
  · simp only [unPinPage, hl, hp, if_false, Bool.or_false]
    simp
  · simp only [unPinPage, hl, hp, if_false, if_true, Bool.or_true]
    rw [setDesc_setDesc, desc_setDesc_self _ _ _ hlt]

/-! ## `flushFile` -/

theorem flushFileFrom_spec (f : Nat) (n : Nat) :
    ∀ (i : Nat) (s : BufMgr) (cs : List FileCall),
      (∀ j : Nat, i ≤ j → j < i + n → (s.desc j).file = some f →
        (s.desc j).pinCnt = 0 ∧ (s.desc j).valid = true) →
      (flushFileFrom (some f) n i s cs).out = .ok () ∧
      (flushFileFrom (some f) n i s cs).calls =
        cs ++ ((List.range' i n).filter (isFlushTarget s (some f))).map
          (fun j => FileCall.writePage (some f) (s.page j)) ∧
      (flushFileFrom (some f) n i s cs).state.bufPool = s.bufPool ∧
      (flushFileFrom (some f) n i s cs).state.clockHand = s.clockHand ∧
      (∀ j : Nat, ¬ (i ≤ j ∧ j < i + n ∧ isFlushTarget s (some f) j = true) →
        (flushFileFrom (some f) n i s cs).state.desc j = s.desc j) ∧
      (∀ j : Nat, i ≤ j → j < i + n → isFlushTarget s (some f) j = true →
        (flushFileFrom (some f) n i s cs).state.desc j = BufDesc.free ∧
        BufHashTbl.lookup ((s.desc j).file, (s.desc j).pageNo)
          (flushFileFrom (some f) n i s cs).state.hashTable = none) ∧
      (∀ k, (∀ j : Nat, i ≤ j → j < i + n → isFlushTarget s (some f) j = true →
          ((s.desc j).file, (s.desc j).pageNo) ≠ k) →
        BufHashTbl.lookup k (flushFileFrom (some f) n i s cs).state.hashTable =
          BufHashTbl.lookup k s.hashTable) ∧
      (∀ k, BufHashTbl.lookup k s.hashTable = none →
        BufHashTbl.lookup k (flushFileFrom (some f) n i s cs).state.hashTable = none) := by
  induction n with
  | zero =>
    intro i s cs _
    simp only [flushFileFrom, List.range'_zero, List.filter_nil, List.map_nil, List.append_nil]
    refine ⟨trivial, trivial, trivial, trivial, fun _ _ => trivial, ?_, fun _ _ => trivial,
      fun _ h => h⟩
    intro j h1 h2
    omega
  | succ n ih =>
    intro i s cs H
    have hrange : List.range' i (n + 1) = i :: List.range' (i + 1) n := List.range'_succ i n 1
    by_cases ht : (s.desc i).file = some f ∧ (s.desc i).dirty = true
    · obtain ⟨hp, hv⟩ := H i (Nat.le_refl i) (by omega) ht.1
      have hti : isFlushTarget s (some f) i = true := by
        simp [isFlushTarget, ht.1, ht.2, hv]
      have hstep : flushFileFrom (some f) (n + 1) i s cs =
          flushFileFrom (some f) n (i + 1)
            ({ s with hashTable := s.hashTable.remove (some f, (s.desc i).pageNo) }.setDesc i
              (s.desc i).Clear)
            (cs ++ [FileCall.writePage (s.desc i).file (s.page i)]) := by
        simp only [flushFileFrom]
        rw [if_pos ht.1, if_neg (by omega), if_neg (by simp [hv]), if_pos ht.2]
      have hd : ∀ j : Nat, j ≠ i →
          (({ s with hashTable := s.hashTable.remove (some f, (s.desc i).pageNo) } :
            BufMgr).setDesc i (s.desc i).Clear).desc j = s.desc j :=
        fun j hj => desc_setDesc_ne _ i j _ hj
      have hdi : (({ s with hashTable := s.hashTable.remove (some f, (s.desc i).pageNo) } :
            BufMgr).setDesc i (s.desc i).Clear).desc i = BufDesc.free :=
        desc_setDesc_free _ i
      have htgt : ∀ j : Nat, j ≠ i →
          isFlushTarget (({ s with hashTable := s.hashTable.remove (some f, (s.desc i).pageNo) } :
            BufMgr).setDesc i (s.desc i).Clear) (some f) j = isFlushTarget s (some f) j := by
        intro j hj
        simp only [isFlushTarget, hd j hj]
      obtain ⟨o, c, b, h, D1, D2, L1, L3⟩ := ih (i + 1) _
        (cs ++ [FileCall.writePage (s.desc i).file (s.page i)])
        (fun j h1 h2 h3 => by
          rw [hd j (by omega)] at h3 ⊢
          exact H j (by omega) (by omega) h3)
      rw [hstep]
      refine ⟨o, ?_, b, h, ?_, ?_, ?_, ?_⟩
      · rw [c, hrange, List.filter_cons, hti, if_pos rfl, List.map_cons, ht.1,
          List.append_assoc]
        congr 2
        have hfc : (List.range' (i + 1) n).filter (isFlushTarget
            (({ s with hashTable := s.hashTable.remove (some f, (s.desc i).pageNo) } :
              BufMgr).setDesc i (s.desc i).Clear) (some f)) =
            (List.range' (i + 1) n).filter (isFlushTarget s (some f)) := by
          apply List.filter_congr
          intro x hx
          rw [List.mem_range'_1] at hx
          exact htgt x (by omega)
        rw [hfc]
        rfl
      · intro j hj
        have hji : j ≠ i := by
          intro hji
          subst hji
          exact hj ⟨Nat.le_refl j, by omega, hti⟩
        rw [D1 j (by
          rw [htgt j hji]
          intro hc
          exact hj ⟨by omega, by omega, hc.2.2⟩)]
        exact hd j hji
      · intro j h1 h2 h3
        by_cases hji : j = i
        · subst hji
          rw [D1 j (by omega)]
          refine ⟨hdi, L3 _ ?_⟩
          rw [ht.1]
          exact lookup_remove_self _ _
        · have := D2 j (by omega) (by omega) (by rw [htgt j hji]; exact h3)
          rw [hd j hji] at this
          exact this
      · intro k hk
        rw [L1 k (by
          intro j h1 h2 h3
          rw [hd j (by omega)]
          rw [htgt j (by omega)] at h3
          exact hk j (by omega) (by omega) h3)]
        show BufHashTbl.lookup k (BufHashTbl.remove (some f, (s.desc i).pageNo) s.hashTable) = _
        apply lookup_remove_ne
        have := hk i (Nat.le_refl i) (by omega) hti
        rw [ht.1] at this
        exact fun h => this h.symm
      · intro k hk
        exact L3 k (lookup_remove_none _ _ _ hk)
    · have hti : isFlushTarget s (some f) i = false := by
        simp only [isFlushTarget, decide_eq_false_iff_not]
        intro hc
        exact ht ⟨hc.1, hc.2.2⟩
      have hstep : flushFileFrom (some f) (n + 1) i s cs =
          flushFileFrom (some f) n (i + 1) s cs := by
        simp only [flushFileFrom]
        split_ifs with a1 a2 a3 a4
        · have := (H i (Nat.le_refl i) (by omega) a1).1
          omega
        · have := (H i (Nat.le_refl i) (by omega) a1).2
          rw [a3] at this
          exact Bool.noConfusion this
        · exact absurd ⟨a1, a4⟩ ht
        · rfl
        · rfl
      obtain ⟨o, c, b, h, D1, D2, L1, L3⟩ := ih (i + 1) s cs
        (fun j h1 h2 h3 => H j (by omega) (by omega) h3)
      rw [hstep]
      refine ⟨o, ?_, b, h, ?_, ?_, ?_, L3⟩
      · rw [c, hrange, List.filter_cons, hti]
        rfl
      · intro j hj
        exact D1 j (fun hc => hj ⟨by omega, by omega, hc.2.2⟩)
      · intro j h1 h2 h3
        have hji : j ≠ i := by
          intro hji
          subst hji
          rw [hti] at h3
          exact Bool.noConfusion h3
        exact D2 j (by omega) (by omega) h3
      · intro k hk
        exact L1 k (fun j h1 h2 h3 => hk j (by omega) (by omega) h3)

theorem flushFile_spec (s : BufMgr) (f : Nat) (hw : WellFormed s)
    (hnp : ∀ i, i < s.numBufs → (s.desc i).file = some f → (s.desc i).pinCnt = 0) :
    (flushFile s (some f)).out = .ok () ∧
      (flushFile s (some f)).calls = flushWrites s (some f) ∧
      (flushFile s (some f)).state.bufPool = s.bufPool ∧
      (flushFile s (some f)).state.clockHand = s.clockHand ∧
      (∀ j : Nat, ¬ (j < s.numBufs ∧ isFlushTarget s (some f) j = true) →
        (flushFile s (some f)).state.desc j = s.desc j) ∧
      (∀ j : Nat, j < s.numBufs → isFlushTarget s (some f) j = true →
        (flushFile s (some f)).state.desc j = BufDesc.free ∧
        BufHashTbl.lookup ((s.desc j).file, (s.desc j).pageNo)
          (flushFile s (some f)).state.hashTable = none) ∧
      (∀ k, (∀ j : Nat, j < s.numBufs → isFlushTarget s (some f) j = true →
          ((s.desc j).file, (s.desc j).pageNo) ≠ k) →
        BufHashTbl.lookup k (flushFile s (some f)).state.hashTable =
          BufHashTbl.lookup k s.hashTable) := by
  have H : ∀ j : Nat, 0 ≤ j → j < 0 + s.numBufs → (s.desc j).file = some f →
      (s.desc j).pinCnt = 0 ∧ (s.desc j).valid = true := by
    intro j _ h2 h3
    have hj : j < s.numBufs := by omega
    refine ⟨hnp j hj h3, ?_⟩
    by_contra hc
    have := hw.2.2.2.2 j hj (by simpa using hc)
    rw [this] at h3
    exact Option.noConfusion h3
  obtain ⟨o, c, b, h, D1, D2, L1, _⟩ := flushFileFrom_spec f s.numBufs 0 s [] H
  refine ⟨o, ?_, b, h, ?_, ?_, ?_⟩
  · rw [flushFile, c, flushWrites, List.range_eq_range']
    rfl
  · intro j hj
    exact D1 j (fun hc => hj ⟨by omega, hc.2.2⟩)
  · intro j h1 h2
    exact D2 j (Nat.zero_le j) (by omega) h2
  · intro k hk
    exact L1 k (fun j _ h2 h3 => hk j (by omega) h3)

/-! ## The destructor -/

theorem destructorFrom_eq (s : BufMgr) (n : Nat) :
    ∀ i : Nat, destructorFrom n i s =
      ((List.range' i n).filter (fun j => (s.desc j).dirty)).map
        (fun j => FileCall.writePage (s.desc j).file (s.page j)) := by
  induction n with
  | zero =>
    intro i
    rfl
  | succ n ih =>
    intro i
    rw [List.range'_succ, List.filter_cons]
    simp only [destructorFrom]
    split_ifs with h
    · rw [List.map_cons, ih]
    · exact ih (i + 1)

/-! ## `flushFile` that meets a pinned frame -/

theorem flushFileFrom_split (file : FilePtr) (a b : Nat) :
    ∀ (i : Nat) (s : BufMgr) (cs : List FileCall),
      (flushFileFrom file a i s cs).out = .ok () →
      flushFileFrom file (a + b) i s cs =
        flushFileFrom file b (i + a) (flushFileFrom file a i s cs).state
          (flushFileFrom file a i s cs).calls := by
  induction a with
  | zero =>
    intro i s cs _
    simp [flushFileFrom]
  | succ a ih =>
    intro i s cs h
    have e1 : a + 1 + b = (a + b) + 1 := by omega
    have e2 : i + (a + 1) = (i + 1) + a := by omega
    rw [e1, e2]
    simp only [flushFileFrom] at h ⊢
    split_ifs at h ⊢ with h1 h2 h3 h4
    · exact ih _ _ _ h
    · exact ih _ _ _ h
    · exact ih _ _ _ h

theorem clock_readPage_fail (s : BufMgr) (file : Nat) (pageNo : PageId) (v : FrameId)
    (hl : s.hashTable.lookup (some file, pageNo) = none)
    (ho : (Clock.allocBuf s).out = .ok v) :
    Clock.readPage s file pageNo none =
      ⟨.threw .InvalidPage, (Clock.allocBuf s).state,
        (Clock.allocBuf s).calls ++ [FileCall.readPage (some file) pageNo]⟩ := by
  simp only [Clock.readPage, hl, ho]

theorem lru_readPage_fail (s : BufMgr) (file : Nat) (pageNo : PageId) (v : FrameId)
    (hl : s.hashTable.lookup (some file, pageNo) = none)
    (ho : (Lru.allocBuf s).out = .ok v) :
    Lru.readPage s file pageNo none =
      ⟨.threw .InvalidPage, (Lru.allocBuf s).state,
        (Lru.allocBuf s).calls ++ [FileCall.readPage (some file) pageNo]⟩ := by
  simp only [Lru.readPage, hl, ho]

theorem lru_readPage_full (s : BufMgr) (file : Nat) (pageNo : PageId) (answer : Option Page)
    (e : Exc) (hl : s.hashTable.lookup (some file, pageNo) = none)
    (ho : (Lru.allocBuf s).out = .threw e) :
    Lru.readPage s file pageNo answer =
      ⟨.threw e, (Lru.allocBuf s).state, (Lru.allocBuf s).calls⟩ := by
  simp only [Lru.readPage, hl, ho]

/-- In a well-formed pool no map entry points to a frame whose descriptor is not valid. -/
theorem no_entry_of_invalid {s : BufMgr} (hw : WellFormed s) {v : FrameId}
    (hv : (s.desc v).valid = false) : ∀ e ∈ s.hashTable, e.2 ≠ v := by
  intro e he hev
  have := (hw.2.1 e he).1
  rw [hev, hv] at this
  exact Bool.noConfusion this

/-! ## A sweep that finds a frame -/

theorem handAfter_lt (n : Nat) (h32 : n < 4294967296) :
    ∀ (d : Nat) (h : Nat), h < n → handAfter n d h = (h + d) % n := by
  intro d
  induction d with
  | zero =>
    intro h hh
    simp [handAfter, Nat.mod_eq_of_lt hh]
  | succ d ih =>
    intro h hh
    have h1 : (h + 1) % 4294967296 = h + 1 := Nat.mod_eq_of_lt (by omega)
    have hpos : 0 < n := by omega
    simp only [handAfter]
    rw [h1, ih _ (Nat.mod_lt _ hpos), Nat.mod_add_mod]
    congr 1
    omega

theorem handAfter_cycle (n : Nat) (h32 : n < 4294967296) (c : Nat) (hc : c < n) :
    handAfter n n c = c := by
  rw [handAfter_lt n h32 n c hc, Nat.add_mod_right, Nat.mod_eq_of_lt hc]

theorem handAfter_reaches (n : Nat) (h32 : n < 4294967296) (h c : Nat) (hc : c < n) :
    ∃ d, 1 ≤ d ∧ d ≤ n ∧ handAfter n d h = c := by
  have hpos : 0 < n := by omega
  have h1 : ((h + 1) % 4294967296) % n < n := Nat.mod_lt _ hpos
  by_cases hle : ((h + 1) % 4294967296) % n ≤ c
  · refine ⟨c - ((h + 1) % 4294967296) % n + 1, by omega, by omega, ?_⟩
    simp only [handAfter]
    rw [handAfter_lt n h32 _ _ h1]
    have : ((h + 1) % 4294967296) % n + (c - ((h + 1) % 4294967296) % n) = c := by omega
    rw [this, Nat.mod_eq_of_lt hc]
  · refine ⟨n + c - ((h + 1) % 4294967296) % n + 1, by omega, by omega, ?_⟩
    simp only [handAfter]
    rw [handAfter_lt n h32 _ _ h1]
    have : ((h + 1) % 4294967296) % n + (n + c - ((h + 1) % 4294967296) % n) = c + n := by
      omega
    rw [this, Nat.add_mod_right, Nat.mod_eq_of_lt hc]

/-- A frame that is not valid, or has `refbit` false and is not pinned, is found by a
sweep that is long enough to reach it. -/
theorem clock_allocBufLoop_ready (k : Nat) :
    ∀ (s : BufMgr) (cs : List FileCall) (c : FrameId) (d : Nat), 1 ≤ d → d ≤ k →
      handAfter s.numBufs d s.clockHand = c →
      ((s.desc c).valid = false ∨ ((s.desc c).refbit = false ∧ (s.desc c).pinCnt = 0)) →
      (Clock.allocBufLoop k s cs).1 ≠ none := by
  induction k with
  | zero =>
    intro s cs c d h1 h2
    omega
  | succ k ih =>
    intro s cs c d hd1 hdk hreach hready
    obtain ⟨e, rfl⟩ : ∃ e, d = e + 1 := ⟨d - 1, by omega⟩
    have hreach1 : handAfter s.numBufs e (advanceClock s).clockHand = c := hreach
    simp only [Clock.allocBufLoop]
    split_ifs with a1 a2 a3 a4
    · simp
    · simp
    · have hne : (advanceClock s).clockHand ≠ c := by
        intro hcc
        rw [hcc, desc_advanceClock] at a1 a3
        rcases hready with h | h
        · rw [h] at a1
          exact Bool.noConfusion a1
        · exact a3 h.2
      have he : 1 ≤ e := by
        rcases Nat.eq_zero_or_pos e with h | h
        · rw [h] at hreach1
          exact absurd hreach1 hne
        · exact h
      exact ih _ _ c e he (by omega) hreach1 hready
    · have hne : (advanceClock s).clockHand ≠ c := by
        intro hcc
        rw [hcc, desc_advanceClock] at a1 a2
        rcases hready with h | h
        · rw [h] at a1
          exact Bool.noConfusion a1
        · exact a2 h.1
      have he : 1 ≤ e := by
        rcases Nat.eq_zero_or_pos e with h | h
        · rw [h] at hreach1
          exact absurd hreach1 hne
        · exact h
      refine ih _ _ c e he (by omega) ?_ ?_
      · rw [numBufs_setDesc]
        exact hreach1
      · rw [desc_setDesc_ne _ _ c _ (Ne.symm hne)]
        exact hready
    · simp

/-- A frame that is not valid or not pinned is found by a sweep that can reach it and
then go round once more. -/
theorem clock_allocBufLoop_candidate (k : Nat) :
    ∀ (s : BufMgr) (cs : List FileCall) (c : FrameId) (d : Nat),
      s.numBufs < 4294967296 → c < s.numBufs → 1 ≤ d → d + s.numBufs ≤ k →
      handAfter s.numBufs d s.clockHand = c →
      ((s.desc c).valid = false ∨ (s.desc c).pinCnt = 0) →
      (Clock.allocBufLoop k s cs).1 ≠ none := by
  induction k with
  | zero =>
    intro s cs c d _ _ h1 h2
    omega
  | succ k ih =>
    intro s cs c d h32 hc hd1 hdk hreach hcand
    obtain ⟨e, rfl⟩ : ∃ e, d = e + 1 := ⟨d - 1, by omega⟩
    have hreach1 : handAfter s.numBufs e (advanceClock s).clockHand = c := hreach
    simp only [Clock.allocBufLoop]
    split_ifs with a1 a2 a3 a4
    · simp
    · simp
    · have hne : (advanceClock s).clockHand ≠ c := by
        intro hcc
        rw [hcc, desc_advanceClock] at a1 a3
        rcases hcand with h | h
        · rw [h] at a1
          exact Bool.noConfusion a1
        · exact a3 h
      have he : 1 ≤ e := by
        rcases Nat.eq_zero_or_pos e with h | h
        · rw [h] at hreach1
          exact absurd hreach1 hne
        · exact h
      have hek : e + s.numBufs ≤ k := by omega
      exact ih _ _ c e h32 hc he hek hreach1 hcand
    · by_cases hcc : (advanceClock s).clockHand = c
      · have hpin : (s.desc c).pinCnt = 0 := by
          rcases hcand with h | h
          · rw [hcc, desc_advanceClock, h] at a1
            exact Bool.noConfusion a1
          · exact h
        have hn1 : 1 ≤ s.numBufs := Nat.lt_of_le_of_lt (Nat.zero_le c) hc
        have hnk : s.numBufs ≤ k := by omega
        have hc1 : (advanceClock s).clockHand < (advanceClock s).numBufs := by
          rw [hcc]
          exact hc
        refine clock_allocBufLoop_ready k _ _ c s.numBufs hn1 hnk ?_ ?_
        · rw [numBufs_setDesc]
          show handAfter s.numBufs s.numBufs (advanceClock s).clockHand = c
          rw [hcc]
          exact handAfter_cycle _ h32 c hc
        · right
          rw [← hcc, desc_setDesc_self _ _ _ hc1, desc_advanceClock]
          rw [hcc]
          exact ⟨rfl, hpin⟩
      · have he : 1 ≤ e := by
          rcases Nat.eq_zero_or_pos e with h | h
          · rw [h] at hreach1
            exact absurd hreach1 hcc
          · exact h
        refine ih _ _ c e ?_ ?_ he ?_ ?_ ?_
        · rw [numBufs_setDesc]
          exact h32
        · rw [numBufs_setDesc]
          exact hc
        · rw [numBufs_setDesc]
          show e + s.numBufs ≤ k
          omega
        · rw [numBufs_setDesc]
          exact hreach1
        · rw [desc_setDesc_ne _ _ c _ (Ne.symm hcc)]
          exact hcand
    · simp

theorem clock_allocBuf_ok_of_candidate (s : BufMgr) (h32 : s.numBufs < 2147483648)
    (i : Nat) (hi : i < s.numBufs)
    (hc : (s.desc i).valid = false ∨ (s.desc i).pinCnt = 0) :
    ∃ v, (Clock.allocBuf s).out = .ok v := by
  obtain ⟨d, hd1, hdN, hreach⟩ := handAfter_reaches s.numBufs (by omega) s.clockHand i hi
  have hk : d + s.numBufs ≤ sweepBound s + 1 := by
    rw [sweepBound_eq s h32]
    omega
  have hne := clock_allocBufLoop_candidate (sweepBound s + 1) s [] i d (by omega) hi hd1 hk
    hreach hc
  rcases hl : Clock.allocBufLoop (sweepBound s + 1) s [] with ⟨_ | w, t, ds⟩
  · rw [hl] at hne
    exact absurd rfl hne
  · exact ⟨w, by simp only [Clock.allocBuf, hl]⟩

theorem clock_allocBuf_threw_of_allPinned (s : BufMgr) (h0 : 0 < s.numBufs)
    (hall : ∀ i, i < s.numBufs → (s.desc i).valid = true ∧ 0 < (s.desc i).pinCnt) :
    (Clock.allocBuf s).out = .threw .BufferExceeded := by
  have hnone := clock_allocBufLoop_allPinned (sweepBound s + 1) s [] h0 hall
  rcases hl : Clock.allocBufLoop (sweepBound s + 1) s [] with ⟨o, t, ds⟩
  rw [hl] at hnone
  simp only at hnone
  subst hnone
  simp only [Clock.allocBuf, hl]

/-! ## The LRU variant keeps the pool well formed -/

theorem lru_readPage_wf (s : BufMgr) (file : Nat) (pageNo : PageId) (answer : Option Page)
    (hw : WellFormed s) (h0 : 0 < s.numBufs) (h32 : s.numBufs < 2147483648) :
    WellFormed (Lru.readPage s file pageNo answer).state := by
  rcases hl : s.hashTable.lookup (some file, pageNo) with _ | v
  · rcases ho : (Lru.allocBuf s).out with v | e
    · obtain ⟨hv, c, _, d, _⟩ := lru_allocBuf_ok s v h0 h32 ho
      have hwr := lru_allocBuf_wf s h0 h32 hw
      rcases answer with _ | pg
      · rw [lru_readPage_fail s file pageNo v hl ho]
        exact hwr
      · rw [lru_readPage_miss s file pageNo pg v hl ho]
        have hwi := wf_installed _ v pg (some file) pageNo hwr
          (by rw [(lru_allocBuf_basic s).1]; exact hv) d (c.lookup_none _ hl)
        exact wf_unmoved hwi (lru_unmoved_bumpCounters _)
          (fun j hj => lru_bumpCounters_invalid _ j hj)
    · rw [lru_readPage_full s file pageNo answer e hl ho]
      exact lru_allocBuf_wf s h0 h32 hw
  · obtain ⟨v1, _, _⟩ := valid_of_lookup hw hl
    have hlt := lt_of_valid s v v1
    rw [lru_readPage_hit s file pageNo answer v hl]
    refine wf_unmoved ?_ (lru_unmoved_bumpCounters _)
      (fun j hj => lru_bumpCounters_invalid _ j hj)
    rw [setDesc_setDesc, desc_setDesc_self _ _ _ hlt]
    refine wf_update hw (numBufs_setDesc _ _ _) rfl ?_ ?_ (fun _ => v1) ?_ v1
      (fun j hj _ => desc_setDesc_ne _ _ j _ hj)
    · intro j hj
      rw [desc_setDesc_ne _ _ j _ hj]
      exact kept_refl _
    · rw [desc_setDesc_self _ _ _ hlt]
      exact ⟨rfl, rfl, rfl⟩
    · rw [desc_setDesc_self _ _ _ hlt]
      intro h
      exact hw.2.2.2.1 v hlt h

theorem lru_allocPage_wf (s : BufMgr) (file : Nat) (fresh : Page)
    (hw : WellFormed s) (h0 : 0 < s.numBufs) (h32 : s.numBufs < 2147483648)
    (hf : Lru.freshAt s (.allocPage file fresh)) :
    WellFormed (Lru.allocPage s file fresh).state := by
  rcases ho : (Lru.allocBuf s).out with v | e
  · obtain ⟨hv, _, _, d, _⟩ := lru_allocBuf_ok s v h0 h32 ho
    have hwr := lru_allocBuf_wf s h0 h32 hw
    simp only [Lru.freshAt, ho] at hf
    rw [lru_allocPage_ok s file fresh v ho]
    exact wf_installed _ v fresh (some file) fresh.page_number hwr
      (by rw [(lru_allocBuf_basic s).1]; exact hv) d hf
  · simpa [Lru.allocPage, ho] using lru_allocBuf_wf s h0 h32 hw

theorem lru_step_numBufs (s : BufMgr) (op : Op) : (Lru.step s op).numBufs = s.numBufs := by
  cases op with
  | readPage file pageNo answer =>
    show (Lru.readPage s file pageNo answer).state.numBufs = s.numBufs
    rcases hl : s.hashTable.lookup (some file, pageNo) with _ | v
    · rcases ho : (Lru.allocBuf s).out with v | e
      · rcases answer with _ | pg
        · rw [lru_readPage_fail s file pageNo v hl ho]
          exact (lru_allocBuf_basic s).1
        · rw [lru_readPage_miss s file pageNo pg v hl ho]
          exact (lru_numBufs_bumpCounters _).trans
            ((numBufs_installed _ _ _ _ _).trans (lru_allocBuf_basic s).1)
      · rw [lru_readPage_full s file pageNo answer e hl ho]
        exact (lru_allocBuf_basic s).1
    · rw [lru_readPage_hit s file pageNo answer v hl]
      exact (lru_numBufs_bumpCounters _).trans
        ((numBufs_setDesc _ _ _).trans (numBufs_setDesc _ _ _))
  | allocPage file fresh =>
    show (Lru.allocPage s file fresh).state.numBufs = s.numBufs
    rcases ho : (Lru.allocBuf s).out with v | e
    · rw [lru_allocPage_ok s file fresh v ho]
      exact (numBufs_installed _ _ _ _ _).trans (lru_allocBuf_basic s).1
    · simpa [Lru.allocPage, ho] using (lru_allocBuf_basic s).1
  | unPinPage file pageNo dirty => exact unPinPage_numBufs s file pageNo dirty
  | flushFile file => exact flushFileFrom_numBufs file _ _ _ _
  | disposePage file pageNo => exact disposePage_numBufs s file pageNo

theorem lru_step_wf (s : BufMgr) (op : Op) (hw : WellFormed s) (h0 : 0 < s.numBufs)
    (h32 : s.numBufs < 2147483648) (hf : Lru.freshAt s op) : WellFormed (Lru.step s op) := by
  cases op with
  | readPage file pageNo answer => exact lru_readPage_wf s file pageNo answer hw h0 h32
  | allocPage file fresh => exact lru_allocPage_wf s file fresh hw h0 h32 hf
  | unPinPage file pageNo dirty => exact unPinPage_wf s file pageNo dirty hw
  | flushFile file => exact flushFile_wf s file hw
  | disposePage file pageNo => exact disposePage_wf s file pageNo hw

theorem lru_run_wf (ops : List Op) :
    ∀ s : BufMgr, WellFormed s → 0 < s.numBufs → s.numBufs < 2147483648 →
      Lru.Admissible s ops → WellFormed (Lru.run s ops) ∧ (Lru.run s ops).numBufs = s.numBufs := by
  induction ops with
  | nil =>
    intro s hw _ _ _
    exact ⟨hw, rfl⟩
  | cons op ops ih =>
    intro s hw h0 h32 ha
    have hn := lru_step_numBufs s op
    obtain ⟨i1, i2⟩ := ih _ (lru_step_wf s op hw h0 h32 ha.1) (by rw [hn]; exact h0)
      (by rw [hn]; exact h32) ha.2
    exact ⟨i1, i2.trans hn⟩

theorem clock_run_numBufs (ops : List Op) :
    ∀ s : BufMgr, (Clock.run s ops).numBufs = s.numBufs := by
  induction ops with
  | nil =>
    intro s
    rfl
  | cons op ops ih =>
    intro s
    exact (ih _).trans (clock_step_numBufs s op)

theorem clock_handsOut (s : BufMgr) (hw : WellFormed s) (h0 : 0 < s.numBufs) (v : FrameId)
    (ho : (Clock.allocBuf s).out = .ok v) : HandsOut s (Clock.allocBuf s) v := by
  obtain ⟨_, b, c, d, _⟩ := clock_allocBuf_ok s v ho
  refine ⟨b h0, d, no_entry_of_invalid (clock_allocBuf_wf s hw) (by rw [d]; rfl), ?_⟩
  rcases c.2.2.2 with h | h
  · exact Or.inl h
  · exact Or.inr ⟨h.1, h.2.2⟩

theorem lru_handsOut (s : BufMgr) (hw : WellFormed s) (h0 : 0 < s.numBufs)
    (h32 : s.numBufs < 2147483648) (v : FrameId)
    (ho : (Lru.allocBuf s).out = .ok v) : HandsOut s (Lru.allocBuf s) v := by
  obtain ⟨hv, c, _, d, _⟩ := lru_allocBuf_ok s v h0 h32 ho
  have hwr := lru_allocBuf_wf s h0 h32 hw
  refine ⟨hv, hwr.2.2.2.2 v (by rw [(lru_allocBuf_basic s).1]; exact hv) d,
    no_entry_of_invalid hwr d, ?_⟩
  rcases c.2.2.2 with h | h
  · exact Or.inl h
  · exact Or.inr ⟨h.1, h.2.2⟩

/-! ## The free-slot path of the LRU variant -/

theorem lru_firstFree_lowest (l : List BufDesc) :
    ∀ (z j : Nat), j < Lru.firstFree l z - z → (l.getD j default).valid = true := by
  induction l with
  | nil =>
    intro z j h
    simp [Lru.firstFree] at h
  | cons d ds ih =>
    intro z j h
    by_cases hd : d.valid = false
    · simp [Lru.firstFree, hd] at h
    · have hd1 : d.valid = true := by simpa using hd
      have he : Lru.firstFree (d :: ds) z = Lru.firstFree ds (z + 1) := by
        simp [Lru.firstFree, hd1]
      rw [he] at h
      cases j with
      | zero => simpa using hd1
      | succ j =>
        have := ih (z + 1) j (by omega)
        simpa using this

theorem lru_filledFrames_lt (s : BufMgr) (i : Nat) (hi : i < s.numBufs)
    (hv : (s.desc i).valid = false) :
    Lru.filledFrames (Lru.bumpCounters s) < (Lru.bumpCounters s).numBufs := by
  have hb := lru_bumpCounters_invalid s i hv
  have hi1 : i < (Lru.bumpCounters s).bufDescTable.length := by
    rw [← lru_numBufs_bumpCounters s] at hi
    exact hi
  unfold Lru.filledFrames BufMgr.numBufs
  rw [List.length_filter_lt_length_iff_exists]
  refine ⟨(Lru.bumpCounters s).bufDescTable[i], List.getElem_mem _, ?_⟩
  have hd : (Lru.bumpCounters s).desc i = (Lru.bumpCounters s).bufDescTable[i] := by
    simp [BufMgr.desc, List.getD_eq_getElem?_getD, List.getElem?_eq_getElem hi1]
  rw [← hd, hb, hv]
  simp

/-! ## The length of a sweep of the CLOCK variant -/

theorem clock_sweepSteps_le (k : Nat) : ∀ s : BufMgr, Clock.sweepSteps k s ≤ k := by
  induction k with
  | zero =>
    intro s
    exact Nat.le_refl 0
  | succ k ih =>
    intro s
    simp only [Clock.sweepSteps]
    split_ifs
    · omega
    · rw [Nat.add_comm]
      exact Nat.succ_le_succ (ih _)
    · rw [Nat.add_comm]
      exact Nat.succ_le_succ (ih _)
    · omega

/-- A sweep that leaves through the loop condition went through the body every time, and
moved the clock hand as many times. -/
theorem clock_sweepSteps_none (k : Nat) :
    ∀ (s : BufMgr) (cs : List FileCall), (Clock.allocBufLoop k s cs).1 = none →
      Clock.sweepSteps k s = k ∧
        (Clock.allocBufLoop k s cs).2.1.clockHand = handAfter s.numBufs k s.clockHand := by
  induction k with
  | zero =>
    intro s cs _
    exact ⟨rfl, rfl⟩
  | succ k ih =>
    intro s cs h
    simp only [Clock.allocBufLoop] at h ⊢
    simp only [Clock.sweepSteps, handAfter]
    by_cases h1 : ((advanceClock s).desc (advanceClock s).clockHand).valid = true
    · rw [if_pos h1] at h ⊢
      rw [if_pos h1]
      by_cases h2 : ((advanceClock s).desc (advanceClock s).clockHand).refbit = false
      · rw [if_pos h2] at h ⊢
        rw [if_pos h2]
        by_cases h3 : ((advanceClock s).desc (advanceClock s).clockHand).pinCnt = 0
        · rw [if_pos h3] at h
          split_ifs at h
        · rw [if_neg h3] at h ⊢
          rw [if_neg h3]
          obtain ⟨i1, i2⟩ := ih _ _ h
          exact ⟨by omega, i2⟩
      · rw [if_neg h2] at h ⊢
        rw [if_neg h2]
        obtain ⟨i1, i2⟩ := ih _ _ h
        refine ⟨by omega, ?_⟩
        rw [i2, numBufs_setDesc]
        rfl
    · rw [if_neg h1] at h
      exact Option.noConfusion h

/-- A sweep that finds a frame within `k` iterations takes the same number of steps
with more iterations allowed. -/
theorem clock_sweepSteps_some (k : Nat) :
    ∀ (s : BufMgr) (cs : List FileCall) (m : Nat), (Clock.allocBufLoop k s cs).1 ≠ none →
      Clock.sweepSteps (k + m) s = Clock.sweepSteps k s := by
  induction k with
  | zero =>
    intro s cs m h
    exact absurd rfl h
  | succ k ih =>
    intro s cs m h
    rw [Nat.add_right_comm k 1 m]
    simp only [Clock.allocBufLoop] at h
    simp only [Clock.sweepSteps]
    by_cases h1 : ((advanceClock s).desc (advanceClock s).clockHand).valid = true
    · rw [if_pos h1] at h
      rw [if_pos h1, if_pos h1]
      by_cases h2 : ((advanceClock s).desc (advanceClock s).clockHand).refbit = false
      · rw [if_pos h2] at h
        rw [if_pos h2, if_pos h2]
        by_cases h3 : ((advanceClock s).desc (advanceClock s).clockHand).pinCnt = 0
        · rw [if_pos h3, if_pos h3]
        · rw [if_neg h3] at h
          rw [if_neg h3, if_neg h3, ih _ _ m h]
      · rw [if_neg h2] at h
        rw [if_neg h2, if_neg h2, ih _ _ m h]
    · rw [if_neg h1, if_neg h1]

/-! ## Filling a fresh pool of the CLOCK variant -/

theorem hand_next (n m : Nat) (hm : m < n) (h32 : n < 4294967296) :
    (((m + n - 1) % n + 1) % 4294967296) % n = m := by
  cases m with
  | zero =>
    have h0 : 0 + n - 1 = n - 1 := by omega
    have h2 : n - 1 + 1 = n := by omega
    rw [h0, Nat.mod_eq_of_lt (by omega : n - 1 < n), h2, Nat.mod_eq_of_lt h32, Nat.mod_self]
  | succ m =>
    have h1 : (m + 1 + n - 1) % n = m := by
      have : m + 1 + n - 1 = m + n := by omega
      rw [this, Nat.add_mod_right, Nat.mod_eq_of_lt (by omega)]
    rw [h1, Nat.mod_eq_of_lt (by omega : m + 1 < 4294967296), Nat.mod_eq_of_lt hm]

theorem clock_allocBuf_next_free (s : BufMgr)
    (h : ((advanceClock s).desc (advanceClock s).clockHand).valid = false) :
    Clock.allocBuf s =
      ⟨.ok (advanceClock s).clockHand,
        (advanceClock s).setDesc (advanceClock s).clockHand BufDesc.free, []⟩ := by
  have hl : Clock.allocBufLoop (sweepBound s + 1) s [] =
      (some (advanceClock s).clockHand, advanceClock s, []) := by
    simp only [Clock.allocBufLoop]
    rw [if_neg (by rw [h]; exact Bool.noConfusion)]
  simp only [Clock.allocBuf, hl]
  rfl

theorem page_installed_self (t : BufMgr) (v : FrameId) (pg : Page) (file : FilePtr)
    (pageNo : PageId) (hv : v < t.bufPool.length) :
    (t.installed v pg file pageNo).page v = pg := by
  simp [BufMgr.installed, BufMgr.page, BufMgr.setDesc, BufMgr.setPage, List.getElem?_set, hv]

theorem page_installed_ne (t : BufMgr) (v j : FrameId) (pg : Page) (file : FilePtr)
    (pageNo : PageId) (hj : j ≠ v) : (t.installed v pg file pageNo).page j = t.page j := by
  simp [BufMgr.installed, BufMgr.page, BufMgr.setDesc, BufMgr.setPage, List.getElem?_set,
    Ne.symm hj]

theorem bufPool_length_installed (t : BufMgr) (v : FrameId) (pg : Page) (file : FilePtr)
    (pageNo : PageId) : (t.installed v pg file pageNo).bufPool.length = t.bufPool.length := by
  simp [BufMgr.installed, BufMgr.setDesc, BufMgr.setPage]

theorem lt_of_getElem?_some {α : Type} (l : List α) (m : Nat) (p : α) (h : l[m]? = some p) :
    m < l.length := by
  by_contra hc
  rw [List.getElem?_eq_none (Nat.le_of_not_lt hc)] at h
  exact Option.noConfusion h

theorem clock_fill_step (n f : Nat) (content : PageId → Page) (ps : List PageId) (m : Nat)
    (s : BufMgr) (h32 : n < 4294967296) (hnd : ps.Nodup) (hlen : ps.length = n)
    (p : PageId) (hp : ps[m]? = some p) (h : Clock.FilledTo n f content ps m s) :
    Clock.FilledTo n f content ps (m + 1) (Clock.readPage s f p (some (content p))).state := by
  obtain ⟨hN, hB, hH, hw, hfilled, hfree⟩ := h
  have hm : m < n := hlen ▸ lt_of_getElem?_some ps m p hp
  have hmiss : s.hashTable.lookup (some f, p) = none := by
    rcases hl : s.hashTable.lookup (some f, p) with _ | v
    · rfl
    · exfalso
      obtain ⟨a, _, c⟩ := valid_of_lookup hw hl
      have hv : v < m := by
        by_contra hc
        rw [hfree v (Nat.le_of_not_lt hc)] at a
        exact Bool.noConfusion a
      have hvl : v < ps.length := Nat.lt_trans hv (by omega)
      obtain ⟨d1, _, _⟩ := hfilled v ps[v] (List.getElem?_eq_getElem hvl) hv
      rw [d1] at c
      have hc : ps[v] = p := c
      exact (List.nodup_iff_getElem?_ne_getElem?.1 hnd v m hv (by omega))
        (by rw [hp, List.getElem?_eq_getElem hvl, hc])
  have hhand : (advanceClock s).clockHand = m := by
    show ((s.clockHand + 1) % 4294967296) % s.numBufs = m
    rw [hH, hN]
    exact hand_next n m hm h32
  have hinv : ((advanceClock s).desc (advanceClock s).clockHand).valid = false := by
    rw [hhand]
    exact hfree m (Nat.le_refl m)
  have ha := clock_allocBuf_next_free s hinv
  rw [hhand] at ha
  have ho : (Clock.allocBuf s).out = .ok m := by rw [ha]
  have h0 : 0 < s.numBufs := hN.symm ▸ Nat.lt_of_le_of_lt (Nat.zero_le m) hm
  have hwf := clock_readPage_wf s f p (some (content p)) hw h0
  rw [clock_readPage_miss s f p (content p) m hmiss ho, ha] at hwf ⊢
  have hmN : m < ((advanceClock s).setDesc m BufDesc.free).numBufs := by
    rw [numBufs_setDesc]
    exact hN.symm ▸ hm
  refine ⟨?_, ?_, ?_, hwf, ?_, ?_⟩
  · rw [numBufs_installed, numBufs_setDesc]
    exact hN
  · rw [bufPool_length_installed]
    exact hB
  · rw [clockHand_installed]
    show (advanceClock s).clockHand = _
    rw [hhand]
    have : m + 1 + n - 1 = m + n := by omega
    rw [this, Nat.add_mod_right, Nat.mod_eq_of_lt hm]
  · intro k q hk hlt
    by_cases hkm : k = m
    · subst hkm
      have hq : q = p := by
        rw [hp] at hk
        exact (Option.some.inj hk).symm
      subst hq
      refine ⟨desc_installed_self _ _ _ _ _ hmN, page_installed_self _ _ _ _ _ ?_, ?_⟩
      · show k < s.bufPool.length
        omega
      · rw [hashTable_installed]
        exact lookup_insert_self _ _ _
    · have hk1 : k < m := by omega
      obtain ⟨d1, d2, d3⟩ := hfilled k q hk hk1
      refine ⟨?_, ?_, ?_⟩
      · rw [desc_installed_ne _ _ _ _ _ _ hkm, desc_setDesc_ne _ _ _ _ hkm]
        exact d1
      · rw [page_installed_ne _ _ _ _ _ _ hkm]
        exact d2
      · rw [hashTable_installed, lookup_insert_ne]
        · exact d3
        · intro he
          have hqp : q = p := congrArg Prod.snd he
          exact (List.nodup_iff_getElem?_ne_getElem?.1 hnd k m hk1 (by omega))
            (by rw [hp, hk, hqp])
  · intro k hk
    have hkm : k ≠ m := by omega
    rw [desc_installed_ne _ _ _ _ _ _ hkm, desc_setDesc_ne _ _ _ _ hkm]
    exact hfree k (by omega)

theorem drop_cons_split {α : Type} (l : List α) (m : Nat) (p : α) (rest : List α)
    (h : l.drop m = p :: rest) : l[m]? = some p ∧ l.drop (m + 1) = rest := by
  constructor
  · have := List.getElem?_drop (L := l) (i := m) (j := 0)
    rw [h] at this
    simpa using this.symm
  · have := congrArg (List.drop 1) h
    simpa [List.drop_drop, Nat.add_comm] using this

theorem clock_filledTo_init (n f : Nat) (content : PageId → Page) (ps : List PageId)
    (hn : 1 ≤ n) (h32 : n < 4294967296) :
    Clock.FilledTo n f content ps 0 (BufMgr.init n) := by
  refine ⟨numBufs_init n, by simp [BufMgr.init], ?_, init_wf n, ?_, ?_⟩
  · show (n + 4294967295) % 4294967296 = (0 + n - 1) % n
    have h0 : 0 + n - 1 = n - 1 := by omega
    rw [h0, Nat.mod_eq_of_lt (by omega : n - 1 < n)]
    omega
  · intro k p _ hk
    exact absurd hk (Nat.not_lt_zero k)
  · intro k _
    rw [desc_init]
    rfl

theorem clock_fill (n f : Nat) (content : PageId → Page) (ps : List PageId)
    (h32 : n < 4294967296) (hnd : ps.Nodup) (hlen : ps.length = n) :
    ∀ (rest : List PageId) (m : Nat) (s : BufMgr), m ≤ n → ps.drop m = rest →
      Clock.FilledTo n f content ps m s →
        Clock.FilledTo n f content ps n (Clock.run s (readAll f content rest)) := by
  intro rest
  induction rest with
  | nil =>
    intro m s hmn hd h
    have hle : ps.length ≤ m := List.drop_eq_nil_iff.1 hd
    have hm : m = n := by omega
    subst hm
    exact h
  | cons p rest ih =>
    intro m s hmn hd h
    obtain ⟨hp, hd1⟩ := drop_cons_split ps m p rest hd
    have hm : m < n := hlen ▸ lt_of_getElem?_some ps m p hp
    exact ih (m + 1) _ hm hd1 (clock_fill_step n f content ps m s h32 hnd hlen p hp h)

theorem clock_filledPool_spec (n f : Nat) (content : PageId → Page) (ps : List PageId)
    (hn : 1 ≤ n) (h32 : n < 4294967296) (hnd : ps.Nodup) (hlen : ps.length = n) :
    Clock.FilledTo n f content ps n (Clock.filledPool n f content ps) :=
  clock_fill n f content ps h32 hnd hlen ps 0 _ (Nat.zero_le n) rfl
    (clock_filledTo_init n f content ps hn h32)

theorem clock_unpin_step (n f : Nat) (content : PageId → Page) (dirty : PageId → Bool)
    (ps : List PageId) (t : BufMgr) (m : Nat) (s : BufMgr) (hlen : ps.length = n)
    (p : PageId) (hp : ps[m]? = some p) (ht : Clock.FilledTo n f content ps n t)
    (h : Clock.UnpinnedTo f dirty ps t m s) :
    Clock.UnpinnedTo f dirty ps t (m + 1) (unPinPage s f p (dirty p)).state := by
  obtain ⟨hN, hB, hH, hT, hdone, hrest⟩ := h
  have hm : m < n := hlen ▸ lt_of_getElem?_some ps m p hp
  obtain ⟨d1, _, d3⟩ := ht.2.2.2.2.1 m p hp hm
  have hsm : s.desc m =
      { file := some f, pageNo := p, pinCnt := 1, dirty := false, valid := true,
        refbit := true, counter := 0 } := (hrest m (Nat.le_refl m)).trans d1
  have hl : s.hashTable.lookup (some f, p) = some m := by
    rw [hT]
    exact d3
  have hpin : (s.desc m).pinCnt ≠ 0 := by
    rw [hsm]
    exact Nat.one_ne_zero
  have hmN : m < s.numBufs := by
    rw [hN, ht.1]
    exact hm
  rw [unPinPage_pinned s f p (dirty p) m hl hpin]
  refine ⟨(numBufs_setDesc _ _ _).trans hN, hB, hH, hT, ?_, ?_⟩
  · intro k q hk hlt
    by_cases hkm : k = m
    · subst hkm
      have hq : q = p := by
        rw [hp] at hk
        exact (Option.some.inj hk).symm
      subst hq
      show (s.setDesc k _).desc k = _
      rw [desc_setDesc_self _ _ _ hmN, hsm]
      simp
    · show (s.setDesc m _).desc k = _
      rw [desc_setDesc_ne _ _ _ _ hkm]
      exact hdone k q hk (by omega)
  · intro k hk
    have hkm : k ≠ m := by omega
    show (s.setDesc m _).desc k = _
    rw [desc_setDesc_ne _ _ _ _ hkm]
    exact hrest k (by omega)

theorem clock_unpin (n f : Nat) (content : PageId → Page) (dirty : PageId → Bool)
    (ps : List PageId) (t : BufMgr) (hlen : ps.length = n)
    (ht : Clock.FilledTo n f content ps n t) :
    ∀ (rest : List PageId) (m : Nat) (s : BufMgr), m ≤ n → ps.drop m = rest →
      Clock.UnpinnedTo f dirty ps t m s →
        Clock.UnpinnedTo f dirty ps t n (Clock.run s (unPinAll f dirty rest)) := by
  intro rest
  induction rest with
  | nil =>
    intro m s hmn hd h
    have hle : ps.length ≤ m := List.drop_eq_nil_iff.1 hd
    have hm : m = n := by omega
    subst hm
    exact h
  | cons p rest ih =>
    intro m s hmn hd h
    obtain ⟨hp, hd1⟩ := drop_cons_split ps m p rest hd
    have hm : m < n := hlen ▸ lt_of_getElem?_some ps m p hp
    exact ih (m + 1) _ hm hd1 (clock_unpin_step n f content dirty ps t m s hlen p hp ht h)

theorem clock_idlePool_spec (n f : Nat) (content : PageId → Page) (dirty : PageId → Bool)
    (ps : List PageId) (hn : 1 ≤ n) (h32 : n < 4294967296) (hnd : ps.Nodup)
    (hlen : ps.length = n) :
    Clock.UnpinnedTo f dirty ps (Clock.filledPool n f content ps) n
      (Clock.idlePool n f content dirty ps) :=
  clock_unpin n f content dirty ps _ hlen (clock_filledPool_spec n f content ps hn h32 hnd hlen)
    ps 0 _ (Nat.zero_le n) rfl
    ⟨rfl, rfl, rfl, rfl, fun k _ _ hk => absurd hk (Nat.not_lt_zero k), fun _ _ => rfl⟩

/-! ## The first pass over a pool whose `refbit`s are all set -/

/-- With the clock hand just before frame `j`, and every frame from `j` on valid with
`refbit` set, the sweep spends `n - j` iterations on clearing those `refbit`s and goes
on, with the clock hand on the last frame, in a pool that differs in nothing else. -/
theorem clock_clear_pass (n : Nat) (h32 : n < 4294967296) :
    ∀ (m j : Nat) (s : BufMgr) (cs : List FileCall), j + m = n → s.numBufs = n →
      s.clockHand = (j + n - 1) % n →
      (∀ k : Nat, j ≤ k → k < n → (s.desc k).valid = true ∧ (s.desc k).refbit = true) →
      ∃ t : BufMgr,
        (∀ K, Clock.allocBufLoop (K + m) s cs = Clock.allocBufLoop K t cs) ∧
        t.numBufs = n ∧ t.clockHand = (n + n - 1) % n ∧ t.hashTable = s.hashTable ∧
        t.bufPool = s.bufPool ∧ (∀ k : Nat, k < j → t.desc k = s.desc k) ∧
        (∀ k : Nat, j ≤ k → k < n → t.desc k = { s.desc k with refbit := false }) ∧
        (∀ k : Nat, n ≤ k → t.desc k = s.desc k) := by
  intro m
  induction m with
  | zero =>
    intro j s cs hjm hN hH _
    have hj : j = n := by omega
    subst hj
    exact ⟨s, fun _ => rfl, hN, hH, rfl, rfl, fun _ _ => rfl, fun k h1 h2 => absurd h2 (by omega),
      fun _ _ => rfl⟩
  | succ m ih =>
    intro j s cs hjm hN hH hall
    have hj : j < n := by omega
    have hh : (advanceClock s).clockHand = j := by
      show ((s.clockHand + 1) % 4294967296) % s.numBufs = j
      rw [hH, hN]
      exact hand_next n j hj h32
    obtain ⟨hv, hr⟩ := hall j (Nat.le_refl j) hj
    have hjN : j < (advanceClock s).numBufs := hN.symm ▸ hj
    have hH2 : ((advanceClock s).setDesc j
        { (advanceClock s).desc j with refbit := false }).clockHand = (j + 1 + n - 1) % n := by
      show (advanceClock s).clockHand = _
      have : j + 1 + n - 1 = j + n := by omega
      rw [hh, this, Nat.add_mod_right, Nat.mod_eq_of_lt hj]
    obtain ⟨t, t1, t2, t3, t4, t5, t6, t7, t8⟩ := ih (j + 1)
      ((advanceClock s).setDesc j { (advanceClock s).desc j with refbit := false }) cs
      (by omega) ((numBufs_setDesc _ _ _).trans hN) hH2
      (by
        intro k h1 h2
        have hkj : k ≠ j := by omega
        rw [desc_setDesc_ne _ _ _ _ hkj]
        exact hall k (by omega) h2)
    refine ⟨t, ?_, t2, t3, t4, t5, ?_, ?_, ?_⟩
    · intro K
      rw [← t1 K]
      show Clock.allocBufLoop (K + m + 1) s cs = _
      simp only [Clock.allocBufLoop]
      rw [hh, desc_advanceClock, if_pos hv, if_neg (by rw [hr]; exact Bool.noConfusion)]
    · intro k hk
      have hkj : k ≠ j := by omega
      rw [t6 k (by omega), desc_setDesc_ne _ _ _ _ hkj]
      rfl
    · intro k h1 h2
      by_cases hkj : k = j
      · subst hkj
        rw [t6 k (by omega), desc_setDesc_self _ _ _ hjN]
        rfl
      · rw [t7 k (by omega) h2, desc_setDesc_ne _ _ _ _ hkj]
        rfl
    · intro k hk
      have hkj : k ≠ j := by omega
      rw [t8 k hk, desc_setDesc_ne _ _ _ _ hkj]
      rfl

/-- The sweep over a full pool with every `refbit` set, the clock hand on the last frame
and frame 0 not pinned: `n` iterations clear the `refbit`s and choose nothing, the next
one chooses frame 0. -/
theorem clock_allocBuf_all_referenced (n : Nat) (hn : 1 ≤ n) (h32 : n < 2147483648)
    (s : BufMgr) (hN : s.numBufs = n) (hH : s.clockHand = (n + n - 1) % n)
    (hall : ∀ k : Nat, k < n → (s.desc k).valid = true ∧ (s.desc k).refbit = true)
    (hp : (s.desc 0).pinCnt = 0) :
    (∃ t : BufMgr, Clock.allocBufLoop n s [] = (none, t, []) ∧
      ∀ k : Nat, k < n → t.desc k = { s.desc k with refbit := false }) ∧
    (Clock.allocBufLoop (n + 1) s []).1 = some 0 ∧
    (Clock.allocBuf s).out = .ok 0 ∧ (Clock.allocBuf s).state.numBufs = n ∧
    (Clock.allocBuf s).state.bufPool = s.bufPool ∧
    (Clock.allocBuf s).state.hashTable =
      s.hashTable.remove ((s.desc 0).file, (s.desc 0).pageNo) ∧
    (Clock.allocBuf s).state.desc 0 = BufDesc.free ∧
    (∀ k : Nat, 1 ≤ k → k < n →
      (Clock.allocBuf s).state.desc k = { s.desc k with refbit := false }) := by
  have hH0 : s.clockHand = (0 + n - 1) % n := by
    have e1 : n + n - 1 = n - 1 + n := by omega
    have e2 : 0 + n - 1 = n - 1 := by omega
    rw [hH, e1, e2, Nat.add_mod_right]
  obtain ⟨t, t1, t2, t3, t4, t5, _, t7, _⟩ := clock_clear_pass n (by omega) n 0 s []
    (Nat.zero_add n) hN hH0 (fun k _ hk => hall k hk)
  have e1 : n + n - 1 = n - 1 + n := by omega
  have e2 : 0 + n - 1 = n - 1 := by omega
  have hh : (advanceClock t).clockHand = 0 := by
    show ((t.clockHand + 1) % 4294967296) % t.numBufs = 0
    rw [t3, t2, e1, Nat.add_mod_right, ← e2]
    exact hand_next n 0 hn (by omega)
  have hd0 : t.desc 0 = { s.desc 0 with refbit := false } := t7 0 (Nat.le_refl 0) hn
  have hv0 : (t.desc 0).valid = true := by
    rw [hd0]
    exact (hall 0 hn).1
  have hr0 : (t.desc 0).refbit = false := by rw [hd0]
  have hp0 : (t.desc 0).pinCnt = 0 := by
    rw [hd0]
    exact hp
  have hkey : ((t.desc 0).file, (t.desc 0).pageNo) = ((s.desc 0).file, (s.desc 0).pageNo) := by
    rw [hd0]
  have h0t : 0 < (advanceClock t).numBufs := t2.symm ▸ hn
  have hstep : ∀ K, ∃ (X : BufMgr) (ds : List FileCall),
      Clock.allocBufLoop (K + 1) t [] = (some 0, X, ds) ∧ X.clockHand = 0 ∧ X.numBufs = n ∧
        X.bufPool = s.bufPool ∧
        X.hashTable = s.hashTable.remove ((s.desc 0).file, (s.desc 0).pageNo) ∧
        ∀ k : Nat, k ≠ 0 → X.desc k = t.desc k := by
    intro K
    simp only [Clock.allocBufLoop]
    rw [hh, desc_advanceClock, if_pos hv0, if_pos hr0, if_pos hp0]
    by_cases hdirty : (t.desc 0).dirty = true
    · rw [if_pos hdirty]
      refine ⟨_, _, rfl, hh, (numBufs_setDesc _ _ _).trans t2, t5, ?_, ?_⟩
      · show BufHashTbl.remove _ t.hashTable = _
        rw [hkey, t4]
      · intro k hk
        exact desc_setDesc_ne _ _ _ _ hk
    · rw [if_neg hdirty]
      refine ⟨_, _, rfl, rfl, t2, t5, ?_, fun _ _ => rfl⟩
      show BufHashTbl.remove _ t.hashTable = _
      rw [hkey, t4]
  refine ⟨⟨t, ?_, fun k hk => t7 k (Nat.zero_le k) hk⟩, ?_, ?_⟩
  · have := t1 0
    rw [Nat.zero_add] at this
    rw [this]
    rfl
  · obtain ⟨X, ds, x1, _⟩ := hstep 0
    have := t1 1
    rw [Nat.add_comm 1 n] at this
    rw [this, Nat.zero_add] at *
    rw [x1]
  · obtain ⟨X, ds, x1, x2, x3, x4, x5, x6⟩ := hstep n
    have hsb : sweepBound s + 1 = n + 1 + n := by
      rw [sweepBound_eq s (hN.symm ▸ h32), hN]
      omega
    have hl : Clock.allocBufLoop (sweepBound s + 1) s [] = (some 0, X, ds) := by
      rw [hsb, t1 (n + 1), x1]
    have hX0 : 0 < X.numBufs := x3.symm ▸ hn
    simp only [Clock.allocBuf, hl]
    rw [x2]
    refine ⟨trivial, (numBufs_setDesc _ _ _).trans x3, x4, x5, ?_, ?_⟩
    · exact desc_setDesc_self _ _ _ hX0
    · intro k h1 h2
      have hk0 : k ≠ 0 := by omega
      show (X.setDesc 0 _).desc k = _
      rw [desc_setDesc_ne _ _ _ _ hk0, x6 k hk0]
      exact t7 k (Nat.zero_le k) h2

/-! ## No stale file pointers -/

theorem noStale_init (n : Nat) : NoStale (BufMgr.init n) := by
  intro i _
  rw [desc_init]
  rfl

theorem noStale_of_swept {s t : BufMgr} (hs : NoStale s) (h : Swept s t) : NoStale t := by
  intro i hi
  obtain ⟨a1, _, _, _, a5⟩ := h.2.2.2 i
  rw [a1]
  exact hs i (a5 ▸ hi)

theorem noStale_of_unmoved {s t : BufMgr} (hs : NoStale s) (h : Unmoved s t) : NoStale t :=
  noStale_of_swept hs h.to_swept

theorem noStale_setDesc {s : BufMgr} (hs : NoStale s) (i : FrameId) (d : BufDesc)
    (hd : d.valid = false → d.file = none) : NoStale (s.setDesc i d) := by
  intro j hj
  by_cases hji : j = i
  · subst hji
    by_cases hlt : j < s.numBufs
    · rw [desc_setDesc_self _ _ _ hlt] at hj ⊢
      exact hd hj
    · rw [desc_of_le _ _ (by rw [numBufs_setDesc]; exact Nat.le_of_not_lt hlt)]
      rfl
  · rw [desc_setDesc_ne _ _ _ _ hji] at hj ⊢
    exact hs j hj

theorem noStale_hashTable {s : BufMgr} (hs : NoStale s) (m : BufHashTbl) :
    NoStale { s with hashTable := m } := hs

theorem noStale_installed {t : BufMgr} (ht : NoStale t) (v : FrameId) (pg : Page)
    (file : FilePtr) (pageNo : PageId) : NoStale (t.installed v pg file pageNo) := by
  have h1 : NoStale ({ t.setPage v pg with
      hashTable := (t.setPage v pg).hashTable.insert (file, pageNo) v } : BufMgr) := ht
  exact noStale_setDesc h1 v _ (fun h => Bool.noConfusion h)

theorem clock_allocBuf_noStale (s : BufMgr) (hs : NoStale s) :
    NoStale (Clock.allocBuf s).state := by
  rcases ho : (Clock.allocBuf s).out with v | e
  · obtain ⟨_, _, c, d, _⟩ := clock_allocBuf_ok s v ho
    intro j hj
    by_cases hjv : j = v
    · rw [hjv, d]
      rfl
    · obtain ⟨a1, _, _, _, a5⟩ := c.2.2.1 j hjv
      rw [a1]
      exact hs j (a5 ▸ hj)
  · exact noStale_of_unmoved hs (clock_allocBuf_threw s e ho).2.1

theorem clock_readPage_noStale (s : BufMgr) (file : Nat) (pageNo : PageId)
    (answer : Option Page) (hs : NoStale s) :
    NoStale (Clock.readPage s file pageNo answer).state := by
  have ha := clock_allocBuf_noStale s hs
  rcases hl : s.hashTable.lookup (some file, pageNo) with _ | v
  · rcases ho : (Clock.allocBuf s).out with v | e
    · rcases answer with _ | pg
      · rw [clock_readPage_fail s file pageNo v hl ho]
        exact ha
      · rw [clock_readPage_miss s file pageNo pg v hl ho]
        exact noStale_installed ha _ _ _ _
    · rw [clock_readPage_full s file pageNo answer e hl ho]
      exact ha
  · rw [clock_readPage_hit s file pageNo answer v hl]
    exact noStale_setDesc hs v _ (fun h => hs v h)

theorem clock_allocPage_noStale (s : BufMgr) (file : Nat) (fresh : Page) (hs : NoStale s) :
    NoStale (Clock.allocPage s file fresh).state := by
  have ha := clock_allocBuf_noStale s hs
  rcases ho : (Clock.allocBuf s).out with v | e
  · rw [clock_allocPage_ok s file fresh v ho]
    exact noStale_installed ha _ _ _ _
  · simp only [Clock.allocPage, ho]
    exact ha

theorem unPinPage_noStale (s : BufMgr) (file : Nat) (pageNo : PageId) (dirty : Bool)
    (hs : NoStale s) : NoStale (unPinPage s file pageNo dirty).state := by
  rcases hl : s.hashTable.lookup (some file, pageNo) with _ | v
  · rw [unPinPage_absent s file pageNo dirty hl]
    exact hs
  · by_cases hp : (s.desc v).pinCnt = 0
    · rw [unPinPage_unpinned s file pageNo dirty v hl hp]
      exact hs
    · rw [unPinPage_pinned s file pageNo dirty v hl hp]
      exact noStale_setDesc hs v _ (fun h => hs v h)

theorem disposePage_noStale (s : BufMgr) (file : Nat) (pageNo : PageId) (hs : NoStale s) :
    NoStale (disposePage s file pageNo).state := by
  rcases hl : s.hashTable.lookup (some file, pageNo) with _ | v
  · simp only [disposePage, hl]
    exact hs
  · simp only [disposePage, hl]
    exact noStale_setDesc (noStale_hashTable hs _) v _ (fun _ => rfl)

theorem flushFileFrom_noStale (file : FilePtr) (n : Nat) :
    ∀ (i : FrameId) (s : BufMgr) (cs : List FileCall), NoStale s →
      NoStale (flushFileFrom file n i s cs).state := by
  induction n with
  | zero =>
    intro i s cs hs
    exact hs
  | succ n ih =>
    intro i s cs hs
    simp only [flushFileFrom]
    split_ifs
    · exact hs
    · exact hs
    · exact ih _ _ _ (noStale_setDesc (noStale_hashTable hs _) i _ (fun _ => rfl))
    · exact ih _ _ _ hs
    · exact ih _ _ _ hs

/-- With no stale file pointer in the pool, `flushFile` on a real file handle never
meets the `BadBuffer` guard. -/
theorem flushFileFrom_no_badBuffer (f : Nat) (n : Nat) :
    ∀ (i : FrameId) (s : BufMgr) (cs : List FileCall), NoStale s →
      (flushFileFrom (some f) n i s cs).out ≠ .threw .BadBuffer := by
  induction n with
  | zero =>
    intro i s cs hs
    exact fun h => Outcome.noConfusion h
  | succ n ih =>
    intro i s cs hs
    simp only [flushFileFrom]
    by_cases h1 : (s.desc i).file = some f
    · rw [if_pos h1]
      by_cases h2 : (s.desc i).pinCnt > 0
      · rw [if_pos h2]
        exact fun h => Exc.noConfusion (Outcome.threw.inj h)
      · rw [if_neg h2]
        have hv : ¬ (s.desc i).valid = false := by
          intro hv
          rw [hs i hv] at h1
          exact Option.noConfusion h1
        rw [if_neg hv]
        by_cases h4 : (s.desc i).dirty = true
        · rw [if_pos h4]
          exact ih _ _ _ (noStale_setDesc (noStale_hashTable hs _) i _ (fun _ => rfl))
        · rw [if_neg h4]
          exact ih _ _ _ hs
    · rw [if_neg h1]
      exact ih _ _ _ hs

theorem clock_step_noStale (s : BufMgr) (op : Op) (hs : NoStale s) :
    NoStale (Clock.step s op) := by
  cases op with
  | readPage file pageNo answer => exact clock_readPage_noStale s file pageNo answer hs
  | allocPage file fresh => exact clock_allocPage_noStale s file fresh hs
  | unPinPage file pageNo dirty => exact unPinPage_noStale s file pageNo dirty hs
  | flushFile file => exact flushFileFrom_noStale file _ _ _ _ hs
  | disposePage file pageNo => exact disposePage_noStale s file pageNo hs

theorem clock_run_noStale (ops : List Op) :
    ∀ s : BufMgr, NoStale s → NoStale (Clock.run s ops) := by
  induction ops with
  | nil =>
    intro s hs
    exact hs
  | cons op ops ih =>
    intro s hs
    exact ih _ (clock_step_noStale s op hs)

theorem lru_bumpCounters_noStale (s : BufMgr) (hs : NoStale s) :
    NoStale (Lru.bumpCounters s) :=
  noStale_of_unmoved hs (lru_unmoved_bumpCounters s)

theorem lru_sweep_swept (k : Nat) (mf : FrameId) (s : BufMgr) (cs : List FileCall) :
    Swept s (Lru.sweep k (-1) mf s cs).state := by
  by_cases hk : k = 0
  · subst hk
    exact swept_refl s
  · exact (lru_sweep_post k hk mf s cs).1

theorem lru_allocBuf_noStale (s : BufMgr) (hs : NoStale s) :
    NoStale (Lru.allocBuf s).state := by
  have hb := lru_bumpCounters_noStale s hs
  have hsw := noStale_of_swept hb
    (lru_sweep_swept (sweepBound (Lru.bumpCounters s)) 0 (Lru.bumpCounters s) [])
  by_cases hfull : Lru.filledFrames (Lru.bumpCounters s) < (Lru.bumpCounters s).numBufs
  · simp only [Lru.allocBuf, hfull, if_true]
    exact hb
  · rcases ho : (Lru.sweep (sweepBound (Lru.bumpCounters s)) (-1) 0
        (Lru.bumpCounters s) []).out with w | e
    · simp only [Lru.allocBuf, hfull, ho, if_false]
      exact noStale_setDesc (noStale_hashTable hsw _) w _ (fun _ => rfl)
    · simp only [Lru.allocBuf, hfull, ho, if_false]
      exact hsw

theorem lru_readPage_noStale (s : BufMgr) (file : Nat) (pageNo : PageId)
    (answer : Option Page) (hs : NoStale s) :
    NoStale (Lru.readPage s file pageNo answer).state := by
  have ha := lru_allocBuf_noStale s hs
  rcases hl : s.hashTable.lookup (some file, pageNo) with _ | v
  · rcases ho : (Lru.allocBuf s).out with v | e
    · rcases answer with _ | pg
      · rw [lru_readPage_fail s file pageNo v hl ho]
        exact ha
      · rw [lru_readPage_miss s file pageNo pg v hl ho]
        exact lru_bumpCounters_noStale _ (noStale_installed ha _ _ _ _)
    · rw [lru_readPage_full s file pageNo answer e hl ho]
      exact ha
  · rw [lru_readPage_hit s file pageNo answer v hl]
    have h1 : NoStale (s.setDesc v { s.desc v with refbit := true }) :=
      noStale_setDesc hs v _ (fun h => hs v h)
    exact lru_bumpCounters_noStale _ (noStale_setDesc h1 v _ (fun h => h1 v h))

theorem lru_allocPage_noStale (s : BufMgr) (file : Nat) (fresh : Page) (hs : NoStale s) :
    NoStale (Lru.allocPage s file fresh).state := by
  have ha := lru_allocBuf_noStale s hs
  rcases ho : (Lru.allocBuf s).out with v | e
  · rw [lru_allocPage_ok s file fresh v ho]
    exact noStale_installed ha _ _ _ _
  · simp only [Lru.allocPage, ho]
    exact ha

theorem lru_step_noStale (s : BufMgr) (op : Op) (hs : NoStale s) :
    NoStale (Lru.step s op) := by
  cases op with
  | readPage file pageNo answer => exact lru_readPage_noStale s file pageNo answer hs
  | allocPage file fresh => exact lru_allocPage_noStale s file fresh hs
  | unPinPage file pageNo dirty => exact unPinPage_noStale s file pageNo dirty hs
  | flushFile file => exact flushFileFrom_noStale file _ _ _ _ hs
  | disposePage file pageNo => exact disposePage_noStale s file pageNo hs

theorem lru_run_noStale (ops : List Op) :
    ∀ s : BufMgr, NoStale s → NoStale (Lru.run s ops) := by
  induction ops with
  | nil =>
    intro s hs
    exact hs
  | cons op ops ih =>
    intro s hs
    exact ih _ (lru_step_noStale s op hs)

/-! ## The sweep of the LRU variant follows the sweep of the CLOCK variant -/

theorem agreeButCounter_refl (d : BufDesc) : AgreeButCounter d d :=
  ⟨rfl, rfl, rfl, rfl, rfl, rfl⟩

theorem sameButCounter_desc {s u : BufMgr} (h : SameButCounter s u) (j : FrameId) :
    AgreeButCounter (s.desc j) (u.desc j) := by
  by_cases hj : j < s.numBufs
  · exact h.2.2.2.2 j hj
  · rw [desc_of_le s j (Nat.le_of_not_lt hj),
      desc_of_le u j (by rw [h.1]; exact Nat.le_of_not_lt hj)]
    exact agreeButCounter_refl _

/-- A sweep of the CLOCK variant that finds a frame within `k` iterations gives the same
result with more iterations allowed. -/
theorem clock_allocBufLoop_mono (k : Nat) :
    ∀ (s : BufMgr) (cs : List FileCall) (m : Nat), (Clock.allocBufLoop k s cs).1 ≠ none →
      Clock.allocBufLoop (k + m) s cs = Clock.allocBufLoop k s cs := by
  induction k with
  | zero =>
    intro s cs m h
    exact absurd rfl h
  | succ k ih =>
    intro s cs m h
    rw [Nat.add_right_comm k 1 m]
    simp only [Clock.allocBufLoop] at h ⊢
    by_cases h1 : ((advanceClock s).desc (advanceClock s).clockHand).valid = true
    · rw [if_pos h1] at h
      rw [if_pos h1, if_pos h1]
      by_cases h2 : ((advanceClock s).desc (advanceClock s).clockHand).refbit = false
      · rw [if_pos h2] at h
        rw [if_pos h2, if_pos h2]
        by_cases h3 : ((advanceClock s).desc (advanceClock s).clockHand).pinCnt = 0
        · rw [if_pos h3, if_pos h3]
        · rw [if_neg h3] at h
          rw [if_neg h3, if_neg h3]
          exact ih _ _ m h
      · rw [if_neg h2] at h
        rw [if_neg h2, if_neg h2]
        exact ih _ _ m h
    · rw [if_neg h1, if_neg h1]

/-- On a full pool whose counters exceed -1, the sweep of the LRU variant does what the
sweep of the CLOCK variant does on the same pool with other counters: it returns the
same frame with the same calls, and leaves the same pool, the counters and the removal
of the map entry apart (the LRU variant removes it after the sweep). -/
theorem lru_sweep_follows_clock (k : Nat) :
    ∀ (s u : BufMgr) (cs : List FileCall) (mf v : FrameId) (t : BufMgr) (ds : List FileCall),
      0 < s.numBufs → u.numBufs = s.numBufs → u.bufPool = s.bufPool →
      u.hashTable = s.hashTable → u.clockHand = s.clockHand →
      (∀ j, AgreeButCounter (s.desc j) (u.desc j)) →
      (∀ j, j < s.numBufs → (s.desc j).valid = true) →
      (∀ j, j < s.numBufs → (u.desc j).counter > -1) →
      Clock.allocBufLoop k s cs = (some v, t, ds) →
      ∃ w : BufMgr, Lru.sweep k (-1) mf u cs = ⟨.ok v, w, ds⟩ ∧ w.numBufs = t.numBufs ∧
        w.bufPool = t.bufPool ∧ w.clockHand = t.clockHand ∧
        t.hashTable = w.hashTable.remove ((w.desc v).file, (w.desc v).pageNo) ∧
        ∀ j, AgreeButCounter (t.desc j) (w.desc j) := by
  induction k with
  | zero =>
    intro s u cs mf v t ds _ _ _ _ _ _ _ _ hl
    simp [Clock.allocBufLoop] at hl
  | succ k ih =>
    intro s u cs mf v t ds h0 hN hB hT hH hag hval hcnt hl
    have hlt := clockHand_advanceClock_lt s h0
    have hltu : (advanceClock s).clockHand < (advanceClock u).numBufs := hN.symm ▸ hlt
    have hlts : (advanceClock s).clockHand < (advanceClock s).numBufs := hlt
    have hh : (advanceClock u).clockHand = (advanceClock s).clockHand := by
      show ((u.clockHand + 1) % 4294967296) % u.numBufs =
        ((s.clockHand + 1) % 4294967296) % s.numBufs
      rw [hH, hN]
    obtain ⟨a1, a2, a3, a4, a5, a6⟩ := hag (advanceClock s).clockHand
    have hv : ((advanceClock s).desc (advanceClock s).clockHand).valid = true := hval _ hlt
    have hvu : ((advanceClock u).desc (advanceClock s).clockHand).valid = true := a5.trans hv
    have hcu : ((advanceClock u).desc (advanceClock s).clockHand).counter > -1 := hcnt _ hlt
    have hpage : (advanceClock u).page (advanceClock s).clockHand =
        (advanceClock s).page (advanceClock s).clockHand := by
      show List.getD u.bufPool _ default = List.getD s.bufPool _ default
      rw [hB]
    have hk0 : ∀ (x : BufMgr), Clock.allocBufLoop k x cs = (some v, t, ds) → ¬ k = 0 := by
      intro x hx hk
      subst hk
      simp [Clock.allocBufLoop] at hx
    simp only [Clock.allocBufLoop] at hl
    rw [if_pos hv] at hl
    simp only [Lru.sweep]
    rw [if_neg (fun h : (-1 : Int) ≠ -1 => h rfl), hh, if_pos hvu]
    by_cases h2 : ((advanceClock s).desc (advanceClock s).clockHand).refbit = false
    · rw [if_pos h2] at hl
      have h2u : ((advanceClock u).desc (advanceClock s).clockHand).refbit = false :=
        a6.trans h2
      rw [if_pos h2u]
      by_cases h3 : ((advanceClock s).desc (advanceClock s).clockHand).pinCnt = 0
      · rw [if_pos h3] at hl
        have h3u : ((advanceClock u).desc (advanceClock s).clockHand).pinCnt = 0 :=
          a3.trans h3
        rw [if_pos h3u, if_pos hcu, lru_sweep_done _ _ _ _ _ (ne_of_gt hcu)]
        by_cases h4 : ((advanceClock s).desc (advanceClock s).clockHand).dirty = true
        · rw [if_pos h4] at hl
          have h4u : ((advanceClock u).desc (advanceClock s).clockHand).dirty = true :=
            a4.trans h4
          rw [if_pos h4u, if_pos h4u]
          simp only [Prod.mk.injEq, Option.some.injEq] at hl
          obtain ⟨rfl, rfl, rfl⟩ := hl
          refine ⟨(advanceClock u).setDesc (advanceClock s).clockHand
            { (advanceClock u).desc (advanceClock s).clockHand with dirty := false },
            ?_, ?_, hB, hh, ?_, ?_⟩
          · rw [hpage]
            show Res.mk _ _ (cs ++ [FileCall.writePage (u.desc _).file _]) = _
            rw [a1]
            rfl
          · exact (numBufs_setDesc _ _ _).trans (hN.trans (numBufs_setDesc _ _ _).symm)
          · rw [desc_setDesc_self _ _ _ hltu]
            show BufHashTbl.remove _ s.hashTable = BufHashTbl.remove ((u.desc _).file,
              (u.desc _).pageNo) u.hashTable
            rw [a1, a2, hT]
            rfl
          · intro j
            by_cases hj : j = (advanceClock s).clockHand
            · subst hj
              show AgreeButCounter (((advanceClock s).setDesc _ _).desc _) _
              rw [desc_setDesc_self _ _ _ hlts, desc_setDesc_self _ _ _ hltu]
              exact ⟨a1, a2, a3, rfl, a5, a6⟩
            · show AgreeButCounter (((advanceClock s).setDesc _ _).desc _) _
              rw [desc_setDesc_ne _ _ _ _ hj, desc_setDesc_ne _ _ _ _ hj]
              exact hag j
        · rw [if_neg h4] at hl
          have h4u : ¬ ((advanceClock u).desc (advanceClock s).clockHand).dirty = true := by
            intro h
            exact h4 (a4.symm.trans h)
          rw [if_neg h4u, if_neg h4u]
          simp only [Prod.mk.injEq, Option.some.injEq] at hl
          obtain ⟨rfl, rfl, rfl⟩ := hl
          refine ⟨advanceClock u, rfl, hN, hB, hh, ?_, hag⟩
          show BufHashTbl.remove _ s.hashTable = BufHashTbl.remove ((u.desc _).file,
            (u.desc _).pageNo) u.hashTable
          rw [a1, a2, hT]
          rfl
      · rw [if_neg h3] at hl
        have h3u : ¬ ((advanceClock u).desc (advanceClock s).clockHand).pinCnt = 0 := by
          intro h
          exact h3 (a3.symm.trans h)
        rw [if_neg h3u, if_neg (hk0 _ hl)]
        exact ih (advanceClock s) (advanceClock u) cs mf v t ds h0 hN hB hT hh hag hval hcnt hl
    · rw [if_neg h2] at hl
      have h2u : ¬ ((advanceClock u).desc (advanceClock s).clockHand).refbit = false := by
        intro h
        exact h2 (a6.symm.trans h)
      rw [if_neg h2u, if_neg (hk0 _ hl)]
      refine ih ((advanceClock s).setDesc (advanceClock s).clockHand
          { (advanceClock s).desc (advanceClock s).clockHand with refbit := false })
        ((advanceClock u).setDesc (advanceClock s).clockHand
          { (advanceClock u).desc (advanceClock s).clockHand with refbit := false })
        cs mf v t ds ((numBufs_setDesc _ _ _).symm ▸ h0)
        ((numBufs_setDesc _ _ _).trans (hN.trans (numBufs_setDesc _ _ _).symm)) hB hT hh
        ?_ ?_ ?_ hl
      · intro j
        by_cases hj : j = (advanceClock s).clockHand
        · subst hj
          rw [desc_setDesc_self _ _ _ hlts, desc_setDesc_self _ _ _ hltu]
          exact ⟨a1, a2, a3, a4, a5, rfl⟩
        · rw [desc_setDesc_ne _ _ _ _ hj, desc_setDesc_ne _ _ _ _ hj]
          exact hag j
      · intro j hj
        rw [numBufs_setDesc] at hj
        by_cases hjc : j = (advanceClock s).clockHand
        · subst hjc
          rw [desc_setDesc_self _ _ _ hlts]
          exact hv
        · rw [desc_setDesc_ne _ _ _ _ hjc]
          exact hval j hj
      · intro j hj
        rw [numBufs_setDesc] at hj
        by_cases hjc : j = (advanceClock s).clockHand
        · subst hjc
          rw [desc_setDesc_self _ _ _ hltu]
          exact hcu
        · rw [desc_setDesc_ne _ _ _ _ hjc]
          exact hcnt j hj

theorem lru_filledFrames_full (s : BufMgr)
    (h : ∀ i : Nat, i < s.numBufs → (s.desc i).valid = true) :
    Lru.filledFrames s = s.numBufs := by
  unfold Lru.filledFrames BufMgr.numBufs
  rw [List.filter_eq_self.2]
  intro a ha
  obtain ⟨i, hi, rfl⟩ := List.mem_iff_getElem.1 ha
  have hd : s.desc i = s.bufDescTable[i] := by
    simp [BufMgr.desc, List.getD_eq_getElem?_getD, List.getElem?_eq_getElem hi]
  rw [← hd]
  exact h i hi

/-! ## Claims -/

/-- C1 (CLOCK variant): the pool is well formed in every state reached from a freshly
constructed pool of `n ≥ 1` frames by any sequence of `readPage`, `allocPage`,
`unPinPage`, `flushFile` and `disposePage` calls, returning or throwing, as long as
every `allocatePage` answers with a page whose number is not a key of the map for that
file when it is called. -/
theorem clock_wellFormed_invariant (n : Nat) (hn : 1 ≤ n) (ops : List Op)
    (hfresh : Clock.Admissible (BufMgr.init n) ops) :
    WellFormed (Clock.run (BufMgr.init n) ops) :=
  clock_run_wf ops _ (init_wf n) (by rw [numBufs_init]; exact hn) hfresh

theorem clock_wellFormed_invariant_witness :
    1 ≤ 2 ∧
      Clock.Admissible (BufMgr.init 2)
        [.readPage 1 1 (some ⟨1, 0⟩), .allocPage 1 ⟨5, 0⟩, .unPinPage 1 1 true,
          .readPage 1 9 none, .flushFile (some 1), .disposePage 1 5] ∧
      WellFormed (Clock.run (BufMgr.init 2)
        [.readPage 1 1 (some ⟨1, 0⟩), .allocPage 1 ⟨5, 0⟩, .unPinPage 1 1 true,
          .readPage 1 9 none, .flushFile (some 1), .disposePage 1 5]) :=
  ⟨by decide, ⟨trivial, rfl, trivial, trivial, trivial, trivial, trivial⟩,
    clock_wellFormed_invariant 2 (by decide) _
      ⟨trivial, rfl, trivial, trivial, trivial, trivial, trivial⟩⟩

/-- C2: the replacement never takes a pinned frame, in either variant. In a well-formed
pool, a frame `allocBuf` returns was not valid or had pin count 0 before the call; hence
every descriptor pinned before a `readPage` or `allocPage` is valid afterwards with the
same file and page in the same frame, and the map still sends its key there. For
`allocPage` the file answers with a page new to the pool; for the LRU variant
`2*numBufs` fits 32 bits. -/
theorem pinned_page_never_evicted (s : BufMgr) (hw : WellFormed s) :
    (∀ v, (Clock.allocBuf s).out = .ok v →
      (s.desc v).valid = false ∨ (s.desc v).pinCnt = 0) ∧
    (∀ file pageNo answer, PinnedKept s (Clock.readPage s file pageNo answer).state) ∧
    (∀ file fresh, Clock.freshAt s (.allocPage file fresh) →
      PinnedKept s (Clock.allocPage s file fresh).state) ∧
    (s.numBufs < 2147483648 →
      (∀ v, (Lru.allocBuf s).out = .ok v →
        (s.desc v).valid = false ∨ (s.desc v).pinCnt = 0) ∧
      (∀ file pageNo answer, PinnedKept s (Lru.readPage s file pageNo answer).state) ∧
      (∀ file fresh, Lru.freshAt s (.allocPage file fresh) →
        PinnedKept s (Lru.allocPage s file fresh).state)) := by
  refine ⟨?_, fun file pageNo answer => clock_readPage_pinnedKept s hw file pageNo answer,
    fun file fresh hf => clock_allocPage_pinnedKept s hw file fresh hf, fun h32 => ?_⟩
  · intro v hv
    rcases (clock_allocBuf_ok s v hv).2.2.1.2.2.2 with h | h
    · exact Or.inl h.1
    · exact Or.inr h.2.1
  · by_cases h0 : 0 < s.numBufs
    · refine ⟨?_, fun file pageNo answer =>
          lru_readPage_pinnedKept s hw h0 h32 file pageNo answer,
        fun file fresh hf => lru_allocPage_pinnedKept s hw h0 h32 file fresh hf⟩
      intro v hv
      rcases (lru_allocBuf_ok s v h0 h32 hv).2.1.2.2.2 with h | h
      · exact Or.inl h.1
      · exact Or.inr h.2.1
    · have hz : ∀ t : BufMgr, PinnedKept s t := fun t i hi _ => absurd (Nat.zero_lt_of_lt hi) h0
      refine ⟨fun v _ => Or.inl ?_, fun _ _ _ => hz _, fun _ _ _ => hz _⟩
      rw [desc_of_le s v (Nat.le_trans (Nat.le_of_not_lt h0) (Nat.zero_le v))]
      rfl

theorem pinned_page_never_evicted_witness :
    WellFormed examplePool ∧
      (Clock.allocBuf examplePool).out = .ok 1 ∧
      (Lru.allocBuf examplePool).out = .ok 1 ∧
      PinnedKept examplePool (Clock.readPage examplePool 1 3 (some ⟨3, 30⟩)).state ∧
      PinnedKept examplePool (Clock.allocPage examplePool 1 ⟨7, 70⟩).state ∧
      PinnedKept examplePool (Lru.readPage examplePool 1 3 (some ⟨3, 30⟩)).state ∧
      PinnedKept examplePool (Lru.allocPage examplePool 1 ⟨7, 70⟩).state :=
  ⟨by decide, by decide, by decide,
    (pinned_page_never_evicted examplePool (by decide)).2.1 1 3 (some ⟨3, 30⟩),
    (pinned_page_never_evicted examplePool (by decide)).2.2.1 1 ⟨7, 70⟩ rfl,
    ((pinned_page_never_evicted examplePool (by decide)).2.2.2 (by decide)).2.1
      1 3 (some ⟨3, 30⟩),
    ((pinned_page_never_evicted examplePool (by decide)).2.2.2 (by decide)).2.2
      1 ⟨7, 70⟩ rfl⟩

/-- C3, miss then hit, in both variants: when `(file, pageNo)` is not cached, the
replacement supplies a frame `v` of the pool and `file->readPage` succeeds, two
consecutive `readPage(file, pageNo)` calls both return frame `v`, leave its descriptor
with pin count 2, and make exactly one `readPage` call on the file in total, the second
call making no call on a file at all. -/
theorem miss_then_hit (s : BufMgr) (file : Nat) (pageNo : PageId) (pg : Page)
    (answer : Option Page) (hmiss : s.hashTable.lookup (some file, pageNo) = none) :
    (∀ v, (Clock.allocBuf s).out = .ok v → v < s.numBufs →
      (Clock.readPage s file pageNo (some pg)).out = .ok v ∧
      (Clock.readPage (Clock.readPage s file pageNo (some pg)).state file pageNo answer).out
        = .ok v ∧
      ((Clock.readPage (Clock.readPage s file pageNo (some pg)).state file pageNo
        answer).state.desc v).pinCnt = 2 ∧
      (Clock.readPage (Clock.readPage s file pageNo (some pg)).state file pageNo answer).calls
        = [] ∧
      readPageCalls ((Clock.readPage s file pageNo (some pg)).calls ++
        (Clock.readPage (Clock.readPage s file pageNo (some pg)).state file pageNo
          answer).calls) = 1) ∧
    (∀ v, (Lru.allocBuf s).out = .ok v → v < s.numBufs →
      (Lru.readPage s file pageNo (some pg)).out = .ok v ∧
      (Lru.readPage (Lru.readPage s file pageNo (some pg)).state file pageNo answer).out
        = .ok v ∧
      ((Lru.readPage (Lru.readPage s file pageNo (some pg)).state file pageNo
        answer).state.desc v).pinCnt = 2 ∧
      (Lru.readPage (Lru.readPage s file pageNo (some pg)).state file pageNo answer).calls
        = [] ∧
      readPageCalls ((Lru.readPage s file pageNo (some pg)).calls ++
        (Lru.readPage (Lru.readPage s file pageNo (some pg)).state file pageNo
          answer).calls) = 1) := by
  constructor
  · intro v ho hv
    have hvt : v < (Clock.allocBuf s).state.numBufs := by
      rw [clock_allocBuf_numBufs]
      exact hv
    have hl2 : ((Clock.allocBuf s).state.installed v pg (some file) pageNo).hashTable.lookup
        (some file, pageNo) = some v := by
      rw [hashTable_installed]
      exact lookup_insert_self _ _ _
    have hvi : v < ((Clock.allocBuf s).state.installed v pg (some file) pageNo).numBufs := by
      rw [numBufs_installed]
      exact hvt
    rw [clock_readPage_miss s file pageNo pg v hmiss ho]
    simp only []
    rw [clock_readPage_hit _ file pageNo answer v hl2]
    simp only []
    refine ⟨trivial, trivial, ?_, trivial, ?_⟩
    · rw [desc_setDesc_self _ _ _ hvi, desc_installed_self _ _ _ _ _ hvt]
    · rw [List.append_nil, readPageCalls_append, (clock_allocBuf_ok s v ho).2.2.2.2,
        readPageCalls_evictionCalls]
      rfl
  · intro v ho hv
    have hvt : v < (Lru.allocBuf s).state.numBufs := by
      rw [(lru_allocBuf_basic s).1]
      exact hv
    have hvi : v < ((Lru.allocBuf s).state.installed v pg (some file) pageNo).numBufs := by
      rw [numBufs_installed]
      exact hvt
    have hl2 : (Lru.bumpCounters
        ((Lru.allocBuf s).state.installed v pg (some file) pageNo)).hashTable.lookup
        (some file, pageNo) = some v := by
      show BufHashTbl.lookup _
        ((Lru.allocBuf s).state.installed v pg (some file) pageNo).hashTable = some v
      rw [hashTable_installed]
      exact lookup_insert_self _ _ _
    have hvb : v < (Lru.bumpCounters
        ((Lru.allocBuf s).state.installed v pg (some file) pageNo)).numBufs := by
      rw [lru_numBufs_bumpCounters]
      exact hvi
    rw [lru_readPage_miss s file pageNo pg v hmiss ho]
    simp only []
    rw [lru_readPage_hit _ file pageNo answer v hl2]
    simp only []
    refine ⟨trivial, trivial, ?_, trivial, ?_⟩
    · have h1 := (lru_unmoved_bumpCounters
        (((Lru.bumpCounters ((Lru.allocBuf s).state.installed v pg (some file) pageNo)).setDesc v
          { (Lru.bumpCounters ((Lru.allocBuf s).state.installed v pg (some file) pageNo)).desc v
            with refbit := true }).setDesc v
          { ((Lru.bumpCounters ((Lru.allocBuf s).state.installed v pg (some file)
              pageNo)).setDesc v
              { (Lru.bumpCounters ((Lru.allocBuf s).state.installed v pg (some file)
                pageNo)).desc v with refbit := true }).desc v with
            pinCnt := (((Lru.bumpCounters ((Lru.allocBuf s).state.installed v pg (some file)
              pageNo)).setDesc v
              { (Lru.bumpCounters ((Lru.allocBuf s).state.installed v pg (some file)
                pageNo)).desc v with refbit := true }).desc v).pinCnt + 1 })).2.2.2 v
      rw [h1.2.2.1, desc_setDesc_self _ _ _ (by rw [numBufs_setDesc]; exact hvb)]
      simp only []
      rw [desc_setDesc_self _ _ _ hvb]
      simp only []
      rw [(lru_unmoved_bumpCounters _).2.2.2 v |>.2.2.1, desc_installed_self _ _ _ _ _ hvt]
    · rw [List.append_nil, readPageCalls_append, readPageCalls_writes _ (lru_allocBuf_basic s).2]
      rfl

theorem miss_then_hit_witness :
    examplePool.hashTable.lookup (some 1, 3) = none ∧
      (Clock.allocBuf examplePool).out = .ok 1 ∧ (Lru.allocBuf examplePool).out = .ok 1 ∧
      ((Clock.readPage (Clock.readPage examplePool 1 3 (some ⟨3, 30⟩)).state 1 3
        none).state.desc 1).pinCnt = 2 ∧
      ((Lru.readPage (Lru.readPage examplePool 1 3 (some ⟨3, 30⟩)).state 1 3
        none).state.desc 1).pinCnt = 2 :=
  ⟨by decide, by decide, by decide,
    ((miss_then_hit examplePool 1 3 ⟨3, 30⟩ none (by decide)).1 1 (by decide)
      (by decide)).2.2.1,
    ((miss_then_hit examplePool 1 3 ⟨3, 30⟩ none (by decide)).2 1 (by decide)
      (by decide)).2.2.1⟩

/-- C4, as stated, fails: in the pool of scenario 4 (three frames, pages 1, 2, 3 read and
still pinned) `readPage` of page 4 throws `BufferExceeded`, and the failed sweep has
cleared the `refbit` of frame 0, so the descriptors are not as before the call. -/
theorem bufferExceeded_changes_refbit :
    (∀ i, i < pinnedPool.numBufs →
      (pinnedPool.desc i).valid = true ∧ 0 < (pinnedPool.desc i).pinCnt) ∧
    pinnedPool.hashTable.lookup (some 1, 4) = none ∧
    (Clock.readPage pinnedPool 1 4 (some ⟨4, 40⟩)).out = .threw .BufferExceeded ∧
    (pinnedPool.desc 0).refbit = true ∧
    ((Clock.readPage pinnedPool 1 4 (some ⟨4, 40⟩)).state.desc 0).refbit = false ∧
    (Clock.readPage pinnedPool 1 4 (some ⟨4, 40⟩)).state.bufDescTable ≠
      pinnedPool.bufDescTable := by
  decide

/-- C4, amended (CLOCK variant): in a pool of at least one frame in which every
descriptor is valid and pinned, `readPage` of a page that is not cached throws
`BufferExceeded`, calls no file, and leaves the map, the frames and, in every
descriptor, `file`, `pageNo`, `pinCnt`, `dirty`, `valid` and `counter` as they were; a
`refbit` is as before or cleared. -/
theorem bufferExceeded_keeps_pages (s : BufMgr) (file : Nat) (pageNo : PageId)
    (answer : Option Page) (h0 : 0 < s.numBufs)
    (hall : ∀ i, i < s.numBufs → (s.desc i).valid = true ∧ 0 < (s.desc i).pinCnt)
    (hmiss : s.hashTable.lookup (some file, pageNo) = none) :
    (Clock.readPage s file pageNo answer).out = .threw .BufferExceeded ∧
      (Clock.readPage s file pageNo answer).calls = [] ∧
      (Clock.readPage s file pageNo answer).state.hashTable = s.hashTable ∧
      (Clock.readPage s file pageNo answer).state.bufPool = s.bufPool ∧
      (Clock.readPage s file pageNo answer).state.numBufs = s.numBufs ∧
      ∀ i, RefbitCleared (s.desc i) ((Clock.readPage s file pageNo answer).state.desc i) := by
  have hnone := clock_allocBufLoop_allPinned (sweepBound s + 1) s [] h0 hall
  rcases hl : Clock.allocBufLoop (sweepBound s + 1) s [] with ⟨o, t, ds⟩
  rw [hl] at hnone
  simp only at hnone
  subst hnone
  obtain ⟨hu, hd⟩ := clock_allocBufLoop_none _ _ _ _ _ hl
  have hr := clock_allocBufLoop_none_refbit _ _ _ _ _ hl
  have ho : (Clock.allocBuf s).out = .threw .BufferExceeded := by
    simp only [Clock.allocBuf, hl]
  have hs : (Clock.allocBuf s).state = t := by
    simp only [Clock.allocBuf, hl]
  have hc : (Clock.allocBuf s).calls = ds := by
    simp only [Clock.allocBuf, hl]
  rw [clock_readPage_full s file pageNo answer _ hmiss ho]
  simp only [hs, hc]
  exact ⟨trivial, hd, hu.2.2.1, hu.2.1, hu.1, hr⟩

theorem bufferExceeded_keeps_pages_witness :
    0 < pinnedPool.numBufs ∧
      (Clock.readPage pinnedPool 1 4 (some ⟨4, 40⟩)).out = .threw .BufferExceeded ∧
      (Clock.readPage pinnedPool 1 4 (some ⟨4, 40⟩)).state.hashTable = pinnedPool.hashTable :=
  ⟨by decide,
    (bufferExceeded_keeps_pages pinnedPool 1 4 (some ⟨4, 40⟩) (by decide) (by decide)
      (by decide)).1,
    (bufferExceeded_keeps_pages pinnedPool 1 4 (some ⟨4, 40⟩) (by decide) (by decide)
      (by decide)).2.2.1⟩

/-- C7, the contract of `unPinPage` (the same code in both variants), for every pool
state: it throws `HashNotFound` exactly when the key is not in the map, and
`PageNotPinned` exactly when the key maps to a frame whose pin count is 0; in both cases
the pool is unchanged. Otherwise it returns, the frame has its pin count one lower and
its `dirty` flag set to the old flag or the argument, nothing else in the pool changes,
and no call is made on a file. -/
theorem unPinPage_contract (s : BufMgr) (file : Nat) (pageNo : PageId) (dirty : Bool) :
    ((unPinPage s file pageNo dirty).out = .threw .HashNotFound ↔
      s.hashTable.lookup (some file, pageNo) = none) ∧
    ((unPinPage s file pageNo dirty).out = .threw .PageNotPinned ↔
      ∃ v, s.hashTable.lookup (some file, pageNo) = some v ∧ (s.desc v).pinCnt = 0) ∧
    ((unPinPage s file pageNo dirty).out = .threw .HashNotFound ∨
      (unPinPage s file pageNo dirty).out = .threw .PageNotPinned →
        (unPinPage s file pageNo dirty).state = s) ∧
    (∀ v, s.hashTable.lookup (some file, pageNo) = some v → (s.desc v).pinCnt ≠ 0 →
      (unPinPage s file pageNo dirty).out = .ok () ∧
      v < s.numBufs ∧
      (unPinPage s file pageNo dirty).state =
        s.setDesc v { s.desc v with
          pinCnt := (s.desc v).pinCnt - 1, dirty := (s.desc v).dirty || dirty } ∧
      ((unPinPage s file pageNo dirty).state.desc v).pinCnt + 1 = (s.desc v).pinCnt ∧
      ((unPinPage s file pageNo dirty).state.desc v).dirty = ((s.desc v).dirty || dirty) ∧
      (∀ j, j ≠ v → (unPinPage s file pageNo dirty).state.desc j = s.desc j) ∧
      (unPinPage s file pageNo dirty).state.hashTable = s.hashTable ∧
      (unPinPage s file pageNo dirty).state.bufPool = s.bufPool ∧
      (unPinPage s file pageNo dirty).state.clockHand = s.clockHand) ∧
    (unPinPage s file pageNo dirty).calls = [] := by
  rcases hl : s.hashTable.lookup (some file, pageNo) with _ | v
  · rw [unPinPage_absent s file pageNo dirty hl]
    simp
  · by_cases hp : (s.desc v).pinCnt = 0
    · rw [unPinPage_unpinned s file pageNo dirty v hl hp]
      simp [hp]
    · have hlt : v < s.numBufs := by
        by_contra hc
        rw [desc_of_le s v (Nat.le_of_not_lt hc)] at hp
        exact hp rfl
      rw [unPinPage_pinned s file pageNo dirty v hl hp]
      refine ⟨by simp, by simp [hp], by simp, ?_, rfl⟩
      intro w hw _
      have hwv : v = w := Option.some.inj hw
      subst hwv
      refine ⟨rfl, hlt, rfl, ?_, ?_, ?_, rfl, rfl, rfl⟩
      · rw [desc_setDesc_self _ _ _ hlt]
        exact Nat.sub_add_cancel (Nat.pos_of_ne_zero hp)
      · rw [desc_setDesc_self _ _ _ hlt]
      · intro j hj
        exact desc_setDesc_ne _ _ j _ hj

/-- C8 (CLOCK variant), pin and unpin: in a well-formed pool in which `(file, pageNo)`
is cached in frame `v`, `readPage` followed by `unPinPage(file, pageNo, false)` both
return, no call is made on a file, and the pool after the pair (descriptors, frames,
map, clock hand) is the pool before it; in particular the pin count is back. -/
theorem pin_unpin_roundtrip (s : BufMgr) (file : Nat) (pageNo : PageId) (answer : Option Page)
    (v : FrameId) (hw : WellFormed s) (hl : s.hashTable.lookup (some file, pageNo) = some v) :
    (Clock.readPage s file pageNo answer).out = .ok v ∧
      (Clock.readPage s file pageNo answer).calls = [] ∧
      (unPinPage (Clock.readPage s file pageNo answer).state file pageNo false).out = .ok () ∧
      (unPinPage (Clock.readPage s file pageNo answer).state file pageNo false).calls = [] ∧
      (unPinPage (Clock.readPage s file pageNo answer).state file pageNo false).state = s ∧
      ((unPinPage (Clock.readPage s file pageNo answer).state file pageNo false).state.desc
        v).pinCnt = (s.desc v).pinCnt := by
  have hlt : v < s.numBufs := lt_of_valid s v (valid_of_lookup hw hl).1
  rw [clock_readPage_hit s file pageNo answer v hl]
  simp only []
  have hl1 : (s.setDesc v { s.desc v with pinCnt := (s.desc v).pinCnt + 1 }).hashTable.lookup
      (some file, pageNo) = some v := hl
  have hp1 : ((s.setDesc v { s.desc v with pinCnt := (s.desc v).pinCnt + 1 }).desc v).pinCnt
      ≠ 0 := by
    rw [desc_setDesc_self _ _ _ hlt]
    exact Nat.succ_ne_zero _
  rw [unPinPage_pinned _ file pageNo false v hl1 hp1]
  simp only []
  have hs : (s.setDesc v { s.desc v with pinCnt := (s.desc v).pinCnt + 1 }).setDesc v
      { (s.setDesc v { s.desc v with pinCnt := (s.desc v).pinCnt + 1 }).desc v with
        pinCnt := ((s.setDesc v { s.desc v with pinCnt := (s.desc v).pinCnt + 1 }).desc
          v).pinCnt - 1,
        dirty := ((s.setDesc v { s.desc v with pinCnt := (s.desc v).pinCnt + 1 }).desc
          v).dirty || false } = s := by
    rw [setDesc_setDesc, desc_setDesc_self _ _ _ hlt]
    simp only [Nat.add_sub_cancel, Bool.or_false]
    exact setDesc_desc_self s v hlt
  rw [hs]
  exact ⟨trivial, trivial, trivial, trivial, rfl, rfl⟩

theorem pin_unpin_roundtrip_witness :
    WellFormed examplePool ∧ examplePool.hashTable.lookup (some 1, 2) = some 1 ∧
      (unPinPage (Clock.readPage examplePool 1 2 none).state 1 2 false).state = examplePool :=
  ⟨by decide, by decide,
    (pin_unpin_roundtrip examplePool 1 2 none 1 (by decide) (by decide)).2.2.2.2.1⟩

/-- C10, `disposePage` of a page that is not cached (the same code in both variants):
for every pool state whose map does not hold `(file, pageNo)`, `disposePage` returns
(the `HashNotFound` of the lookup is caught), calls `file->deletePage(pageNo)` once and
nothing else, and leaves the pool (descriptors, frames, map, clock hand) unchanged. -/
theorem disposePage_uncached (s : BufMgr) (file : Nat) (pageNo : PageId)
    (hl : s.hashTable.lookup (some file, pageNo) = none) :
    (disposePage s file pageNo).out = .ok () ∧
      (disposePage s file pageNo).calls = [FileCall.deletePage (some file) pageNo] ∧
      (disposePage s file pageNo).state = s := by
  simp only [disposePage, hl]
  exact ⟨trivial, trivial, trivial⟩

theorem disposePage_uncached_witness :
    examplePool.hashTable.lookup (some 1, 99) = none ∧
      (disposePage examplePool 1 99).out = .ok () ∧
      (disposePage examplePool 1 99).calls = [FileCall.deletePage (some 1) 99] ∧
      (disposePage examplePool 1 99).state = examplePool :=
  ⟨by decide, disposePage_uncached examplePool 1 99 (by decide)⟩

/-- C9, `allocPage` then `disposePage`: whenever `allocBuf` supplies a frame `v`,
`allocPage(file)` returns the number `p` of the page the file allocated together with
frame `v`, and `disposePage(file, p)` right after it leaves the map without the key
`(file, p)` and descriptor `v` in the free state. The calls the pair makes on the files
are the write-back of the replacement (`writePage` only), then one `allocatePage`, then
one `deletePage(p)`. It holds for the CLOCK variant and for the LRU variant. -/
theorem allocPage_then_disposePage (s : BufMgr) (file : Nat) (fresh : Page) :
    (∀ v, (Clock.allocBuf s).out = .ok v →
      (Clock.allocPage s file fresh).out = .ok (fresh.page_number, v) ∧
      (disposePage (Clock.allocPage s file fresh).state file fresh.page_number).out = .ok () ∧
      (disposePage (Clock.allocPage s file fresh).state file
        fresh.page_number).state.hashTable.lookup (some file, fresh.page_number) = none ∧
      (disposePage (Clock.allocPage s file fresh).state file fresh.page_number).state.desc v
        = BufDesc.free ∧
      (Clock.allocPage s file fresh).calls ++
        (disposePage (Clock.allocPage s file fresh).state file fresh.page_number).calls =
        evictionCalls s v ++
          [FileCall.allocatePage (some file),
            FileCall.deletePage (some file) fresh.page_number]) ∧
    (∀ v, (Lru.allocBuf s).out = .ok v →
      (Lru.allocPage s file fresh).out = .ok (fresh.page_number, v) ∧
      (disposePage (Lru.allocPage s file fresh).state file fresh.page_number).out = .ok () ∧
      (disposePage (Lru.allocPage s file fresh).state file
        fresh.page_number).state.hashTable.lookup (some file, fresh.page_number) = none ∧
      (disposePage (Lru.allocPage s file fresh).state file fresh.page_number).state.desc v
        = BufDesc.free ∧
      (Lru.allocPage s file fresh).calls ++
        (disposePage (Lru.allocPage s file fresh).state file fresh.page_number).calls =
        (Lru.allocBuf s).calls ++
          [FileCall.allocatePage (some file),
            FileCall.deletePage (some file) fresh.page_number] ∧
      ∀ c ∈ (Lru.allocBuf s).calls, ∃ f p, c = FileCall.writePage f p) := by
  constructor
  · intro v ho
    have hl : ((Clock.allocBuf s).state.installed v fresh (some file)
        fresh.page_number).hashTable.lookup (some file, fresh.page_number) = some v := by
      rw [hashTable_installed]
      exact lookup_insert_self _ _ _
    rw [clock_allocPage_ok s file fresh v ho]
    simp only [disposePage, hl]
    refine ⟨trivial, trivial, lookup_remove_self _ _, desc_setDesc_free _ _, ?_⟩
    rw [(clock_allocBuf_ok s v ho).2.2.2.2]
    simp
  · intro v ho
    have hl : ((Lru.allocBuf s).state.installed v fresh (some file)
        fresh.page_number).hashTable.lookup (some file, fresh.page_number) = some v := by
      rw [hashTable_installed]
      exact lookup_insert_self _ _ _
    rw [lru_allocPage_ok s file fresh v ho]
    simp only [disposePage, hl]
    refine ⟨trivial, trivial, lookup_remove_self _ _, desc_setDesc_free _ _, ?_,
      (lru_allocBuf_basic s).2⟩
    simp

theorem allocPage_then_disposePage_witness :
    (Clock.allocBuf examplePool).out = .ok 1 ∧
      (disposePage (Clock.allocPage examplePool 1 ⟨7, 70⟩).state 1 7).state.desc 1
        = BufDesc.free ∧
      (Clock.allocPage examplePool 1 ⟨7, 70⟩).calls ++
        (disposePage (Clock.allocPage examplePool 1 ⟨7, 70⟩).state 1 7).calls =
        [FileCall.writePage (some 1) ⟨2, 20⟩, FileCall.allocatePage (some 1),
          FileCall.deletePage (some 1) 7] :=
  ⟨by decide,
    ((allocPage_then_disposePage examplePool 1 ⟨7, 70⟩).1 1 (by decide)).2.2.2.1,
    ((allocPage_then_disposePage examplePool 1 ⟨7, 70⟩).1 1 (by decide)).2.2.2.2⟩

/-- C5, as stated, fails: in a reachable pool with page 1 of file 1 clean and page 2 of
file 1 dirty, neither pinned, `flushFile` of file 1 returns and the clean page is still
resident: descriptor 0 still has file 1, is valid, and the map still holds its key. -/
theorem flushFile_keeps_clean_page :
    WellFormed flushPool ∧
    (∀ i, i < flushPool.numBufs → (flushPool.desc i).file = some 1 →
      (flushPool.desc i).pinCnt = 0) ∧
    (flushFile flushPool (some 1)).out = .ok () ∧
    ((flushFile flushPool (some 1)).state.desc 0).file = some 1 ∧
    ((flushFile flushPool (some 1)).state.desc 0).valid = true ∧
    (flushFile flushPool (some 1)).state.hashTable.lookup (some 1, 1) = some 0 := by
  decide

/-- C5, amended (both variants have the same `flushFile`): in a well-formed pool in
which no frame of `file` is pinned, `flushFile(file)` returns, and afterwards no
descriptor of `file` is dirty: every frame that held a dirty page of the file is free
and its key has left the map, while a clean resident page of the file stays where it is,
descriptor and map entry unchanged. -/
theorem flushFile_evicts_dirty_pages (s : BufMgr) (f : Nat) (hw : WellFormed s)
    (hnp : ∀ i, i < s.numBufs → (s.desc i).file = some f → (s.desc i).pinCnt = 0) :
    (flushFile s (some f)).out = .ok () ∧
    (∀ i, i < s.numBufs → ((flushFile s (some f)).state.desc i).file = some f →
      ((flushFile s (some f)).state.desc i).dirty = false) ∧
    (∀ i, i < s.numBufs → (s.desc i).file = some f → (s.desc i).dirty = true →
      (flushFile s (some f)).state.desc i = BufDesc.free ∧
      (flushFile s (some f)).state.hashTable.lookup (some f, (s.desc i).pageNo) = none) ∧
    (∀ i, i < s.numBufs → (s.desc i).file = some f → (s.desc i).dirty = false →
      (flushFile s (some f)).state.desc i = s.desc i ∧
      (flushFile s (some f)).state.hashTable.lookup (some f, (s.desc i).pageNo) = some i) := by
  obtain ⟨o, _, _, _, D1, D2, L1⟩ := flushFile_spec s f hw hnp
  have hvalid : ∀ i, i < s.numBufs → (s.desc i).file = some f → (s.desc i).valid = true := by
    intro i hi h3
    by_contra hc
    have := hw.2.2.2.2 i hi (by simpa using hc)
    rw [this] at h3
    exact Option.noConfusion h3
  refine ⟨o, ?_, ?_, ?_⟩
  · intro i hi hfile
    by_cases ht : isFlushTarget s (some f) i = true
    · rw [(D2 i hi ht).1] at hfile
      exact Option.noConfusion hfile
    · rw [D1 i (fun hc => ht hc.2)] at hfile ⊢
      by_contra hd
      exact ht (by simp [isFlushTarget, hfile, hvalid i hi hfile, hd])
  · intro i hi hfile hdirty
    have ht : isFlushTarget s (some f) i = true := by
      simp [isFlushTarget, hfile, hvalid i hi hfile, hdirty]
    have := D2 i hi ht
    rw [hfile] at this
    exact this
  · intro i hi hfile hclean
    have ht : ¬ isFlushTarget s (some f) i = true := by
      simp [isFlushTarget, hclean]
    have hl := (hw.1 i hi).1 (hvalid i hi hfile)
    rw [hfile] at hl
    refine ⟨D1 i (fun hc => ht hc.2), ?_⟩
    rw [L1 _ ?_]
    · exact hl
    · intro j hj htj hkey
      have hjv : (s.desc j).valid = true := by
        simp only [isFlushTarget, decide_eq_true_eq] at htj
        exact htj.2.1
      have hlj := (hw.1 j hj).1 hjv
      rw [hkey, hl] at hlj
      have hij : i = j := Option.some.inj hlj
      subst hij
      exact ht htj

theorem flushFile_evicts_dirty_pages_witness :
    WellFormed flushPool ∧
      (∀ i, i < flushPool.numBufs → (flushPool.desc i).file = some 1 →
        (flushPool.desc i).pinCnt = 0) ∧
      (flushFile flushPool (some 1)).out = .ok () :=
  ⟨by decide, by decide, (flushFile_evicts_dirty_pages flushPool 1 (by decide) (by decide)).1⟩

/-- C6: in a well-formed pool in which no frame of `file` is pinned, the calls
`flushFile(file)` makes on the files are exactly one `writePage` per frame that held a
valid, dirty page of `file`, with the contents of that frame, by increasing frame index,
and nothing else; the descriptors that do not belong to `file`, the map entries of other
files, the frames and the clock hand are unchanged. -/
theorem flushFile_writes_each_dirty_page_once (s : BufMgr) (f : Nat) (hw : WellFormed s)
    (hnp : ∀ i, i < s.numBufs → (s.desc i).file = some f → (s.desc i).pinCnt = 0) :
    (flushFile s (some f)).calls = flushWrites s (some f) ∧
    (∀ i, (s.desc i).file ≠ some f → (flushFile s (some f)).state.desc i = s.desc i) ∧
    (∀ k : Key, k.1 ≠ some f →
      (flushFile s (some f)).state.hashTable.lookup k = s.hashTable.lookup k) ∧
    (flushFile s (some f)).state.bufPool = s.bufPool ∧
    (flushFile s (some f)).state.clockHand = s.clockHand := by
  obtain ⟨_, c, b, h, D1, _, L1⟩ := flushFile_spec s f hw hnp
  refine ⟨c, ?_, ?_, b, h⟩
  · intro i hfile
    refine D1 i (fun hc => hfile ?_)
    have := hc.2
    simp only [isFlushTarget, decide_eq_true_eq] at this
    exact this.1
  · intro k hk
    refine L1 k (fun j _ htj hkey => hk ?_)
    simp only [isFlushTarget, decide_eq_true_eq] at htj
    rw [← hkey]
    exact htj.1

theorem flushFile_writes_each_dirty_page_once_witness :
    WellFormed flushPool ∧
      (∀ i, i < flushPool.numBufs → (flushPool.desc i).file = some 1 →
        (flushPool.desc i).pinCnt = 0) ∧
      (flushFile flushPool (some 1)).calls = [FileCall.writePage (some 1) ⟨2, 20⟩] :=
  ⟨by decide, by decide,
    (flushFile_writes_each_dirty_page_once flushPool 1 (by decide) (by decide)).1⟩

/-- C11 (CLOCK variant), write-back on eviction: whenever `allocBuf` returns frame `v`,
the calls it made on the files are one `writePage` of the contents of frame `v` to the
file of frame `v` if that frame was valid and dirty, and no call at all if it was clean
or not valid; the descriptor it returns is free, so its `dirty` flag is false. -/
theorem clock_writeback_on_eviction (s : BufMgr) (v : FrameId)
    (ho : (Clock.allocBuf s).out = .ok v) :
    ((s.desc v).valid = true → (s.desc v).dirty = true →
      (Clock.allocBuf s).calls = [FileCall.writePage (s.desc v).file (s.page v)]) ∧
    ((s.desc v).valid = false ∨ (s.desc v).dirty = false → (Clock.allocBuf s).calls = []) ∧
    ((Clock.allocBuf s).state.desc v).dirty = false ∧
    (Clock.allocBuf s).state.desc v = BufDesc.free := by
  obtain ⟨_, _, _, d, c⟩ := clock_allocBuf_ok s v ho
  refine ⟨fun h1 h2 => ?_, fun h => ?_, by rw [d]; rfl, d⟩
  · rw [c, evictionCalls, if_pos ⟨h1, h2⟩]
  · rw [c, evictionCalls, if_neg]
    rintro ⟨h1, h2⟩
    rcases h with h | h
    · rw [h] at h1
      exact Bool.noConfusion h1
    · rw [h] at h2
      exact Bool.noConfusion h2

theorem clock_writeback_on_eviction_witness :
    (Clock.allocBuf examplePool).out = .ok 1 ∧
      (Clock.allocBuf examplePool).calls = [FileCall.writePage (some 1) ⟨2, 20⟩] ∧
      ((Clock.allocBuf examplePool).state.desc 1).dirty = false :=
  ⟨by decide,
    (clock_writeback_on_eviction examplePool 1 (by decide)).1 (by decide) (by decide),
    (clock_writeback_on_eviction examplePool 1 (by decide)).2.2.1⟩

/-- C12, the destructor (the same code in both variants): in a well-formed pool with
exactly `k` descriptors that are valid and dirty, tearing the pool down makes exactly
`k` calls on the files, one `writePage` per such frame, by increasing index, with the
contents of that frame to the file of that frame; pin counts play no part. -/
theorem destructor_writes_dirty_frames (s : BufMgr) (k : Nat) (hw : WellFormed s)
    (hk : (dirtyFrames s).length = k) :
    (destructor s).length = k ∧
      destructor s =
        (dirtyFrames s).map (fun i => FileCall.writePage (s.desc i).file (s.page i)) := by
  have he : destructor s =
      (dirtyFrames s).map (fun i => FileCall.writePage (s.desc i).file (s.page i)) := by
    rw [destructor, destructorFrom_eq, dirtyFrames, List.range_eq_range']
    congr 1
    apply List.filter_congr
    intro x hx
    rw [List.mem_range'_1] at hx
    by_cases hd : (s.desc x).dirty = true
    · rw [hd, hw.2.2.2.1 x (by omega) hd]
      rfl
    · have hd1 : (s.desc x).dirty = false := by simpa using hd
      rw [hd1, Bool.and_false]
  refine ⟨?_, he⟩
  rw [he, List.length_map]
  exact hk

theorem destructor_writes_dirty_frames_witness :
    WellFormed examplePool ∧ (dirtyFrames examplePool).length = 1 ∧
      destructor examplePool = [FileCall.writePage (some 1) ⟨2, 20⟩] :=
  ⟨by decide, by decide,
    (destructor_writes_dirty_frames examplePool 1 (by decide) (by decide)).2⟩

/-- C13, `flushFile` that meets a pinned frame (the same code in both variants): in a
well-formed pool, let `j` be the lowest frame of `file` that is pinned. Then
`flushFile(file)` throws `PagePinned`; the calls it made are one `writePage` for each
frame below `j` that held a valid, dirty page of the file, by increasing index; each of
those frames is free and its key has left the map; every descriptor from `j` on is as it
was, and the map still sends its key to it. -/
theorem flushFile_stops_at_pinned (s : BufMgr) (f : Nat) (j : Nat) (hw : WellFormed s)
    (hj : j < s.numBufs) (hfile : (s.desc j).file = some f) (hpin : 0 < (s.desc j).pinCnt)
    (hlow : ∀ i : Nat, i < j → (s.desc i).file = some f → (s.desc i).pinCnt = 0) :
    (flushFile s (some f)).out = .threw .PagePinned ∧
    (flushFile s (some f)).calls =
      ((List.range j).filter (isFlushTarget s (some f))).map
        (fun i => FileCall.writePage (some f) (s.page i)) ∧
    (∀ i : Nat, i < j → isFlushTarget s (some f) i = true →
      (flushFile s (some f)).state.desc i = BufDesc.free ∧
      (flushFile s (some f)).state.hashTable.lookup ((s.desc i).file, (s.desc i).pageNo)
        = none) ∧
    (∀ i : Nat, j ≤ i → (flushFile s (some f)).state.desc i = s.desc i) ∧
    (∀ i : Nat, j ≤ i → i < s.numBufs → (s.desc i).valid = true →
      (flushFile s (some f)).state.hashTable.lookup ((s.desc i).file, (s.desc i).pageNo)
        = some i) := by
  have H : ∀ i : Nat, 0 ≤ i → i < 0 + j → (s.desc i).file = some f →
      (s.desc i).pinCnt = 0 ∧ (s.desc i).valid = true := by
    intro i _ h2 h3
    have hi : i < j := by omega
    refine ⟨hlow i hi h3, ?_⟩
    by_contra hc
    have := hw.2.2.2.2 i (by omega) (by simpa using hc)
    rw [this] at h3
    exact Option.noConfusion h3
  obtain ⟨o, c, _, _, D1, D2, L1, _⟩ := flushFileFrom_spec f j 0 s [] H
  obtain ⟨m, hm⟩ : ∃ m, s.numBufs = j + (m + 1) := ⟨s.numBufs - j - 1, by omega⟩
  have hdj : (flushFileFrom (some f) j 0 s []).state.desc j = s.desc j :=
    D1 j (fun hc => by omega)
  have hff : flushFile s (some f) =
      ⟨.threw .PagePinned, (flushFileFrom (some f) j 0 s []).state,
        (flushFileFrom (some f) j 0 s []).calls⟩ := by
    rw [flushFile, hm, flushFileFrom_split (some f) j (m + 1) 0 s [] o, Nat.zero_add]
    simp only [flushFileFrom]
    rw [hdj, if_pos hfile, if_pos hpin]
  rw [hff]
  refine ⟨rfl, ?_, ?_, ?_, ?_⟩
  · show (flushFileFrom (some f) j 0 s []).calls = _
    rw [c, List.range_eq_range']
    rfl
  · intro i hi ht
    exact D2 i (Nat.zero_le i) (by omega) ht
  · intro i hi
    exact D1 i (fun hc => by omega)
  · intro i hi hiN hv
    have hl := (hw.1 i hiN).1 hv
    show BufHashTbl.lookup _ (flushFileFrom (some f) j 0 s []).state.hashTable = _
    rw [L1 _ ?_]
    · exact hl
    · intro t _ ht2 htt hkey
      have htv : (s.desc t).valid = true := by
        simp only [isFlushTarget, decide_eq_true_eq] at htt
        exact htt.2.1
      have hlt := (hw.1 t (by omega)).1 htv
      rw [hkey, hl] at hlt
      have : i = t := Option.some.inj hlt
      omega

theorem flushFile_stops_at_pinned_witness :
    WellFormed partlyPinnedPool ∧ 1 < partlyPinnedPool.numBufs ∧
      (flushFile partlyPinnedPool (some 1)).out = .threw .PagePinned ∧
      (flushFile partlyPinnedPool (some 1)).calls = [FileCall.writePage (some 1) ⟨1, 10⟩] ∧
      (flushFile partlyPinnedPool (some 1)).state.desc 2 = partlyPinnedPool.desc 2 :=
  ⟨by decide, by decide,
    (flushFile_stops_at_pinned partlyPinnedPool 1 1 (by decide) (by decide) (by decide)
      (by decide) (by decide)).1,
    (flushFile_stops_at_pinned partlyPinnedPool 1 1 (by decide) (by decide) (by decide)
      (by decide) (by decide)).2.1,
    (flushFile_stops_at_pinned partlyPinnedPool 1 1 (by decide) (by decide) (by decide)
      (by decide) (by decide)).2.2.2.1 2 (by decide)⟩

/-- C14, a failed disk read, in both variants: in a well-formed pool, when
`(file, pageNo)` is not cached, `allocBuf` returns frame `v` and `file->readPage` throws,
`readPage` throws the exception of the file, descriptor `v` is free, the map holds no
entry for `(file, pageNo)` and no entry that points to `v`, and the pool is still well
formed. The LRU part is for a pool of at least one frame whose `2*numBufs` fits 32
bits. -/
theorem failed_read_leaves_pool_consistent (s : BufMgr) (file : Nat) (pageNo : PageId)
    (hw : WellFormed s) (hmiss : s.hashTable.lookup (some file, pageNo) = none) :
    (∀ v, (Clock.allocBuf s).out = .ok v →
      (Clock.readPage s file pageNo none).out = .threw .InvalidPage ∧
      (Clock.readPage s file pageNo none).state.desc v = BufDesc.free ∧
      (Clock.readPage s file pageNo none).state.hashTable.lookup (some file, pageNo) = none ∧
      (∀ e ∈ (Clock.readPage s file pageNo none).state.hashTable, e.2 ≠ v) ∧
      WellFormed (Clock.readPage s file pageNo none).state) ∧
    (0 < s.numBufs → s.numBufs < 2147483648 → ∀ v, (Lru.allocBuf s).out = .ok v →
      (Lru.readPage s file pageNo none).out = .threw .InvalidPage ∧
      (Lru.readPage s file pageNo none).state.desc v = BufDesc.free ∧
      (Lru.readPage s file pageNo none).state.hashTable.lookup (some file, pageNo) = none ∧
      (∀ e ∈ (Lru.readPage s file pageNo none).state.hashTable, e.2 ≠ v) ∧
      WellFormed (Lru.readPage s file pageNo none).state) := by
  constructor
  · intro v ho
    obtain ⟨_, _, c, d, _⟩ := clock_allocBuf_ok s v ho
    have hwr := clock_allocBuf_wf s hw
    rw [clock_readPage_fail s file pageNo v hmiss ho]
    exact ⟨rfl, d, c.lookup_absent _ hmiss, no_entry_of_invalid hwr (by rw [d]; rfl), hwr⟩
  · intro h0 h32 v ho
    obtain ⟨hv, c, _, d, _⟩ := lru_allocBuf_ok s v h0 h32 ho
    have hwr := lru_allocBuf_wf s h0 h32 hw
    rw [lru_readPage_fail s file pageNo v hmiss ho]
    refine ⟨rfl, hwr.2.2.2.2 v ?_ d, c.lookup_none _ hmiss, no_entry_of_invalid hwr d, hwr⟩
    rw [(lru_allocBuf_basic s).1]
    exact hv

theorem failed_read_leaves_pool_consistent_witness :
    WellFormed examplePool ∧ examplePool.hashTable.lookup (some 1, 3) = none ∧
      (Clock.allocBuf examplePool).out = .ok 1 ∧
      (Clock.readPage examplePool 1 3 none).state.desc 1 = BufDesc.free ∧
      (Lru.readPage examplePool 1 3 none).state.desc 1 = BufDesc.free :=
  ⟨by decide, by decide, by decide,
    ((failed_read_leaves_pool_consistent examplePool 1 3 (by decide) (by decide)).1 1
      (by decide)).2.1,
    ((failed_read_leaves_pool_consistent examplePool 1 3 (by decide) (by decide)).2
      (by decide) (by decide) 1 (by decide)).2.1⟩

/-- C15 (CLOCK variant): in a pool of at least one frame whose `2*numBufs` fits 32 bits,
`allocBuf` throws `BufferExceeded` exactly when every descriptor is valid and pinned;
so whenever some frame is not valid or has pin count 0, `allocBuf` returns a frame,
whatever the `refbit`s and the clock hand are. -/
theorem clock_bufferExceeded_iff_all_pinned (s : BufMgr) (h0 : 0 < s.numBufs)
    (h32 : s.numBufs < 2147483648) :
    ((Clock.allocBuf s).out = .threw .BufferExceeded ↔
      ∀ i, i < s.numBufs → (s.desc i).valid = true ∧ 0 < (s.desc i).pinCnt) ∧
    ((∃ i, i < s.numBufs ∧ ((s.desc i).valid = false ∨ (s.desc i).pinCnt = 0)) →
      ∃ v, (Clock.allocBuf s).out = .ok v) := by
  refine ⟨⟨fun hthrew i hi => ?_, clock_allocBuf_threw_of_allPinned s h0⟩,
    fun ⟨i, hi, hc⟩ => clock_allocBuf_ok_of_candidate s h32 i hi hc⟩
  by_contra hcon
  have hc : (s.desc i).valid = false ∨ (s.desc i).pinCnt = 0 := by
    by_cases hv : (s.desc i).valid = true
    · right
      by_contra hp
      exact hcon ⟨hv, Nat.pos_of_ne_zero hp⟩
    · left
      simpa using hv
  obtain ⟨v, hv⟩ := clock_allocBuf_ok_of_candidate s h32 i hi hc
  rw [hv] at hthrew
  exact Outcome.noConfusion hthrew

theorem clock_bufferExceeded_iff_all_pinned_witness :
    0 < examplePool.numBufs ∧ examplePool.numBufs < 2147483648 ∧
      (∃ v, (Clock.allocBuf examplePool).out = .ok v) ∧
      ((Clock.allocBuf pinnedPool).out = .threw .BufferExceeded ↔
        ∀ i, i < pinnedPool.numBufs →
          (pinnedPool.desc i).valid = true ∧ 0 < (pinnedPool.desc i).pinCnt) :=
  ⟨by decide, by decide,
    (clock_bufferExceeded_iff_all_pinned examplePool (by decide) (by decide)).2
      ⟨1, by decide, Or.inr (by decide)⟩,
    (clock_bufferExceeded_iff_all_pinned pinnedPool (by decide) (by decide)).1⟩

/-- C16, the contract of the replacement, in both variants: in every pool state reached
from a freshly constructed pool of `n ≥ 1` frames through the public operations (every
`allocatePage` answering with a page new to the pool), whenever `allocBuf` returns `v`,
`v` is a frame of the pool, its descriptor is free, no map entry points to `v`, and the
map lost the key `v` held, if any, and no other. The LRU part is for `n < 2^31`. -/
theorem allocBuf_hands_out_free_frame (n : Nat) (hn : 1 ≤ n) (ops : List Op) :
    (Clock.Admissible (BufMgr.init n) ops →
      ∀ v, (Clock.allocBuf (Clock.run (BufMgr.init n) ops)).out = .ok v →
        v < n ∧
          HandsOut (Clock.run (BufMgr.init n) ops)
            (Clock.allocBuf (Clock.run (BufMgr.init n) ops)) v) ∧
    (n < 2147483648 → Lru.Admissible (BufMgr.init n) ops →
      ∀ v, (Lru.allocBuf (Lru.run (BufMgr.init n) ops)).out = .ok v →
        v < n ∧
          HandsOut (Lru.run (BufMgr.init n) ops)
            (Lru.allocBuf (Lru.run (BufMgr.init n) ops)) v) := by
  have hn0 : 0 < (BufMgr.init n).numBufs := by
    rw [numBufs_init]
    exact hn
  constructor
  · intro ha v ho
    have hw := clock_run_wf ops _ (init_wf n) hn0 ha
    have hN : (Clock.run (BufMgr.init n) ops).numBufs = n :=
      (clock_run_numBufs ops _).trans (numBufs_init n)
    have h := clock_handsOut _ hw (by rw [hN]; exact hn) v ho
    exact ⟨hN ▸ h.1, h⟩
  · intro h32 ha v ho
    obtain ⟨hw, hN1⟩ := lru_run_wf ops _ (init_wf n) hn0 (by rw [numBufs_init]; exact h32) ha
    have hN : (Lru.run (BufMgr.init n) ops).numBufs = n := hN1.trans (numBufs_init n)
    have h := lru_handsOut _ hw (by rw [hN]; exact hn) (by rw [hN]; exact h32) v ho
    exact ⟨hN ▸ h.1, h⟩

theorem allocBuf_hands_out_free_frame_witness :
    1 ≤ 2 ∧ Clock.Admissible (BufMgr.init 2) fillOps ∧ Lru.Admissible (BufMgr.init 2) fillOps ∧
      (Clock.allocBuf (Clock.run (BufMgr.init 2) fillOps)).out = .ok 0 ∧
      (Lru.allocBuf (Lru.run (BufMgr.init 2) fillOps)).out = .ok 0 ∧
      HandsOut (Clock.run (BufMgr.init 2) fillOps)
        (Clock.allocBuf (Clock.run (BufMgr.init 2) fillOps)) 0 ∧
      HandsOut (Lru.run (BufMgr.init 2) fillOps)
        (Lru.allocBuf (Lru.run (BufMgr.init 2) fillOps)) 0 :=
  ⟨by decide, ⟨trivial, trivial, trivial, trivial, trivial⟩,
    ⟨trivial, trivial, trivial, trivial, trivial⟩, by decide, by decide,
    ((allocBuf_hands_out_free_frame 2 (by decide) fillOps).1
      ⟨trivial, trivial, trivial, trivial, trivial⟩ 0 (by decide)).2,
    ((allocBuf_hands_out_free_frame 2 (by decide) fillOps).2 (by decide)
      ⟨trivial, trivial, trivial, trivial, trivial⟩ 0 (by decide)).2⟩

/-- Claim C17 (it fails in the code). The replacement of the LRU variant does not pick
the frame with the greatest counter: the loop `while ((bufCount<2*numBufs)&&(max==-1))`
ends as soon as one candidate is recorded. In the reachable, well-formed pool
`stalePool` all three descriptors are valid, frames 0 and 2 are valid, not pinned, with
`refbit` false, `allocBuf` succeeds with frame 2, and the counter of frame 0 is
strictly larger than the counter of frame 2. -/
theorem lru_victim_not_stalest :
    WellFormed stalePool ∧ stalePool.numBufs = 3 ∧
      (∀ i, i < stalePool.numBufs → (stalePool.desc i).valid = true) ∧
      (Lru.allocBuf stalePool).out = .ok 2 ∧
      ((stalePool.desc 0).valid = true ∧ (stalePool.desc 0).pinCnt = 0 ∧
        (stalePool.desc 0).refbit = false) ∧
      ((stalePool.desc 2).valid = true ∧ (stalePool.desc 2).pinCnt = 0 ∧
        (stalePool.desc 2).refbit = false) ∧
      (stalePool.desc 0).counter = 9 ∧ (stalePool.desc 2).counter = 5 ∧
      (stalePool.desc 2).counter < (stalePool.desc 0).counter := by
  decide

/-- C18 (LRU variant), the free-slot path: in every pool state with a descriptor that is
not valid, `allocBuf` returns the lowest index `v` whose descriptor is not valid; it
makes no call on the files, leaves the map, the frames and the clock hand as they were,
and every descriptor is as before, except that `counter` is one more on each valid
descriptor; so nothing is evicted. -/
theorem lru_free_slot_fast_path (s : BufMgr) (i : Nat) (hi : i < s.numBufs)
    (hv : (s.desc i).valid = false) :
    ∃ v : Nat, (Lru.allocBuf s).out = .ok v ∧ v < s.numBufs ∧ (s.desc v).valid = false ∧
      (∀ j : Nat, j < v → (s.desc j).valid = true) ∧
      (Lru.allocBuf s).calls = [] ∧
      (Lru.allocBuf s).state.hashTable = s.hashTable ∧
      (Lru.allocBuf s).state.clockHand = s.clockHand ∧
      (Lru.allocBuf s).state.bufPool = s.bufPool ∧
      (Lru.allocBuf s).state.numBufs = s.numBufs ∧
      ∀ j, (Lru.allocBuf s).state.desc j =
        if (s.desc j).valid = true then { s.desc j with counter := (s.desc j).counter + 1 }
        else s.desc j := by
  have hfull := lru_filledFrames_lt s i hi hv
  obtain ⟨_, f2, f3⟩ := lru_firstFree_spec _ 0 hfull
  have hlow := lru_firstFree_lowest (Lru.bumpCounters s).bufDescTable 0
  have hu := lru_unmoved_bumpCounters s
  have hst : (Lru.allocBuf s).state = Lru.bumpCounters s := by
    simp only [Lru.allocBuf, hfull, if_true]
  have hout : (Lru.allocBuf s).out = .ok (Lru.firstFree (Lru.bumpCounters s).bufDescTable 0) := by
    simp only [Lru.allocBuf, hfull, if_true]
  have hcalls : (Lru.allocBuf s).calls = [] := by
    simp only [Lru.allocBuf, hfull, if_true]
  have hval : ∀ j, ((Lru.bumpCounters s).desc j).valid = (s.desc j).valid :=
    fun j => (hu.2.2.2 j).2.2.2.2
  refine ⟨_, hout, ?_, ?_, ?_, hcalls, ?_, ?_, ?_, ?_, ?_⟩
  · rw [← lru_numBufs_bumpCounters s]
    simpa using f2
  · rw [← hval]
    simpa [BufMgr.desc] using f3
  · intro j hj
    rw [← hval]
    exact hlow j (by simpa using hj)
  · rw [hst]
    rfl
  · rw [hst]
    rfl
  · rw [hst]
    rfl
  · rw [hst]
    exact lru_numBufs_bumpCounters s
  · intro j
    rw [hst]
    exact lru_desc_bumpCounters s j

theorem lru_free_slot_fast_path_witness :
    1 < halfPool.numBufs ∧ (halfPool.desc 1).valid = false ∧
      ∃ v : Nat, (Lru.allocBuf halfPool).out = .ok v ∧ v < halfPool.numBufs ∧
        (halfPool.desc v).valid = false ∧
        (∀ j : Nat, j < v → (halfPool.desc j).valid = true) ∧
        (Lru.allocBuf halfPool).calls = [] ∧
        (Lru.allocBuf halfPool).state.hashTable = halfPool.hashTable ∧
        (Lru.allocBuf halfPool).state.clockHand = halfPool.clockHand ∧
        (Lru.allocBuf halfPool).state.bufPool = halfPool.bufPool ∧
        (Lru.allocBuf halfPool).state.numBufs = halfPool.numBufs ∧
        ∀ j, (Lru.allocBuf halfPool).state.desc j =
          if (halfPool.desc j).valid = true then
            { halfPool.desc j with counter := (halfPool.desc j).counter + 1 }
          else halfPool.desc j :=
  ⟨by decide, by decide, lru_free_slot_fast_path halfPool 1 (by decide) (by decide)⟩

/-- Claim C19 (it fails in the code), the length of a sweep of the CLOCK variant, where a
step is one pass through the body of the loop (one `advanceClock`, one inspection). In
a pool of `N ≥ 1` frames whose `2*N` fits 32 bits, a sweep takes at most `2*N + 1`
steps; one that returns a frame takes at most `2*N`; and one that fails with
`BufferExceeded` has taken exactly `2*N + 1` steps, one more than the `2*N` of the
claim, so the clock hand has advanced `2*N + 1` times: the loop condition is
`buffsChecked <= 2*numBufs`. -/
theorem clock_failed_sweep_takes_one_more_step (s : BufMgr) (h0 : 0 < s.numBufs)
    (h32 : s.numBufs < 2147483648) :
    Clock.sweepSteps (sweepBound s + 1) s ≤ 2 * s.numBufs + 1 ∧
    (∀ v, (Clock.allocBuf s).out = .ok v →
      Clock.sweepSteps (sweepBound s + 1) s ≤ 2 * s.numBufs) ∧
    ((Clock.allocBuf s).out = .threw .BufferExceeded →
      Clock.sweepSteps (sweepBound s + 1) s = 2 * s.numBufs + 1 ∧
      (Clock.allocBuf s).state.clockHand =
        handAfter s.numBufs (2 * s.numBufs + 1) s.clockHand) := by
  have hsb := sweepBound_eq s h32
  refine ⟨hsb ▸ clock_sweepSteps_le _ s, fun v ho => ?_, fun hf => ?_⟩
  · have hcand : ∃ i : Nat, i < s.numBufs ∧
        ((s.desc i).valid = false ∨ (s.desc i).pinCnt = 0) := by
      by_contra hcon
      have hall : ∀ i, i < s.numBufs → (s.desc i).valid = true ∧ 0 < (s.desc i).pinCnt := by
        intro i hi
        by_cases hv : (s.desc i).valid = true
        · refine ⟨hv, Nat.pos_of_ne_zero fun hp => hcon ⟨i, hi, Or.inr hp⟩⟩
        · exact absurd ⟨i, hi, Or.inl (by simpa using hv)⟩ hcon
      rw [clock_allocBuf_threw_of_allPinned s h0 hall] at ho
      exact Outcome.noConfusion ho
    obtain ⟨i, hi, hc⟩ := hcand
    obtain ⟨d, hd1, hdN, hreach⟩ := handAfter_reaches s.numBufs (by omega) s.clockHand i hi
    have hne := clock_allocBufLoop_candidate (2 * s.numBufs) s [] i d (by omega) hi hd1
      (by omega) hreach hc
    rw [hsb, clock_sweepSteps_some (2 * s.numBufs) s [] 1 hne]
    exact clock_sweepSteps_le _ s
  · rcases hl : Clock.allocBufLoop (sweepBound s + 1) s [] with ⟨_ | w, t, ds⟩
    · obtain ⟨i1, i2⟩ := clock_sweepSteps_none (sweepBound s + 1) s [] (by rw [hl])
      rw [hl] at i2
      refine ⟨hsb ▸ i1, ?_⟩
      simp only [Clock.allocBuf, hl]
      rw [← hsb]
      exact i2
    · simp [Clock.allocBuf, hl] at hf

theorem clock_failed_sweep_takes_one_more_step_witness :
    pinnedPool.numBufs = 3 ∧ pinnedPool.clockHand = 2 ∧
      (Clock.allocBuf pinnedPool).out = .threw .BufferExceeded ∧
      Clock.sweepSteps (sweepBound pinnedPool + 1) pinnedPool = 2 * pinnedPool.numBufs + 1 ∧
      (Clock.allocBuf pinnedPool).state.clockHand =
        handAfter pinnedPool.numBufs (2 * pinnedPool.numBufs + 1) pinnedPool.clockHand ∧
      handAfter 3 7 2 = 0 ∧ handAfter 3 6 2 = 2 :=
  ⟨by decide, by decide, by decide,
    ((clock_failed_sweep_takes_one_more_step pinnedPool (by decide) (by decide)).2.2
      (by decide)).1,
    ((clock_failed_sweep_takes_one_more_step pinnedPool (by decide) (by decide)).2.2
      (by decide)).2,
    by decide, by decide⟩

/-- C20 (CLOCK variant), the order of eviction on a freshly filled pool. For `n ≥ 1`
frames (`2*n` fitting 32 bits), from the constructed pool (clock hand `n - 1`): reading
the `n` distinct pages `ps` of a file puts the `k`-th page read in frame `k - 1`, pinned
once, with its map entry. After every page is unpinned (with any `dirty` flags), a
`readPage` of a page `q` that is not among them: the first `n` iterations of the sweep
choose nothing and clear the `refbit` of all `n` frames, the next iteration chooses
frame 0; the call returns frame 0, which now holds `q`, pinned once; every other page
is still in its frame, with its map entry, with `refbit` false; and the map has no
entry for the first page read. -/
theorem clock_eviction_order_on_fresh_pool (n : Nat) (hn : 1 ≤ n) (h32 : n < 2147483648)
    (f : Nat) (content : PageId → Page) (dirty : PageId → Bool) (ps : List PageId)
    (hlen : ps.length = n) (hnd : ps.Nodup) (q : PageId) (hq : q ∉ ps) (pg : Page) :
    (BufMgr.init n).clockHand = n - 1 ∧
    (∀ (k : Nat) (p : PageId), ps[k]? = some p →
      (Clock.filledPool n f content ps).hashTable.lookup (some f, p) = some k ∧
      (Clock.filledPool n f content ps).page k = content p ∧
      (Clock.filledPool n f content ps).desc k =
        { file := some f, pageNo := p, pinCnt := 1, dirty := false, valid := true,
          refbit := true, counter := 0 }) ∧
    (∀ (k : Nat) (p : PageId), ps[k]? = some p →
      (Clock.idlePool n f content dirty ps).hashTable.lookup (some f, p) = some k ∧
      (Clock.idlePool n f content dirty ps).desc k =
        { file := some f, pageNo := p, pinCnt := 0, dirty := dirty p, valid := true,
          refbit := true, counter := 0 }) ∧
    (∃ t : BufMgr,
      Clock.allocBufLoop n (Clock.idlePool n f content dirty ps) [] = (none, t, []) ∧
      ∀ k : Nat, k < n →
        ((Clock.idlePool n f content dirty ps).desc k).refbit = true ∧
          (t.desc k).refbit = false) ∧
    (Clock.allocBufLoop (n + 1) (Clock.idlePool n f content dirty ps) []).1 = some 0 ∧
    (Clock.readPage (Clock.idlePool n f content dirty ps) f q (some pg)).out = .ok 0 ∧
    (Clock.readPage (Clock.idlePool n f content dirty ps) f q (some pg)).state.desc 0 =
      { file := some f, pageNo := q, pinCnt := 1, dirty := false, valid := true,
        refbit := true, counter := 0 } ∧
    (Clock.readPage (Clock.idlePool n f content dirty ps) f q (some pg)).state.page 0 = pg ∧
    (Clock.readPage (Clock.idlePool n f content dirty ps) f q
      (some pg)).state.hashTable.lookup (some f, q) = some 0 ∧
    (∀ (k : Nat) (p : PageId), ps[k]? = some p → 1 ≤ k →
      (Clock.readPage (Clock.idlePool n f content dirty ps) f q
        (some pg)).state.hashTable.lookup (some f, p) = some k ∧
      (Clock.readPage (Clock.idlePool n f content dirty ps) f q (some pg)).state.page k =
        content p ∧
      (Clock.readPage (Clock.idlePool n f content dirty ps) f q (some pg)).state.desc k =
        { file := some f, pageNo := p, pinCnt := 0, dirty := dirty p, valid := true,
          refbit := false, counter := 0 }) ∧
    (∀ p : PageId, ps[0]? = some p →
      (Clock.readPage (Clock.idlePool n f content dirty ps) f q
        (some pg)).state.hashTable.lookup (some f, p) = none) := by
  obtain ⟨fN, fB, fH, fw, ffill, ffree⟩ :=
    clock_filledPool_spec n f content ps hn (by omega) hnd hlen
  obtain ⟨iN, iB, iH, iT, idone, _⟩ :=
    clock_idlePool_spec n f content dirty ps hn (by omega) hnd hlen
  have hkn : ∀ (k : Nat) (p : PageId), ps[k]? = some p → k < n :=
    fun k p hk => hlen ▸ lt_of_getElem?_some ps k p hk
  have hidle : ∀ (k : Nat) (p : PageId), ps[k]? = some p →
      (Clock.idlePool n f content dirty ps).desc k =
        { file := some f, pageNo := p, pinCnt := 0, dirty := dirty p, valid := true,
          refbit := true, counter := 0 } :=
    fun k p hk => idone k p hk (hkn k p hk)
  have hat : ∀ k : Nat, k < n → ps[k]? = some (ps.getD k 0) := by
    intro k hk
    have hk1 : k < ps.length := by omega
    simp [List.getD_eq_getElem?_getD, List.getElem?_eq_getElem hk1]
  have hall : ∀ k : Nat, k < n →
      ((Clock.idlePool n f content dirty ps).desc k).valid = true ∧
        ((Clock.idlePool n f content dirty ps).desc k).refbit = true := by
    intro k hk
    rw [hidle k _ (hat k hk)]
    exact ⟨rfl, rfl⟩
  have hpin : ((Clock.idlePool n f content dirty ps).desc 0).pinCnt = 0 := by
    rw [hidle 0 _ (hat 0 hn)]
  obtain ⟨⟨t, s1, s2⟩, s3, s4, s5, s6, s7, s8, s9⟩ :=
    clock_allocBuf_all_referenced n hn h32 (Clock.idlePool n f content dirty ps)
      (iN.trans fN) (iH.trans fH) hall hpin
  have hmiss : (Clock.idlePool n f content dirty ps).hashTable.lookup (some f, q) = none := by
    rw [iT]
    rcases hl : (Clock.filledPool n f content ps).hashTable.lookup (some f, q) with _ | v
    · rfl
    · exfalso
      obtain ⟨a, _, c⟩ := valid_of_lookup fw hl
      have hv : v < n := by
        by_contra hc
        rw [ffree v (Nat.le_of_not_lt hc)] at a
        exact Bool.noConfusion a
      have hv1 : v < ps.length := hlen.symm ▸ hv
      obtain ⟨d0, _, _⟩ := ffill v ps[v] (List.getElem?_eq_getElem hv1) hv
      rw [d0] at c
      have hc : ps[v] = q := c
      exact hq (hc ▸ List.getElem_mem hv1)
  have hne : ∀ (k : Nat) (p : PageId), ps[k]? = some p → (some f, p) ≠ ((some f, q) : Key) := by
    intro k p hk he
    have hpq : p = q := congrArg Prod.snd he
    have hk1 : k < ps.length := lt_of_getElem?_some ps k p hk
    have hmem : p ∈ ps := by
      rw [List.getElem?_eq_getElem hk1] at hk
      exact (Option.some.inj hk) ▸ List.getElem_mem hk1
    exact hq (hpq ▸ hmem)
  have hkey0 : ((Clock.idlePool n f content dirty ps).desc 0).file = some f ∧
      ((Clock.idlePool n f content dirty ps).desc 0).pageNo = ps.getD 0 0 := by
    rw [hidle 0 _ (hat 0 hn)]
    exact ⟨rfl, rfl⟩
  have hA0 : 0 < (Clock.allocBuf (Clock.idlePool n f content dirty ps)).state.numBufs :=
    s5.symm ▸ hn
  have hAB : 0 < (Clock.allocBuf (Clock.idlePool n f content dirty ps)).state.bufPool.length := by
    rw [s6, iB, fB]
    exact hn
  have hpage : ∀ k : Nat,
      (Clock.allocBuf (Clock.idlePool n f content dirty ps)).state.page k =
        (Clock.filledPool n f content ps).page k := by
    intro k
    show List.getD _ k default = List.getD _ k default
    rw [s6, iB]
  rw [clock_readPage_miss _ f q pg 0 hmiss s4]
  refine ⟨?_, ?_, ?_, ?_, s3, rfl, ?_, ?_, ?_, ?_, ?_⟩
  · show (n + 4294967295) % 4294967296 = n - 1
    omega
  · intro k p hk
    obtain ⟨d1, d2, d3⟩ := ffill k p hk (hkn k p hk)
    exact ⟨d3, d2, d1⟩
  · intro k p hk
    refine ⟨?_, hidle k p hk⟩
    rw [iT]
    exact (ffill k p hk (hkn k p hk)).2.2
  · refine ⟨t, s1, fun k hk => ⟨(hall k hk).2, ?_⟩⟩
    rw [s2 k hk]
  · exact desc_installed_self _ _ _ _ _ hA0
  · exact page_installed_self _ _ _ _ _ hAB
  · rw [hashTable_installed]
    exact lookup_insert_self _ _ _
  · intro k p hk h1
    have hk0 : k ≠ 0 := by omega
    have hkn1 := hkn k p hk
    obtain ⟨d1, d2, d3⟩ := ffill k p hk hkn1
    refine ⟨?_, ?_, ?_⟩
    · rw [hashTable_installed, lookup_insert_ne _ _ _ _ (hne k p hk), s7, hkey0.1, hkey0.2,
        lookup_remove_ne, iT]
      · exact d3
      · intro he
        have hpp : p = ps.getD 0 0 := congrArg Prod.snd he
        exact (List.nodup_iff_getElem?_ne_getElem?.1 hnd 0 k (by omega) (by omega))
          (by rw [hk, hat 0 hn, hpp])
    · rw [page_installed_ne _ _ _ _ _ _ hk0, hpage]
      exact d2
    · rw [desc_installed_ne _ _ _ _ _ _ hk0, s9 k h1 hkn1, hidle k p hk]
  · intro p hp
    have hp0 : p = ps.getD 0 0 := by
      rw [hat 0 hn] at hp
      exact (Option.some.inj hp).symm
    rw [hashTable_installed, lookup_insert_ne _ _ _ _ (hne 0 p hp), s7, hkey0.1, hkey0.2, hp0]
    exact lookup_remove_self _ _

theorem clock_eviction_order_on_fresh_pool_witness :
    [1, 2, 3].length = 3 ∧ [1, 2, 3].Nodup ∧ 4 ∉ [1, 2, 3] ∧
      (Clock.readPage (Clock.idlePool 3 1 (fun p => ⟨p, 10 * p⟩) (fun _ => false) [1, 2, 3])
        1 4 (some ⟨4, 40⟩)).out = .ok 0 ∧
      (Clock.readPage (Clock.idlePool 3 1 (fun p => ⟨p, 10 * p⟩) (fun _ => false) [1, 2, 3])
        1 4 (some ⟨4, 40⟩)).state.hashTable.lookup (some 1, 1) = none ∧
      (Clock.readPage (Clock.idlePool 3 1 (fun p => ⟨p, 10 * p⟩) (fun _ => false) [1, 2, 3])
        1 4 (some ⟨4, 40⟩)).state.hashTable.lookup (some 1, 2) = some 1 :=
  ⟨rfl, by decide, by decide,
    (clock_eviction_order_on_fresh_pool 3 (by decide) (by decide) 1 (fun p => ⟨p, 10 * p⟩)
      (fun _ => false) [1, 2, 3] rfl (by decide) 4 (by decide) ⟨4, 40⟩).2.2.2.2.2.1,
    (clock_eviction_order_on_fresh_pool 3 (by decide) (by decide) 1 (fun p => ⟨p, 10 * p⟩)
      (fun _ => false) [1, 2, 3] rfl (by decide) 4 (by decide) ⟨4, 40⟩).2.2.2.2.2.2.2.2.2.2
      1 rfl,
    ((clock_eviction_order_on_fresh_pool 3 (by decide) (by decide) 1 (fun p => ⟨p, 10 * p⟩)
      (fun _ => false) [1, 2, 3] rfl (by decide) 4 (by decide) ⟨4, 40⟩).2.2.2.2.2.2.2.2.2.1
      1 2 rfl (by decide)).1⟩

/-- C21, `BadBuffer` is unreachable: in every pool state reached from a freshly
constructed pool through any sequence of the public operations, returning or throwing,
in either variant, no descriptor has the file `f`, pin count 0 and `valid` false, and
`flushFile` called with the real file handle `f` does not throw `BadBuffer`. (With the
null pointer that `Clear()` stores the guard does fire: on a fresh pool of one frame
`flushFile(NULL)` throws `BadBuffer`.) -/
theorem badBuffer_unreachable (n : Nat) (ops : List Op) (f : Nat) :
    ((flushFile (Clock.run (BufMgr.init n) ops) (some f)).out ≠ .threw .BadBuffer ∧
      ∀ i, ¬ (((Clock.run (BufMgr.init n) ops).desc i).file = some f ∧
        ((Clock.run (BufMgr.init n) ops).desc i).pinCnt = 0 ∧
        ((Clock.run (BufMgr.init n) ops).desc i).valid = false)) ∧
    ((flushFile (Lru.run (BufMgr.init n) ops) (some f)).out ≠ .threw .BadBuffer ∧
      ∀ i, ¬ (((Lru.run (BufMgr.init n) ops).desc i).file = some f ∧
        ((Lru.run (BufMgr.init n) ops).desc i).pinCnt = 0 ∧
        ((Lru.run (BufMgr.init n) ops).desc i).valid = false)) ∧
    (flushFile (BufMgr.init 1) none).out = .threw .BadBuffer := by
  have hc := clock_run_noStale ops _ (noStale_init n)
  have hl := lru_run_noStale ops _ (noStale_init n)
  refine ⟨⟨flushFileFrom_no_badBuffer f _ _ _ _ hc, fun i h => ?_⟩,
    ⟨flushFileFrom_no_badBuffer f _ _ _ _ hl, fun i h => ?_⟩, by decide⟩
  · have := hc i h.2.2
    rw [h.1] at this
    exact Option.noConfusion this
  · have := hl i h.2.2
    rw [h.1] at this
    exact Option.noConfusion this

/-- C22, the two replacements agree on a full pool. Let `s` and `u` be the same pool
apart from the counters, of `N ≥ 1` frames with `2*N` fitting 32 bits, every descriptor
valid, at least one not pinned, and every counter of `u` non-negative. Then `allocBuf`
of the CLOCK variant on `s` and `allocBuf` of the LRU variant on `u` both return the same
frame `v`, make the same calls on the files, and leave the same pool apart from the
counters: same size, same frames, same map, same clock hand, and descriptors that agree
on every field but `counter`, `refbit` included. The counters of `u` are arbitrary, so
they do not influence the choice: the sweep of the LRU variant stops where the sweep of
the CLOCK variant does. -/
theorem lru_allocBuf_agrees_with_clock (s u : BufMgr) (h0 : 0 < s.numBufs)
    (h32 : s.numBufs < 2147483648) (hsame : SameButCounter s u)
    (hvalid : ∀ i : Nat, i < s.numBufs → (s.desc i).valid = true)
    (hfree : ∃ i : Nat, i < s.numBufs ∧ (s.desc i).pinCnt = 0)
    (hcnt : ∀ i : Nat, i < s.numBufs → 0 ≤ (u.desc i).counter) :
    ∃ v : Nat, (Clock.allocBuf s).out = .ok v ∧ (Lru.allocBuf u).out = .ok v ∧
      (Lru.allocBuf u).calls = (Clock.allocBuf s).calls ∧
      SameButCounter (Clock.allocBuf s).state (Lru.allocBuf u).state := by
  have hN := hsame.1
  have hB := hsame.2.1
  have hT := hsame.2.2.1
  have hH := hsame.2.2.2.1
  have hN0 : (Lru.bumpCounters u).numBufs = s.numBufs :=
    (lru_numBufs_bumpCounters u).trans hN
  have hag0 : ∀ j, AgreeButCounter (s.desc j) ((Lru.bumpCounters u).desc j) := by
    intro j
    obtain ⟨a1, a2, a3, a4, a5, a6⟩ := sameButCounter_desc hsame j
    rw [lru_desc_bumpCounters]
    split_ifs
    · exact ⟨a1, a2, a3, a4, a5, a6⟩
    · exact ⟨a1, a2, a3, a4, a5, a6⟩
  have hvalu : ∀ j : Nat, j < s.numBufs → (u.desc j).valid = true := by
    intro j hj
    exact (sameButCounter_desc hsame j).2.2.2.2.1.trans (hvalid j hj)
  have hcnt0 : ∀ j, j < s.numBufs → ((Lru.bumpCounters u).desc j).counter > -1 := by
    intro j hj
    rw [lru_desc_bumpCounters, if_pos (hvalu j hj)]
    have := hcnt j hj
    show (u.desc j).counter + 1 > -1
    omega
  have hfull : ¬ Lru.filledFrames (Lru.bumpCounters u) < (Lru.bumpCounters u).numBufs := by
    rw [lru_filledFrames_full]
    · exact Nat.lt_irrefl _
    · intro i hi
      rw [hN0] at hi
      exact (hag0 i).2.2.2.2.1.trans (hvalid i hi)
  obtain ⟨i, hi, hp⟩ := hfree
  obtain ⟨d, hd1, hdN, hreach⟩ := handAfter_reaches s.numBufs (by omega) s.clockHand i hi
  have hne := clock_allocBufLoop_candidate (2 * s.numBufs) s [] i d (by omega) hi hd1
    (by omega) hreach (Or.inr hp)
  rcases hl : Clock.allocBufLoop (2 * s.numBufs) s [] with ⟨_ | v, t, ds⟩
  · rw [hl] at hne
    exact absurd rfl hne
  · have hl1 : Clock.allocBufLoop (sweepBound s + 1) s [] = (some v, t, ds) := by
      rw [sweepBound_eq s h32, clock_allocBufLoop_mono (2 * s.numBufs) s [] 1 hne, hl]
    obtain ⟨hvt, hvN, hch, _⟩ := clock_allocBufLoop_some _ _ _ _ _ _ hl
    obtain ⟨w, w1, w2, w3, w4, w5, w6⟩ := lru_sweep_follows_clock (2 * s.numBufs) s
      (Lru.bumpCounters u) [] 0 v t ds h0 hN0 hB hT hH hag0 hvalid hcnt0 hl
    have hw : Lru.sweep (sweepBound (Lru.bumpCounters u)) (-1) 0 (Lru.bumpCounters u) [] =
        ⟨.ok v, w, ds⟩ := by
      rw [sweepBound_eq _ (hN0.symm ▸ h32), hN0]
      exact w1
    have hvt1 : v < t.numBufs := hch.1.symm ▸ hvN h0
    have hvw : v < w.numBufs := w2.symm ▸ hvt1
    refine ⟨v, ?_, ?_, ?_, ?_⟩
    · simp only [Clock.allocBuf, hl1]
    · simp only [Lru.allocBuf, hfull, if_false, hw]
    · simp only [Lru.allocBuf, hfull, if_false, hw, Clock.allocBuf, hl1]
    · simp only [Lru.allocBuf, hfull, if_false, hw, Clock.allocBuf, hl1]
      rw [← hvt]
      refine ⟨?_, w3, w5.symm, w4, ?_⟩
      · exact (numBufs_setDesc _ _ _).trans (w2.trans (numBufs_setDesc _ _ _).symm)
      · intro j _
        by_cases hj : j = v
        · subst hj
          rw [desc_setDesc_self _ _ _ hvt1, desc_setDesc_self _ _ _ (by exact hvw)]
          exact agreeButCounter_refl _
        · rw [desc_setDesc_ne _ _ _ _ hj, desc_setDesc_ne _ _ _ _ hj]
          exact w6 j

theorem lru_allocBuf_agrees_with_clock_witness :
    SameButCounter agedPoolClock agedPool ∧
      (agedPool.desc 0).counter = 1 ∧ (agedPool.desc 1).counter = 5 ∧
      (agedPool.desc 2).counter = 3 ∧ (agedPoolClock.desc 1).counter = 0 ∧
      ∃ v : Nat, (Clock.allocBuf agedPoolClock).out = .ok v ∧
        (Lru.allocBuf agedPool).out = .ok v ∧
        (Lru.allocBuf agedPool).calls = (Clock.allocBuf agedPoolClock).calls ∧
        SameButCounter (Clock.allocBuf agedPoolClock).state (Lru.allocBuf agedPool).state :=
  ⟨by decide, by decide, by decide, by decide, by decide,
    lru_allocBuf_agrees_with_clock agedPoolClock agedPool (by decide) (by decide) (by decide)
      (by decide) ⟨0, by decide, by decide⟩ (by decide)⟩
